import Mathlib

/-!
A shallow embedding of the `superreload` package (`superreload/__init__.py`)
and proofs about its reload / propagation engine.

The embedding models the fragment of the Python runtime the code manipulates:
modules with a `__dict__` mapping names to values, a heap of class objects
(identified by numeric ids, since classes are mutable and aliased), a heap of
instances carrying a dynamic-type pointer, and functions as immutable values
carrying their `__module__` and `__name__` attributes.  Python dicts are
modelled as association lists preserving insertion order; identity of
functions/classes is modelled by numeric ids.  Host-level fallibility that the
source code is exposed to is modelled explicitly: introspecting a module can
raise (`raisesOnIntrospection`), assigning `__class__` on an instance can be
rejected (`retypable`), and `importlib.reload` is an opaque oracle that either
fails or delivers a new module dict (plus freshly created class objects).
-/

namespace SuperReload

/-- Association-list lookup, first match (models Python dict access). -/
def alookup {κ α : Type} [DecidableEq κ] : List (κ × α) → κ → Option α
  | [], _ => none
  | (k, v) :: t, k0 => if k = k0 then some v else alookup t k0

/-- Association-list update: replace the first binding of the key in place, or
append a new binding at the end (models Python dict item assignment). -/
def aset {κ α : Type} [DecidableEq κ] : List (κ × α) → κ → α → List (κ × α)
  | [], k0, v0 => [(k0, v0)]
  | (k, v) :: t, k0, v0 => if k = k0 then (k0, v0) :: t else (k, v) :: aset t k0 v0

/-- Append an element to the list stored under a key, creating the list if
absent (models `dict.setdefault(key, []).append(x)`). -/
def aappend {κ α : Type} [DecidableEq κ] (l : List (κ × List α)) (k : κ) (x : α) :
    List (κ × List α) :=
  match alookup l k with
  | some xs => aset l k (xs ++ [x])
  | none => l ++ [(k, [x])]

/-- A Python function object: identity plus `__module__` and `__name__`. -/
structure FuncObj where
  fid : Nat
  moduleAttr : Option String
  fname : String
deriving DecidableEq, Repr

/-- A value stored in a module dict: a function, a reference into the class
heap, or any other datum (carrying its truthiness, used by `if not new_class`). -/
inductive PyVal where
  | func : FuncObj → PyVal
  | clsRef : Nat → PyVal
  | dataVal : Nat → Bool → PyVal
deriving DecidableEq, Repr

/-- An entry of a class `__dict__`: a plain function (`FunctionType` or
`BuiltinFunctionType`), a `staticmethod` or `classmethod` wrapping an inner
function, or any other member. -/
inductive ClsMember where
  | plainFunc : FuncObj → ClsMember
  | staticM : FuncObj → ClsMember
  | classM : FuncObj → ClsMember
  | otherMem : Nat → ClsMember
deriving DecidableEq, Repr

/-- A class object: `__module__`, `__name__`, `__bases__` (class-heap ids, in
order) and its own `__dict__`. -/
structure ClassObj where
  moduleAttr : Option String
  cname : String
  bases : List Nat
  cdict : List (String × ClsMember)
deriving DecidableEq, Repr

/-- A loaded module: `__name__`, `__dict__`, and whether introspecting its
members raises in the host (e.g. a metaclass property for `__module__`). -/
structure PyModule where
  mname : String
  mdict : List (String × PyVal)
  raisesOnIntrospection : Bool
deriving DecidableEq, Repr

/-- A heap-resident instance: identity, dynamic-type pointer (class-heap id),
and whether the host permits reassigning its `__class__`. -/
structure InstObj where
  iid : Nat
  itype : Nat
  retypable : Bool
deriving DecidableEq, Repr

/-- The interpreter state visible to superreload: `sys.modules`, the class
heap, and the enumerable object heap (`gc.get_objects`). -/
structure PyState where
  modules : List PyModule
  classes : List (Nat × ClassObj)
  instances : List InstObj
deriving DecidableEq, Repr

/-- Identity of a class-or-function member, as used by the staleness set
(`_old_members_set` membership is identity-based). -/
inductive MemberId where
  | funcId : Nat → MemberId
  | clsId : Nat → MemberId
deriving DecidableEq, Repr

/-- Events emitted through the logger. -/
inductive LogEvent where
  | debugCouldNotUpdateInstance : Nat → LogEvent
  | debugMissingClass : String → LogEvent
  | errorReloadFailed : String → LogEvent
deriving DecidableEq, Repr

def getModule (st : PyState) (name : String) : Option PyModule :=
  st.modules.find? (fun m => m.mname == name)

def getClass (st : PyState) (cid : Nat) : Option ClassObj :=
  alookup st.classes cid

/-- The `__module__` / `__name__` attributes and identity of a module-dict
value, when it is a function or a class.  A dangling class reference yields
`none`; such states are excluded by the well-formedness hypotheses of the
theorems below. -/
structure MemberAttrs where
  moduleAttr : Option String
  attrName : String
  mid : MemberId
deriving DecidableEq, Repr

def valAttrs (st : PyState) : PyVal → Option MemberAttrs
  | .func f => some ⟨f.moduleAttr, f.fname, .funcId f.fid⟩
  | .clsRef c => (getClass st c).map (fun co => ⟨co.moduleAttr, co.cname, .clsId c⟩)
  | .dataVal _ _ => none

def valModuleAttr (st : PyState) (v : PyVal) : Option String :=
  (valAttrs st v).bind (fun a => a.moduleAttr)

def memberId (st : PyState) (v : PyVal) : Option MemberId :=
  (valAttrs st v).map (fun a => a.mid)

/-- `_get_full_member_name`: `member.__module__ + "." + member.__name__`.
Only ever applied to values that passed the `_iter_members` filter, where the
module attribute is not `None`; the defaults are unreachable there. -/
def fullMemberName (st : PyState) (v : PyVal) : String :=
  match valAttrs st v with
  | some a => a.moduleAttr.getD "" ++ "." ++ a.attrName
  | none => ""

/-- `_iter_members`: the (name, value) pairs of a module dict that are classes
or functions whose `__module__` attribute is not `None`. -/
def iterMembersList (st : PyState) (m : PyModule) : List (String × PyVal) :=
  m.mdict.filter (fun p =>
    match valAttrs st p.2 with
    | some a => a.moduleAttr.isSome
    | none => false)

/-- `_iter_internal_members`: members whose `__module__` equals the module's
name. -/
def iterInternalList (st : PyState) (m : PyModule) : List (String × PyVal) :=
  (iterMembersList st m).filter (fun p => valModuleAttr st p.2 == some m.mname)

/-- `_iter_external_members`: members whose `__module__` differs from the
module's name. -/
def iterExternalList (st : PyState) (m : PyModule) : List (String × PyVal) :=
  (iterMembersList st m).filter (fun p => valModuleAttr st p.2 != some m.mname)

/-- Introspecting a module's members can raise inside the host; none of the
scans in the source catch this, so it is surfaced as `Except`. -/
def introspectMembers (st : PyState) (m : PyModule) :
    Except Unit (List (String × PyVal)) :=
  if m.raisesOnIntrospection then .error () else .ok (iterMembersList st m)

def introspectInternal (st : PyState) (m : PyModule) :
    Except Unit (List (String × PyVal)) :=
  if m.raisesOnIntrospection then .error () else .ok (iterInternalList st m)

def introspectExternal (st : PyState) (m : PyModule) :
    Except Unit (List (String × PyVal)) :=
  if m.raisesOnIntrospection then .error () else .ok (iterExternalList st m)

/-- The caches built by `_ModuleUpdator.build_caches`. -/
structure Caches where
  oldMembersSet : List MemberId
  oldMembersMap : List (String × List (String × PyVal))
  referenceCache : List (String × List (String × String × PyVal))
  instanceCache : List (Nat × List Nat)
deriving DecidableEq, Repr

/-- `_build_old_member_cache`: per target module, add all of its members (as
identities) to the staleness set, and store a full copy of its dict in the
old-members map (the copy is the whole `__dict__`, unfiltered). -/
def build_old_member_cache (st : PyState) (mods : List PyModule) :
    Except Unit (List MemberId × List (String × List (String × PyVal))) :=
  mods.foldlM (fun acc mod => do
    let ms ← introspectMembers st mod
    let ids := ms.filterMap (fun p => memberId st p.2)
    .ok (acc.1 ++ ids, aset acc.2 mod.mname mod.mdict)) ([], [])

/-- Record one scanned external member in the reference cache when its
identity is in the staleness set. -/
def refCacheAdd (st : PyState) (oldSet : List MemberId) (modName : String)
    (c : List (String × List (String × String × PyVal))) (p : String × PyVal) :
    List (String × List (String × String × PyVal)) :=
  match memberId st p.2 with
  | some mid =>
    if mid ∈ oldSet then aappend c (fullMemberName st p.2) (modName, p.1, p.2)
    else c
  | none => c

/-- Scan one loaded module for the reference cache (its introspection may
raise, and nothing catches that). -/
def refCacheScanModule (st : PyState) (oldSet : List MemberId)
    (cache : List (String × List (String × String × PyVal))) (mod : PyModule) :
    Except Unit (List (String × List (String × String × PyVal))) := do
  let ms ← introspectExternal st mod
  .ok (ms.foldl (refCacheAdd st oldSet mod.mname) cache)

/-- `_build_external_reference_cache`: scan every loaded module's external
members; those in the staleness set are recorded under their full name as
(holding module, local name, member).  No introspection error is caught. -/
def build_external_reference_cache (st : PyState) (oldSet : List MemberId) :
    Except Unit (List (String × List (String × String × PyVal))) :=
  st.modules.foldlM (refCacheScanModule st oldSet) []

/-- `_build_instance_cache`: walk the object heap once; instances whose dynamic
type is in the staleness set are recorded under that type. -/
def build_instance_cache (st : PyState) (oldSet : List MemberId) : List (Nat × List Nat) :=
  st.instances.foldl (fun c ins =>
    if MemberId.clsId ins.itype ∈ oldSet then aappend c ins.itype ins.iid else c) []

/-- The target modules, resolved from `sys.modules` by name (the Python entry
points receive the module objects directly; names play that role here). -/
def resolveModules (st : PyState) (names : List String) : List PyModule :=
  names.filterMap (getModule st)

/-- `build_caches`: old-member cache first, then reference and instance caches
(which consult the staleness set). -/
def build_caches (st : PyState) (names : List String) : Except Unit Caches := do
  let oldc ← build_old_member_cache st (resolveModules st names)
  let refc ← build_external_reference_cache st oldc.1
  let instc := build_instance_cache st oldc.1
  .ok ⟨oldc.1, oldc.2, refc, instc⟩

/-- Write one value into one module's dict
(`other_mod.__dict__.update({name: member})`). -/
def setModuleVal (st : PyState) (modName localName : String) (v : PyVal) : PyState :=
  { st with
    modules := st.modules.map (fun m =>
      if m.mname = modName then { m with mdict := aset m.mdict localName v } else m) }

/-- Apply a sequence of (holding module, local name, value) writes in order. -/
def applyWrites (st : PyState) (ws : List (String × String × PyVal)) : PyState :=
  ws.foldl (fun s w => setModuleVal s w.1 w.2.1 w.2.2) st

/-- `update_other_modules_refs`: for each of the module's (new) internal
members, write it into every (holder, local name) pair recorded in the
reference cache under its full name.  The member list is evaluated against the
module's current dict; the writes only touch other modules (holders of an
external binding have a different name). -/
def update_other_modules_refs (cache : List (String × List (String × String × PyVal)))
    (st : PyState) (modName : String) : Except Unit PyState :=
  match getModule st modName with
  | none => .ok st
  | some m => do
    let ims ← introspectInternal st m
    .ok (applyWrites st (ims.flatMap (fun p =>
      ((alookup cache (fullMemberName st p.2)).getD []).map
        (fun e => (e.1, e.2.1, p.2)))))

/-- Reassign the dynamic type of the instance with the given id. -/
def setInstanceClass (st : PyState) (iid newC : Nat) : PyState :=
  { st with
    instances := st.instances.map (fun ins =>
      if ins.iid = iid then { ins with itype := newC } else ins) }

/-- One attempt of `ref.__class__ = new_class`: a rejected retyping is caught,
logged at debug level, and the instance is left unchanged. -/
def update_instances_step (newC : Nat) (acc : PyState × List LogEvent) (iid : Nat) :
    PyState × List LogEvent :=
  match acc.1.instances.find? (fun ins => ins.iid == iid) with
  | some ins =>
    if ins.retypable then (setInstanceClass acc.1 iid newC, acc.2)
    else (acc.1, acc.2 ++ [.debugCouldNotUpdateInstance iid])
  | none => acc

/-- `update_instances`: for each cached instance of the old class, try
`ref.__class__ = new_class`; failures are logged and the loop continues. -/
def update_instances (icache : List (Nat × List Nat)) (st : PyState) (oldC newC : Nat) :
    PyState × List LogEvent :=
  ((alookup icache oldC).getD []).foldl (update_instances_step newC) (st, [])

/-- Replace one class object in the heap. -/
def setClassObj (st : PyState) (cid : Nat) (co : ClassObj) : PyState :=
  { st with classes := st.classes.map (fun p => if p.1 = cid then (cid, co) else p) }

/-- Does base `b` match the new class by `__module__` and `__name__`? -/
def baseMatches (st : PyState) (b : Nat) (nco : ClassObj) : Bool :=
  match getClass st b with
  | some bco => bco.moduleAttr == nco.moduleAttr && bco.cname == nco.cname
  | none => false

/-- `update_subclasses`: for every direct subclass of the old class
(`type.__subclasses__`, i.e. classes whose `__bases__` contain it, computed
once up front), rebuild its base list, replacing each base whose `__module__`
and `__name__` match the new class by the new class, and keeping every other
base in place. -/
def update_subclasses_step (nco : ClassObj) (newC : Nat) (s : PyState)
    (p : Nat × ClassObj) : PyState :=
  match getClass s p.1 with
  | some sco =>
    setClassObj s p.1
      { sco with bases := sco.bases.map (fun b => if baseMatches s b nco then newC else b) }
  | none => s

def update_subclasses (st : PyState) (oldC newC : Nat) : PyState :=
  match getClass st newC with
  | none => st
  | some nco =>
    (st.classes.filter (fun p => oldC ∈ p.2.bases)).foldl (update_subclasses_step nco newC) st

/-- Python truthiness of a module-dict value (`if not new_class`): functions
and classes are truthy; other data carries its own flag. -/
def truthyVal : PyVal → Bool
  | .dataVal _ t => t
  | _ => true

/-- The old internal classes of a module, read from the old-members map:
values of the snapshotted dict that are classes whose `__module__` equals the
module's name. -/
def oldInternalClasses (st : PyState) (caches : Caches) (modName : String) : List Nat :=
  ((alookup caches.oldMembersMap modName).getD []).filterMap (fun p =>
    match p.2 with
    | .clsRef c =>
      match getClass st c with
      | some co => if co.moduleAttr == some modName then some c else none
      | none => none
    | _ => none)

/-- One iteration of the old-class loop in `update_stale_modules_and_instances`:
look the old class's name up in the module's current dict; a missing or falsy
result is logged and skipped; a class is propagated to subclasses and
instances.  A truthy non-class same-named replacement would flow into the
`__bases__` assignment and raise in the host (uncaught in the source), which
is modelled by `.error`. -/
def update_one_stale_class (caches : Caches) (modName : String)
    (acc : PyState × List LogEvent) (oldC : Nat) : Except Unit (PyState × List LogEvent) :=
  match getModule acc.1 modName with
  | none => .ok acc
  | some m =>
    match getClass acc.1 oldC with
    | none => .ok acc
    | some oco =>
      match alookup m.mdict oco.cname with
      | none => .ok (acc.1, acc.2 ++ [.debugMissingClass oco.cname])
      | some nv =>
        if truthyVal nv then
          match nv with
          | .clsRef nc =>
            let s1 := update_subclasses acc.1 oldC nc
            let r := update_instances caches.instanceCache s1 oldC nc
            .ok (r.1, acc.2 ++ r.2)
          | _ => .error ()
        else .ok (acc.1, acc.2 ++ [.debugMissingClass oco.cname])

/-- One module's propagation step: repair external bindings, then walk the
snapshotted internal classes and repair subclasses and instances of each one
that still has a same-named successor. -/
def update_stale_step (caches : Caches) (acc : PyState × List LogEvent)
    (modName : String) : Except Unit (PyState × List LogEvent) := do
  let s1 ← update_other_modules_refs caches.referenceCache acc.1 modName
  let olds := oldInternalClasses s1 caches modName
  olds.foldlM (fun a c => update_one_stale_class caches modName a c) (s1, acc.2)

/-- `update_stale_modules_and_instances`: run the propagation step over every
module of the batch. -/
def update_stale_modules_and_instances (caches : Caches) (names : List String)
    (st : PyState) : Except Unit (PyState × List LogEvent) :=
  names.foldlM (update_stale_step caches) (st, [])

/-- The outcome of a successful `importlib.reload`: the module's repopulated
dict, plus the class objects newly created by re-executing the source (fresh
heap entries). -/
structure ModReload where
  newDict : List (String × PyVal)
  newClasses : List (Nat × ClassObj)
deriving DecidableEq, Repr

/-- Apply a successful reload: the module object keeps its identity, its dict
is replaced, and the new class objects join the heap. -/
def applyReload (st : PyState) (modName : String) (r : ModReload) : PyState :=
  { st with
    modules := st.modules.map (fun m =>
      if m.mname = modName then { m with mdict := r.newDict } else m),
    classes := st.classes ++ r.newClasses }

/-- The state of the recompilation driver's loop in `superreload`. -/
structure DriverState where
  st : PyState
  queue : List String
  failCounter : List (String × Nat)
  reloadedMods : List String
  failedMods : List String
deriving DecidableEq, Repr

/-- The retry budget (`max_fails = 10`). -/
def maxFails : Nat := 10

/-- The driver loop: pop the front of the queue; on success record the module
as reloaded; on failure either record the error (budget exhausted) or bump the
fail counter and re-enqueue at the back.  The reload oracle is indexed by the
module's failure count so far (the opaque `importlib.reload` may start
succeeding once other modules have been reloaded).  The loop terminates
because every module fails at most `maxFails` times; the fuel below is an
upper bound on the number of iterations. -/
def runQueue (oracle : String → Nat → Option ModReload) :
    Nat → DriverState → DriverState
  | 0, ds => ds
  | fuel + 1, ds =>
    match ds.queue with
    | [] => ds
    | m :: rest =>
      let fails := (alookup ds.failCounter m).getD 0
      if fails < maxFails then
        match oracle m fails with
        | some r =>
          runQueue oracle fuel
            { ds with st := applyReload ds.st m r, queue := rest,
                      reloadedMods := ds.reloadedMods ++ [m] }
        | none =>
          if fails + 1 = maxFails then
            runQueue oracle fuel { ds with queue := rest, failedMods := ds.failedMods ++ [m] }
          else
            runQueue oracle fuel
              { ds with queue := rest ++ [m], failCounter := aset ds.failCounter m (fails + 1) }
      else
        runQueue oracle fuel { ds with queue := rest }

def driverFuel (names : List String) : Nat :=
  11 * names.length + 1

def runDriver (oracle : String → Nat → Option ModReload) (names : List String)
    (st : PyState) : DriverState :=
  runQueue oracle (driverFuel names) ⟨st, names, [], [], []⟩

/-- `superreload`: build the caches, drain the retry queue, propagate the
successfully reloaded modules, then report the recorded errors. -/
def superreload (oracle : String → Nat → Option ModReload) (names : List String)
    (st : PyState) : Except Unit (PyState × List LogEvent) := do
  let caches ← build_caches st names
  let ds := runDriver oracle names st
  let r ← update_stale_modules_and_instances caches ds.reloadedMods ds.st
  .ok (r.1, r.2 ++ ds.failedMods.map LogEvent.errorReloadFailed)

/-- Should `wrap_class` skip this member name?  Source:
`if member_names and name not in member_names: continue`. -/
def skipMemberName (memberNames : Option (List String)) (nm : String) : Bool :=
  match memberNames with
  | none => false
  | some l => !l.isEmpty && !l.contains nm

/-- Wrap one class-dict entry: a plain function is wrapped directly; a
`staticmethod` / `classmethod` has its inner function wrapped and is rewrapped
in the same descriptor type; anything else is left untouched. -/
def wrapClassMember (wrapper : FuncObj → String → FuncObj) (co : ClassObj)
    (p : String × ClsMember) : String × ClsMember :=
  let full := co.moduleAttr.getD "" ++ "." ++ co.cname ++ "." ++ p.1
  match p.2 with
  | .plainFunc f => (p.1, .plainFunc (wrapper f full))
  | .staticM f => (p.1, .staticM (wrapper f full))
  | .classM f => (p.1, .classM (wrapper f full))
  | .otherMem _ => p

/-- `wrap_class`: wrap each directly declared member of the class in place and
return the (mutated) class. -/
def wrap_class (wrapper : FuncObj → String → FuncObj) (st : PyState) (cid : Nat)
    (memberNames : Option (List String)) : PyState :=
  match getClass st cid with
  | none => st
  | some co =>
    setClassObj st cid
      { co with cdict := co.cdict.map (fun p =>
          if skipMemberName memberNames p.1 then p else wrapClassMember wrapper co p) }

/-- Apply the collected `updates` dict to a module
(`mod.__dict__.update(updates)`). -/
def applyUpdates (st : PyState) (modName : String) (updates : List (String × PyVal)) :
    PyState :=
  { st with
    modules := st.modules.map (fun m =>
      if m.mname = modName then
        { m with mdict := updates.foldl (fun d u => aset d u.1 u.2) m.mdict }
      else m) }

/-- One member of the wrap loop: a function is wrapped directly and recorded
in the updates dict; a class is wrapped in place (class heap mutation) and its
existing reference recorded; anything else is untouched (unreachable, since
only internal members are iterated). -/
def superwrapper_step (wrapper : FuncObj → String → FuncObj)
    (acc : PyState × List (String × PyVal)) (p : String × PyVal) :
    PyState × List (String × PyVal) :=
  match p.2 with
  | .func f =>
    (acc.1, aset acc.2 p.1 (.func (wrapper f (f.moduleAttr.getD "" ++ "." ++ f.fname))))
  | .clsRef c => (wrap_class wrapper acc.1 c none, aset acc.2 p.1 (.clsRef c))
  | .dataVal _ _ => acc

/-- Wrap one target module: wrap every internal member, then update the
module dict with the wrapped forms (`mod.__dict__.update(updates)`). -/
def superwrapper_mod (wrapper : FuncObj → String → FuncObj) (s : PyState)
    (modName : String) : Except Unit PyState :=
  match getModule s modName with
  | none => .ok s
  | some m => do
    let ims ← introspectInternal s m
    let r := ims.foldl (superwrapper_step wrapper) (s, [])
    .ok (applyUpdates r.1 modName r.2)

/-- `superwrapper`: build the caches, wrap every target module, and finally
run the same propagation pass as `superreload` over the target modules. -/
def superwrapper (wrapper : FuncObj → String → FuncObj) (names : List String)
    (st : PyState) : Except Unit (PyState × List LogEvent) := do
  let caches ← build_caches st names
  let st2 ← names.foldlM (superwrapper_mod wrapper) st
  update_stale_modules_and_instances caches names st2

/-! ## Generic helper lemmas -/

theorem eq_of_mem_pairwise_key {α κ : Type} (key : α → κ) {l : List α}
    (h : l.Pairwise (fun a b => key a ≠ key b)) {a b : α}
    (ha : a ∈ l) (hb : b ∈ l) (hk : key a = key b) : a = b := by
  induction l with
  | nil => cases ha
  | cons x t ih =>
    rcases List.pairwise_cons.mp h with ⟨hx, ht⟩
    rcases List.mem_cons.mp ha with ha0 | ha1
    · rcases List.mem_cons.mp hb with hb0 | hb1
      · exact ha0.trans hb0.symm
      · subst ha0; exact absurd hk (hx b hb1)
    · rcases List.mem_cons.mp hb with hb0 | hb1
      · subst hb0; exact absurd hk.symm (hx a ha1)
      · exact ih ht ha1 hb1

theorem map_eq_self_of_forall {α : Type} {f : α → α} {l : List α}
    (h : ∀ a ∈ l, f a = a) : l.map f = l := by
  induction l with
  | nil => rfl
  | cons x t ih =>
    simp only [List.map_cons, h x (List.mem_cons_self x t),
      ih (fun a ha => h a (List.mem_cons_of_mem x ha))]

theorem alookup_aset_self {κ α : Type} [DecidableEq κ] {l : List (κ × α)} {k : κ} {v : α}
    (h : alookup l k = some v) : aset l k v = l := by
  induction l with
  | nil => simp [alookup] at h
  | cons p t ih =>
    cases p with
    | mk k1 v1 =>
      by_cases hk : k1 = k
      · subst hk
        simp only [alookup, if_pos] at h
        injection h with h
        simp [aset, h]
      · simp only [alookup, hk, if_false] at h
        simp [aset, hk, ih h]

/-! ## Properties of `update_instances` (claim C5 area) -/

theorem setInstanceClass_modules (st : PyState) (iid c : Nat) :
    (setInstanceClass st iid c).modules = st.modules := rfl

theorem setInstanceClass_classes (st : PyState) (iid c : Nat) :
    (setInstanceClass st iid c).classes = st.classes := rfl

/-- The predicate deciding whether retargeting the cached instance `iid` is
rejected (and hence logged) when run against heap `l`. -/
def retypeRejected (l : List InstObj) (iid : Nat) : Bool :=
  match l.find? (fun ins => ins.iid == iid) with
  | some ins => !ins.retypable
  | none => false

theorem update_instances_fold_spec (newC : Nat) (l : List Nat) :
    ∀ (st : PyState) (lg : List LogEvent),
    st.instances.Pairwise (fun a b => a.iid ≠ b.iid) →
    (l.foldl (update_instances_step newC) (st, lg)).1.instances
        = st.instances.map (fun ins =>
            if ins.iid ∈ l ∧ ins.retypable then { ins with itype := newC } else ins)
      ∧ (l.foldl (update_instances_step newC) (st, lg)).1.modules = st.modules
      ∧ (l.foldl (update_instances_step newC) (st, lg)).1.classes = st.classes
      ∧ (l.foldl (update_instances_step newC) (st, lg)).2
          = lg ++ (l.filter (retypeRejected st.instances)).map
              LogEvent.debugCouldNotUpdateInstance := by
  induction l with
  | nil =>
    intro st lg _
    refine ⟨?_, rfl, rfl, by simp⟩
    refine ((map_eq_self_of_forall ?_).symm)
    intro a _
    simp
  | cons c t ih =>
    intro st lg hdist
    simp only [List.foldl_cons]
    cases hf : st.instances.find? (fun ins => ins.iid == c) with
    | none =>
      have hnone : ∀ ins ∈ st.instances, ins.iid ≠ c := by
        intro ins hins
        have := List.find?_eq_none.mp hf ins hins
        simpa using this
      have hstep : update_instances_step newC (st, lg) c = (st, lg) := by
        unfold update_instances_step
        simp [hf]
      rw [hstep]
      rcases ih st lg hdist with ⟨h1, h2, h3, h4⟩
      refine ⟨?_, h2, h3, ?_⟩
      · rw [h1]
        apply List.map_congr_left
        intro ins hins
        have : (ins.iid ∈ c :: t ∧ ins.retypable) ↔ (ins.iid ∈ t ∧ ins.retypable) := by
          constructor
          · rintro ⟨hm, hr⟩
            rcases List.mem_cons.mp hm with h0 | h0
            · exact absurd h0 (hnone ins hins)
            · exact ⟨h0, hr⟩
          · rintro ⟨hm, hr⟩
            exact ⟨List.mem_cons_of_mem c hm, hr⟩
        simp only [this]
      · rw [h4]
        have : retypeRejected st.instances c = false := by
          unfold retypeRejected
          simp [hf]
        simp [List.filter_cons, this]
    | some ins =>
      have hmem := List.mem_of_find?_eq_some hf
      have hiid : ins.iid = c := by
        have := List.find?_some hf
        simpa using this
      by_cases hr : ins.retypable
      · have hstep : update_instances_step newC (st, lg) c = (setInstanceClass st c newC, lg) := by
          unfold update_instances_step
          simp [hf, hr]
        rw [hstep]
        have hdist2 : (setInstanceClass st c newC).instances.Pairwise
            (fun a b => a.iid ≠ b.iid) := by
          unfold setInstanceClass
          simp only [List.pairwise_map]
          refine hdist.imp ?_
          intro a b hab
          have ga : (if a.iid = c then { a with itype := newC } else a).iid = a.iid := by
            by_cases h : a.iid = c <;> simp [h]
          have gb : (if b.iid = c then { b with itype := newC } else b).iid = b.iid := by
            by_cases h : b.iid = c <;> simp [h]
          rw [ga, gb]
          exact hab
        rcases ih (setInstanceClass st c newC) lg hdist2 with ⟨h1, h2, h3, h4⟩
        have hinst : (setInstanceClass st c newC).instances
            = st.instances.map (fun i => if i.iid = c then { i with itype := newC } else i) := rfl
        refine ⟨?_, by rw [h2]; rfl, by rw [h3]; rfl, ?_⟩
        · rw [h1, hinst, List.map_map]
          apply List.map_congr_left
          intro i hi
          by_cases hic : i.iid = c
          · have hieq : i = ins := eq_of_mem_pairwise_key (fun x => x.iid) hdist hi hmem
              (show i.iid = ins.iid from hic.trans hiid.symm)
            subst hieq
            simp only [Function.comp_apply, hic, if_pos]
            have hcm : i.iid ∈ c :: t := by rw [hic]; exact List.mem_cons_self c t
            by_cases htm : i.iid ∈ t <;> simp [htm, hr, hcm]
          · simp only [Function.comp_apply, hic, if_neg, not_false_iff]
            have : (i.iid ∈ c :: t) ↔ (i.iid ∈ t) := by
              constructor
              · intro hm
                rcases List.mem_cons.mp hm with h0 | h0
                · exact absurd h0 hic
                · exact h0
              · exact fun hm => List.mem_cons_of_mem c hm
            simp only [this]
        · rw [h4]
          have hrej : retypeRejected st.instances c = false := by
            unfold retypeRejected
            simp [hf, hr]
          have hfilter : t.filter (retypeRejected (setInstanceClass st c newC).instances)
              = t.filter (retypeRejected st.instances) := by
            apply List.filter_congr
            intro x _
            unfold retypeRejected
            rw [hinst]
            rw [List.find?_map]
            have : ((fun i => i.iid == x) ∘ fun i =>
                if i.iid = c then { i with itype := newC } else i)
                = (fun (i : InstObj) => i.iid == x) := by
              funext i
              by_cases hic : i.iid = c <;> simp [hic]
            rw [this]
            cases st.instances.find? (fun i => i.iid == x) with
            | none => simp
            | some j => by_cases hj : j.iid = c <;> simp [hj]
          rw [hfilter]
          simp [List.filter_cons, hrej]
      · have hstep : update_instances_step newC (st, lg) c
            = (st, lg ++ [.debugCouldNotUpdateInstance c]) := by
          unfold update_instances_step
          simp [hf, hr]
        rw [hstep]
        rcases ih st (lg ++ [.debugCouldNotUpdateInstance c]) hdist with ⟨h1, h2, h3, h4⟩
        refine ⟨?_, h2, h3, ?_⟩
        · rw [h1]
          apply List.map_congr_left
          intro i hi
          by_cases hic : i.iid = c
          · have hieq : i = ins := eq_of_mem_pairwise_key (fun x => x.iid) hdist hi hmem
              (show i.iid = ins.iid from hic.trans hiid.symm)
            subst hieq
            simp [hr]
          · have : (i.iid ∈ c :: t) ↔ (i.iid ∈ t) := by
              constructor
              · intro hm
                rcases List.mem_cons.mp hm with h0 | h0
                · exact absurd h0 hic
                · exact h0
              · exact fun hm => List.mem_cons_of_mem c hm
            simp only [this]
        · rw [h4]
          have hrej : retypeRejected st.instances c = true := by
            unfold retypeRejected
            simp [hf, hr]
          simp [List.filter_cons, hrej]

/-- C5: for every Live Instance cached under an old Type, retargeting sets its
dynamic type to the new Type when the host allows it; a rejected retyping is
caught, logged at debug level, leaves that instance unchanged, and does not
stop the remaining instances from being attempted; nothing else in the state
changes, and no failure escapes (the operation is total). -/
theorem C5_instance_retargeting_best_effort
    (icache : List (Nat × List Nat)) (st : PyState) (oldC newC : Nat)
    (hdist : st.instances.Pairwise (fun a b => a.iid ≠ b.iid)) :
    (update_instances icache st oldC newC).1.instances
        = st.instances.map (fun ins =>
            if ins.iid ∈ (alookup icache oldC).getD [] ∧ ins.retypable
            then { ins with itype := newC } else ins)
      ∧ (update_instances icache st oldC newC).1.modules = st.modules
      ∧ (update_instances icache st oldC newC).1.classes = st.classes
      ∧ (update_instances icache st oldC newC).2
          = (((alookup icache oldC).getD []).filter (retypeRejected st.instances)).map
              LogEvent.debugCouldNotUpdateInstance := by
  have h := update_instances_fold_spec newC ((alookup icache oldC).getD []) st [] hdist
  rcases h with ⟨h1, h2, h3, h4⟩
  exact ⟨h1, h2, h3, by rw [update_instances, h4]; simp⟩

theorem C5_witness :
    (let icache : List (Nat × List Nat) := [(5, [1, 2])]
     let st : PyState := ⟨[], [], [⟨1, 5, true⟩, ⟨2, 5, false⟩]⟩
     st.instances.Pairwise (fun a b => a.iid ≠ b.iid)
       ∧ (update_instances icache st 5 9).1.instances
           = [⟨1, 9, true⟩, ⟨2, 5, false⟩]
       ∧ (update_instances icache st 5 9).2 = [.debugCouldNotUpdateInstance 2]) := by
  refine ⟨by decide, ?_, ?_⟩
  · have h := C5_instance_retargeting_best_effort [(5, [1, 2])] ⟨[], [], [⟨1, 5, true⟩, ⟨2, 5, false⟩]⟩ 5 9 (by decide)
    rw [h.1]
    decide
  · have h := C5_instance_retargeting_best_effort [(5, [1, 2])] ⟨[], [], [⟨1, 5, true⟩, ⟨2, 5, false⟩]⟩ 5 9 (by decide)
    rw [h.2.2.2]
    decide

/-! ## Properties of `update_subclasses` (claim C4 area) -/

theorem alookup_of_mem_distinct {κ α : Type} [DecidableEq κ] {l : List (κ × α)}
    (hd : l.Pairwise (fun a b => a.1 ≠ b.1)) {p : κ × α} (hp : p ∈ l) :
    alookup l p.1 = some p.2 := by
  induction l with
  | nil => cases hp
  | cons q t ih =>
    rcases List.pairwise_cons.mp hd with ⟨hq, ht⟩
    rcases List.mem_cons.mp hp with h0 | h0
    · subst h0
      cases p with
      | mk k v => simp [alookup]
    · have hne : q.1 ≠ p.1 := hq p h0
      cases q with
      | mk k v =>
        simp only [alookup, if_neg hne]
        exact ih ht h0

theorem alookup_map_replace {α : Type} (l : List (Nat × α)) (cid : Nat) (nv : α) (k : Nat) :
    alookup (l.map (fun p => if p.1 = cid then (cid, nv) else p)) k
      = if k = cid then (alookup l cid).map (fun _ => nv) else alookup l k := by
  induction l with
  | nil => by_cases hk : k = cid <;> simp [alookup, hk]
  | cons q t ih =>
    cases q with
    | mk k1 v1 =>
      have hhead : (fun p : Nat × α => if p.1 = cid then (cid, nv) else p) (k1, v1)
          = if k1 = cid then (cid, nv) else (k1, v1) := rfl
      simp only [List.map_cons, hhead]
      by_cases h1 : k1 = cid
      · rw [if_pos h1]
        subst h1
        by_cases hk : k1 = k
        · simp only [alookup, if_pos hk, if_pos hk.symm]
          simp
        · have hk2 : ¬k = k1 := fun h => hk h.symm
          simp only [alookup, if_neg hk, if_neg hk2]
          have := ih
          rw [if_neg hk2] at this
          exact this
      · rw [if_neg h1]
        by_cases hk : k1 = k
        · subst hk
          have hkc : ¬k1 = cid := h1
          simp only [alookup, if_pos rfl, if_neg hkc, if_neg h1]
          rfl
        · simp only [alookup, if_neg hk, if_neg h1]
          exact ih

theorem getClass_setClassObj (st : PyState) (cid : Nat) (nco : ClassObj) (k : Nat) :
    getClass (setClassObj st cid nco) k
      = if k = cid then (getClass st cid).map (fun _ => nco) else getClass st k := by
  unfold getClass setClassObj
  exact alookup_map_replace st.classes cid nco k

theorem setClassObj_modules (st : PyState) (cid : Nat) (nco : ClassObj) :
    (setClassObj st cid nco).modules = st.modules := rfl

theorem setClassObj_instances (st : PyState) (cid : Nat) (nco : ClassObj) :
    (setClassObj st cid nco).instances = st.instances := rfl

/-- The identity-independent attributes of a class (its `__module__` and
`__name__`). -/
def attrsOf (co : ClassObj) : Option String × String := (co.moduleAttr, co.cname)

theorem baseMatches_congr {s st : PyState}
    (h : ∀ k, (getClass s k).map attrsOf = (getClass st k).map attrsOf)
    (b : Nat) (nco : ClassObj) : baseMatches s b nco = baseMatches st b nco := by
  unfold baseMatches
  have hb := h b
  cases hs : getClass s b with
  | none =>
    cases ht : getClass st b with
    | none => rfl
    | some bco => rw [hs, ht] at hb; simp at hb
  | some bco =>
    cases ht : getClass st b with
    | none => rw [hs, ht] at hb; simp at hb
    | some bco2 =>
      rw [hs, ht] at hb
      have hb2 : attrsOf bco = attrsOf bco2 := by
        have hb3 : some (attrsOf bco) = some (attrsOf bco2) := hb
        injection hb3
      have h1 : bco.moduleAttr = bco2.moduleAttr := congrArg Prod.fst hb2
      have h2 : bco.cname = bco2.cname := congrArg Prod.snd hb2
      show (bco.moduleAttr == nco.moduleAttr && bco.cname == nco.cname)
          = (bco2.moduleAttr == nco.moduleAttr && bco2.cname == nco.cname)
      rw [h1, h2]

theorem update_subclasses_fold_spec (st : PyState) (nco : ClassObj) (newC : Nat) :
    ∀ (l : List (Nat × ClassObj)) (s : PyState),
    l.Pairwise (fun a b => a.1 ≠ b.1) →
    (∀ p ∈ l, alookup s.classes p.1 = some p.2) →
    (∀ k, (getClass s k).map attrsOf = (getClass st k).map attrsOf) →
    (∀ p ∈ l, getClass (l.foldl (update_subclasses_step nco newC) s) p.1
        = some { p.2 with
            bases := p.2.bases.map (fun b => if baseMatches st b nco then newC else b) })
      ∧ (∀ k, k ∉ l.map Prod.fst →
          getClass (l.foldl (update_subclasses_step nco newC) s) k = getClass s k)
      ∧ (∀ k, (getClass (l.foldl (update_subclasses_step nco newC) s) k).map attrsOf
          = (getClass s k).map attrsOf)
      ∧ (l.foldl (update_subclasses_step nco newC) s).modules = s.modules
      ∧ (l.foldl (update_subclasses_step nco newC) s).instances = s.instances := by
  intro l
  induction l with
  | nil =>
    intro s _ _ _
    exact ⟨fun p hp => absurd hp (List.not_mem_nil p), fun k _ => rfl, fun k => rfl, rfl, rfl⟩
  | cons q t ih =>
    intro s hd hmem hattrs
    rcases List.pairwise_cons.mp hd with ⟨hq, ht⟩
    have hqs : getClass s q.1 = some q.2 := hmem q (List.mem_cons_self q t)
    have hstep : update_subclasses_step nco newC s q
        = setClassObj s q.1
            { q.2 with bases := q.2.bases.map (fun b => if baseMatches st b nco then newC else b) } := by
      unfold update_subclasses_step
      rw [hqs]
      have : (fun b => if baseMatches s b nco then newC else b)
          = (fun b => if baseMatches st b nco then newC else b) := by
        funext b
        rw [baseMatches_congr hattrs]
      rw [this]
    set q2 : ClassObj :=
      { q.2 with bases := q.2.bases.map (fun b => if baseMatches st b nco then newC else b) }
      with hq2
    have hg1 : ∀ k, getClass (setClassObj s q.1 q2) k
        = if k = q.1 then (getClass s q.1).map (fun _ => q2) else getClass s k := by
      intro k
      exact getClass_setClassObj s q.1 q2 k
    have hmem2 : ∀ p ∈ t, alookup (setClassObj s q.1 q2).classes p.1 = some p.2 := by
      intro p hp
      have hne : p.1 ≠ q.1 := fun h => (hq p hp) h.symm
      have := hg1 p.1
      rw [if_neg hne] at this
      exact this.trans (hmem p (List.mem_cons_of_mem q hp))
    have hattrs2 : ∀ k, (getClass (setClassObj s q.1 q2) k).map attrsOf
        = (getClass st k).map attrsOf := by
      intro k
      rw [hg1 k]
      by_cases hk : k = q.1
      · rw [if_pos hk, hqs, hk]
        have h0 := hattrs q.1
        rw [hqs] at h0
        rw [← h0]
        rfl
      · rw [if_neg hk]
        exact hattrs k
    have hrec := ih (setClassObj s q.1 q2) ht hmem2 hattrs2
    rcases hrec with ⟨r1, r2, r3, r4, r5⟩
    have hfold : (q :: t).foldl (update_subclasses_step nco newC) s
        = t.foldl (update_subclasses_step nco newC) (setClassObj s q.1 q2) := by
      simp only [List.foldl_cons, hstep]
    refine ⟨?_, ?_, ?_, ?_, ?_⟩
    · intro p hp
      rcases List.mem_cons.mp hp with h0 | h0
      · subst h0
        rw [hfold]
        have hnot : p.1 ∉ t.map Prod.fst := by
          intro hin
          rcases List.mem_map.mp hin with ⟨r, hr, hr2⟩
          exact (hq r hr) hr2.symm
        rw [r2 p.1 hnot, hg1 p.1, if_pos rfl, hqs]
        rfl
      · rw [hfold]
        exact r1 p h0
    · intro k hk
      have hk1 : k ≠ q.1 := by
        intro h
        exact hk (by rw [h]; exact List.mem_cons_self q.1 (t.map Prod.fst))
      have hk2 : k ∉ t.map Prod.fst := by
        intro h
        exact hk (List.mem_cons_of_mem q.1 h)
      rw [hfold, r2 k hk2, hg1 k, if_neg hk1]
    · intro k
      rw [hfold]
      rw [r3 k, hg1 k]
      by_cases hk : k = q.1
      · subst hk
        rw [if_pos rfl, hqs]
        simp [attrsOf, hq2]
      · rw [if_neg hk]
    · rw [hfold, r4]
      rfl
    · rw [hfold, r5]
      rfl

/-- C4: subtype repair touches exactly the direct subclasses of the old class;
in each of their base lists it replaces exactly the entries whose referenced
class's `__module__` and `__name__` match the new class (a name/unit match,
not an identity match), keeps non-matching entries untouched, and preserves
positions; classes that do not list the old class among their bases, and the
modules and instances of the state, are unchanged. -/
theorem C4_subtype_repair_by_name_match (st : PyState) (oldC newC : Nat) (nco : ClassObj)
    (hdist : st.classes.Pairwise (fun a b => a.1 ≠ b.1))
    (hnew : getClass st newC = some nco) :
    (∀ p ∈ st.classes, oldC ∈ p.2.bases →
        getClass (update_subclasses st oldC newC) p.1
          = some { p.2 with
              bases := p.2.bases.map (fun b => if baseMatches st b nco then newC else b) })
      ∧ (∀ p ∈ st.classes, oldC ∉ p.2.bases →
          getClass (update_subclasses st oldC newC) p.1 = some p.2)
      ∧ (update_subclasses st oldC newC).modules = st.modules
      ∧ (update_subclasses st oldC newC).instances = st.instances := by
  have hsubs : List.Sublist (st.classes.filter (fun p => oldC ∈ p.2.bases))
      st.classes := List.filter_sublist st.classes
  have hdsubs : (st.classes.filter (fun p => oldC ∈ p.2.bases)).Pairwise
      (fun a b => a.1 ≠ b.1) := hdist.sublist hsubs
  have hmem0 : ∀ p ∈ st.classes.filter (fun p => oldC ∈ p.2.bases),
      alookup st.classes p.1 = some p.2 := by
    intro p hp
    exact alookup_of_mem_distinct hdist (hsubs.subset hp)
  have hattrs0 : ∀ k, (getClass st k).map attrsOf = (getClass st k).map attrsOf :=
    fun k => rfl
  have hspec := update_subclasses_fold_spec st nco newC
    (st.classes.filter (fun p => oldC ∈ p.2.bases)) st hdsubs hmem0 hattrs0
  rcases hspec with ⟨r1, r2, r3, r4, r5⟩
  have hunfold : update_subclasses st oldC newC
      = (st.classes.filter (fun p => oldC ∈ p.2.bases)).foldl
          (update_subclasses_step nco newC) st := by
    unfold update_subclasses
    rw [hnew]
  refine ⟨?_, ?_, ?_, ?_⟩
  · intro p hp hb
    have hpf : p ∈ st.classes.filter (fun p => oldC ∈ p.2.bases) := by
      rw [List.mem_filter]
      exact ⟨hp, by simpa using hb⟩
    rw [hunfold]
    exact r1 p hpf
  · intro p hp hb
    have hnot : p.1 ∉ (st.classes.filter (fun p => oldC ∈ p.2.bases)).map Prod.fst := by
      intro hin
      rcases List.mem_map.mp hin with ⟨r, hr, hr2⟩
      have hr3 := (List.mem_filter.mp hr).2
      have hreq : r = p := eq_of_mem_pairwise_key Prod.fst hdist (hsubs.subset hr) hp hr2
      rw [hreq] at hr3
      exact hb (by simpa using hr3)
    rw [hunfold, r2 p.1 hnot]
    exact alookup_of_mem_distinct hdist hp
  · rw [hunfold]
    exact r4
  · rw [hunfold]
    exact r5

theorem C4_witness :
    (let oldCls : ClassObj := ⟨some "B", "C", [], []⟩
     let newCls : ClassObj := ⟨some "B", "C", [], [("m", .otherMem 0)]⟩
     let sub : ClassObj := ⟨some "A", "D", [1, 3], []⟩
     let unrelated : ClassObj := ⟨some "A", "E", [3], []⟩
     let st : PyState := ⟨[], [(1, oldCls), (2, newCls), (3, ⟨some "X", "X", [], []⟩),
                             (4, sub), (5, unrelated)], []⟩
     st.classes.Pairwise (fun a b => a.1 ≠ b.1)
       ∧ getClass st 2 = some newCls
       ∧ getClass (update_subclasses st 1 2) 4 = some ⟨some "A", "D", [2, 3], []⟩
       ∧ getClass (update_subclasses st 1 2) 5 = some unrelated) := by
  refine ⟨by decide, by decide, ?_, ?_⟩
  · have h := C4_subtype_repair_by_name_match
      ⟨[], [(1, ⟨some "B", "C", [], []⟩), (2, ⟨some "B", "C", [], [("m", .otherMem 0)]⟩),
            (3, ⟨some "X", "X", [], []⟩), (4, ⟨some "A", "D", [1, 3], []⟩),
            (5, ⟨some "A", "E", [3], []⟩)], []⟩
      1 2 ⟨some "B", "C", [], [("m", .otherMem 0)]⟩ (by decide) (by decide)
    have h4 := h.1 (4, ⟨some "A", "D", [1, 3], []⟩) (by decide) (by decide)
    rw [h4]
    decide
  · have h := C4_subtype_repair_by_name_match
      ⟨[], [(1, ⟨some "B", "C", [], []⟩), (2, ⟨some "B", "C", [], [("m", .otherMem 0)]⟩),
            (3, ⟨some "X", "X", [], []⟩), (4, ⟨some "A", "D", [1, 3], []⟩),
            (5, ⟨some "A", "E", [3], []⟩)], []⟩
      1 2 ⟨some "B", "C", [], [("m", .otherMem 0)]⟩ (by decide) (by decide)
    have h5 := h.2.1 (5, ⟨some "A", "E", [3], []⟩) (by decide) (by decide)
    rw [h5]

/-! ## The recompilation driver queue (claim C3 area) -/

theorem alookup_aset_eq {κ α : Type} [DecidableEq κ] (l : List (κ × α)) (k : κ) (v : α) :
    alookup (aset l k v) k = some v := by
  induction l with
  | nil => simp [aset, alookup]
  | cons q t ih =>
    cases q with
    | mk k1 v1 =>
      by_cases h1 : k1 = k
      · simp [aset, h1, alookup]
      · simp [aset, h1, alookup, ih]

theorem alookup_aset_ne {κ α : Type} [DecidableEq κ] (l : List (κ × α)) (k k' : κ) (v : α)
    (h : k' ≠ k) : alookup (aset l k v) k' = alookup l k' := by
  induction l with
  | nil =>
    have : ¬k = k' := fun hk => h hk.symm
    simp [aset, alookup, this]
  | cons q t ih =>
    cases q with
    | mk k1 v1 =>
      by_cases h1 : k1 = k
      · subst h1
        have : ¬k1 = k' := fun hk => h hk.symm
        simp [aset, alookup, this]
      · by_cases h2 : k1 = k'
        · simp [aset, h1, alookup, h2, h]
        · simp [aset, h1, alookup, h2, ih]

theorem sum_map_const_nat {α : Type} (l : List α) (c : Nat) :
    (l.map (fun _ => c)).sum = c * l.length := by
  induction l with
  | nil => simp
  | cons x t ih =>
    simp only [List.map_cons, List.sum_cons, ih, List.length_cons]
    ring

/-- The failure count of a module in the driver state. -/
def failsOf (ds : DriverState) (m : String) : Nat :=
  (alookup ds.failCounter m).getD 0

/-- Termination measure of the driver loop: every queue entry can be attempted
at most `maxFails` more times. -/
def queueMeasure (ds : DriverState) : Nat :=
  (ds.queue.map (fun m => maxFails + 1 - failsOf ds m)).sum

/-- The driver-loop invariant: queue entries are pending modules that failed
every attempt so far and still have budget; reloaded modules had a successful
attempt within budget; failed modules exhausted the whole budget; and every
target module is in exactly one of the three groups. -/
structure QInv (oracle : String → Nat → Option ModReload) (names : List String)
    (ds : DriverState) : Prop where
  queue_sub : ∀ m ∈ ds.queue, m ∈ names
  queue_nodup : ds.queue.Pairwise (fun a b => a ≠ b)
  queue_fails : ∀ m ∈ ds.queue,
    failsOf ds m < maxFails ∧ ∀ j < failsOf ds m, oracle m j = none
  reloaded_spec : ∀ m ∈ ds.reloadedMods, m ∈ names ∧ ∃ k < maxFails, (oracle m k).isSome
  failed_spec : ∀ m ∈ ds.failedMods, m ∈ names ∧ ∀ k < maxFails, oracle m k = none
  cover : ∀ m ∈ names, m ∈ ds.queue ∨ m ∈ ds.reloadedMods ∨ m ∈ ds.failedMods

theorem runQueue_drains (oracle : String → Nat → Option ModReload) (names : List String) :
    ∀ (fuel : Nat) (ds : DriverState), QInv oracle names ds → queueMeasure ds < fuel →
      (runQueue oracle fuel ds).queue = [] ∧ QInv oracle names (runQueue oracle fuel ds) := by
  intro fuel
  induction fuel with
  | zero => intro ds _ h; exact absurd h (Nat.not_lt_zero _)
  | succ fuel ih =>
    intro ds hinv hmeas
    obtain ⟨st0, queue0, counter0, rel0, fail0⟩ := ds
    cases hq : queue0 with
    | nil =>
      subst hq
      exact ⟨rfl, hinv⟩
    | cons m rest =>
      subst hq
      have hmq : m ∈ m :: rest := List.mem_cons_self m rest
      have hfails := hinv.queue_fails m hmq
      have hflt : (alookup counter0 m).getD 0 < maxFails := hfails.1
      have hnodup := List.pairwise_cons.mp hinv.queue_nodup
      have hmeas1 : queueMeasure ⟨st0, m :: rest, counter0, rel0, fail0⟩
          = (maxFails + 1 - (alookup counter0 m).getD 0)
            + (rest.map (fun x => maxFails + 1 - (alookup counter0 x).getD 0)).sum := by
        simp [queueMeasure, failsOf]
      have hterm : 1 ≤ maxFails + 1 - (alookup counter0 m).getD 0 := by
        have : (alookup counter0 m).getD 0 < maxFails := hflt
        omega
      simp only [runQueue, hflt, if_pos]
      cases ho : oracle m ((alookup counter0 m).getD 0) with
      | some r =>
        have hinv2 : QInv oracle names
            ⟨applyReload st0 m r, rest, counter0, rel0 ++ [m], fail0⟩ := by
          refine ⟨?_, ?_, ?_, ?_, ?_, ?_⟩
          · intro x hx
            exact hinv.queue_sub x (List.mem_cons_of_mem m hx)
          · exact hnodup.2
          · intro x hx
            exact hinv.queue_fails x (List.mem_cons_of_mem m hx)
          · intro x hx
            rcases List.mem_append.mp hx with h0 | h0
            · exact hinv.reloaded_spec x h0
            · have hxm : x = m := by simpa using h0
              subst hxm
              exact ⟨hinv.queue_sub x hmq,
                ⟨(alookup counter0 x).getD 0, hflt, by rw [ho]; rfl⟩⟩
          · exact hinv.failed_spec
          · intro x hx
            rcases hinv.cover x hx with h0 | h0 | h0
            · rcases List.mem_cons.mp h0 with h1 | h1
              · subst h1
                exact Or.inr (Or.inl (List.mem_append.mpr (Or.inr (by simp))))
              · exact Or.inl h1
            · exact Or.inr (Or.inl (List.mem_append.mpr (Or.inl h0)))
            · exact Or.inr (Or.inr h0)
        have hmeas2 : queueMeasure ⟨applyReload st0 m r, rest, counter0, rel0 ++ [m], fail0⟩
            < fuel := by
          have : queueMeasure ⟨applyReload st0 m r, rest, counter0, rel0 ++ [m], fail0⟩
              = (rest.map (fun x => maxFails + 1 - (alookup counter0 x).getD 0)).sum := by
            simp [queueMeasure, failsOf]
          rw [this]
          rw [hmeas1] at hmeas
          omega
        exact ih _ hinv2 hmeas2
      | none =>
        by_cases hlast : (alookup counter0 m).getD 0 + 1 = maxFails
        · simp only [hlast, if_pos]
          have hinv2 : QInv oracle names
              ⟨st0, rest, counter0, rel0, fail0 ++ [m]⟩ := by
            refine ⟨?_, ?_, ?_, ?_, ?_, ?_⟩
            · intro x hx
              exact hinv.queue_sub x (List.mem_cons_of_mem m hx)
            · exact hnodup.2
            · intro x hx
              exact hinv.queue_fails x (List.mem_cons_of_mem m hx)
            · exact hinv.reloaded_spec
            · intro x hx
              rcases List.mem_append.mp hx with h0 | h0
              · exact hinv.failed_spec x h0
              · have hxm : x = m := by simpa using h0
                subst hxm
                refine ⟨hinv.queue_sub x hmq, ?_⟩
                intro k hk
                by_cases hke : k = (alookup counter0 x).getD 0
                · rw [hke]; exact ho
                · have hklt : k < (alookup counter0 x).getD 0 := by omega
                  exact hfails.2 k hklt
            · intro x hx
              rcases hinv.cover x hx with h0 | h0 | h0
              · rcases List.mem_cons.mp h0 with h1 | h1
                · subst h1
                  exact Or.inr (Or.inr (List.mem_append.mpr (Or.inr (by simp))))
                · exact Or.inl h1
              · exact Or.inr (Or.inl h0)
              · exact Or.inr (Or.inr (List.mem_append.mpr (Or.inl h0)))
          have hmeas2 : queueMeasure ⟨st0, rest, counter0, rel0, fail0 ++ [m]⟩ < fuel := by
            have : queueMeasure ⟨st0, rest, counter0, rel0, fail0 ++ [m]⟩
                = (rest.map (fun x => maxFails + 1 - (alookup counter0 x).getD 0)).sum := by
              simp [queueMeasure, failsOf]
            rw [this]
            rw [hmeas1] at hmeas
            omega
          exact ih _ hinv2 hmeas2
        · simp only [hlast, if_neg, if_false]
          have hcnt : ∀ x, x ≠ m →
              (alookup (aset counter0 m ((alookup counter0 m).getD 0 + 1)) x).getD 0
                = (alookup counter0 x).getD 0 := by
            intro x hx
            rw [alookup_aset_ne counter0 m x _ hx]
          have hcntm : (alookup (aset counter0 m ((alookup counter0 m).getD 0 + 1)) m).getD 0
              = (alookup counter0 m).getD 0 + 1 := by
            rw [alookup_aset_eq]
            rfl
          have hinv2 : QInv oracle names
              ⟨st0, rest ++ [m], aset counter0 m ((alookup counter0 m).getD 0 + 1),
               rel0, fail0⟩ := by
            refine ⟨?_, ?_, ?_, ?_, ?_, ?_⟩
            · intro x hx
              rcases List.mem_append.mp hx with h0 | h0
              · exact hinv.queue_sub x (List.mem_cons_of_mem m h0)
              · have hxm : x = m := by simpa using h0
                subst hxm
                exact hinv.queue_sub x hmq
            · rw [List.pairwise_append]
              refine ⟨hnodup.2, List.pairwise_singleton _ _, ?_⟩
              intro a ha b hb
              have hbm : b = m := by simpa using hb
              subst hbm
              exact fun h => (hnodup.1 a ha) h.symm
            · intro x hx
              rcases List.mem_append.mp hx with h0 | h0
              · have hxm : x ≠ m := fun h => (hnodup.1 x h0) h.symm
                have := hinv.queue_fails x (List.mem_cons_of_mem m h0)
                simpa [failsOf, hcnt x hxm] using this
              · have hxm : x = m := by simpa using h0
                subst hxm
                simp only [failsOf, hcntm]
                constructor
                · omega
                · intro j hj
                  by_cases hje : j = (alookup counter0 x).getD 0
                  · rw [hje]; exact ho
                  · have : j < (alookup counter0 x).getD 0 := by omega
                    exact hfails.2 j this
            · exact hinv.reloaded_spec
            · exact hinv.failed_spec
            · intro x hx
              rcases hinv.cover x hx with h0 | h0 | h0
              · rcases List.mem_cons.mp h0 with h1 | h1
                · subst h1
                  exact Or.inl (List.mem_append.mpr (Or.inr (by simp)))
                · exact Or.inl (List.mem_append.mpr (Or.inl h1))
              · exact Or.inr (Or.inl h0)
              · exact Or.inr (Or.inr h0)
          have hmeas2 : queueMeasure
              ⟨st0, rest ++ [m], aset counter0 m ((alookup counter0 m).getD 0 + 1),
               rel0, fail0⟩ < fuel := by
            have heq : queueMeasure
                ⟨st0, rest ++ [m], aset counter0 m ((alookup counter0 m).getD 0 + 1),
                 rel0, fail0⟩
                = (rest.map (fun x => maxFails + 1 - (alookup counter0 x).getD 0)).sum
                  + (maxFails + 1 - ((alookup counter0 m).getD 0 + 1)) := by
              simp only [queueMeasure, failsOf, List.map_append, List.sum_append]
              have hrest : rest.map (fun x =>
                  maxFails + 1 - (alookup (aset counter0 m ((alookup counter0 m).getD 0 + 1)) x).getD 0)
                  = rest.map (fun x => maxFails + 1 - (alookup counter0 x).getD 0) := by
                apply List.map_congr_left
                intro x hx
                have hxm : x ≠ m := fun h => (hnodup.1 x hx) h.symm
                rw [alookup_aset_ne counter0 m x _ hxm]
              rw [hrest]
              simp [hcntm]
            rw [heq]
            rw [hmeas1] at hmeas
            omega
          exact ih _ hinv2 hmeas2

/-- C3: the recompilation driver drains a FIFO retry queue with budget 10: a
module ends up reloaded exactly when one of its first 10 attempts succeeds
(earlier attempts failing merely re-enqueue it), and ends up in the recorded
errors exactly when all 10 attempts fail, so no module's permanent failure
keeps another module from being recompiled; after the queue drains, the failed
modules are reported as error log events and only the successfully reloaded
modules are handed to the propagation pass. -/
theorem C3_driver_retry_queue (oracle : String → Nat → Option ModReload)
    (names : List String) (st : PyState) (hnodup : names.Pairwise (fun a b => a ≠ b)) :
    (∀ m, m ∈ (runDriver oracle names st).reloadedMods
        ↔ m ∈ names ∧ ∃ k < maxFails, (oracle m k).isSome)
      ∧ (∀ m, m ∈ (runDriver oracle names st).failedMods
          ↔ m ∈ names ∧ ∀ k < maxFails, oracle m k = none)
      ∧ (∀ caches st2 lg, build_caches st names = .ok caches →
          update_stale_modules_and_instances caches (runDriver oracle names st).reloadedMods
            (runDriver oracle names st).st = .ok (st2, lg) →
          superreload oracle names st
            = .ok (st2, lg ++ (runDriver oracle names st).failedMods.map
                LogEvent.errorReloadFailed)) := by
  have hinv0 : QInv oracle names ⟨st, names, [], [], []⟩ := by
    refine ⟨fun m hm => hm, hnodup, ?_, ?_, ?_, ?_⟩
    · intro m _
      constructor
      · simp [failsOf, alookup, maxFails]
      · intro j hj
        simp [failsOf, alookup] at hj
    · intro m hm
      cases hm
    · intro m hm
      cases hm
    · intro m hm
      exact Or.inl hm
  have hmeas0 : queueMeasure ⟨st, names, [], [], []⟩ < driverFuel names := by
    have : queueMeasure ⟨st, names, [], [], []⟩ = (maxFails + 1) * names.length := by
      simp only [queueMeasure, failsOf, alookup]
      have : names.map (fun _ => maxFails + 1 - (Option.none).getD 0)
          = names.map (fun _ => maxFails + 1) := by
        apply List.map_congr_left
        intro x _
        rfl
      rw [this, sum_map_const_nat]
    rw [this]
    simp only [driverFuel, maxFails]
    omega
  have hrun := runQueue_drains oracle names (driverFuel names) ⟨st, names, [], [], []⟩
    hinv0 hmeas0
  rcases hrun with ⟨hqe, hinvf⟩
  have hdr : runDriver oracle names st = runQueue oracle (driverFuel names)
      ⟨st, names, [], [], []⟩ := rfl
  refine ⟨?_, ?_, ?_⟩
  · intro m
    constructor
    · intro hm
      rw [hdr] at hm
      exact hinvf.reloaded_spec m hm
    · rintro ⟨hmn, k, hk, hko⟩
      rcases hinvf.cover m hmn with h0 | h0 | h0
      · rw [hqe] at h0
        cases h0
      · rw [hdr]
        exact h0
      · have := (hinvf.failed_spec m h0).2 k hk
        rw [this] at hko
        simp at hko
  · intro m
    constructor
    · intro hm
      rw [hdr] at hm
      exact hinvf.failed_spec m hm
    · rintro ⟨hmn, hall⟩
      rcases hinvf.cover m hmn with h0 | h0 | h0
      · rw [hqe] at h0
        cases h0
      · rcases (hinvf.reloaded_spec m h0).2 with ⟨k, hk, hko⟩
        rw [hall k hk] at hko
        simp at hko
      · rw [hdr]
        exact h0
  · intro caches st2 lg hcaches hupd
    have hsr : superreload oracle names st
        = (update_stale_modules_and_instances caches (runDriver oracle names st).reloadedMods
            (runDriver oracle names st).st).bind
          (fun r => Except.ok (r.1, r.2 ++ (runDriver oracle names st).failedMods.map
              LogEvent.errorReloadFailed)) := by
      unfold superreload
      rw [hcaches]
      rfl
    rw [hsr, hupd]
    rfl

theorem C3_witness :
    ((["A", "B"] : List String).Pairwise (fun a b => a ≠ b)
      ∧ "B" ∈ (runDriver (fun m _ => if m = "B" then some ⟨[], []⟩ else none)
          ["A", "B"] ⟨[], [], []⟩).reloadedMods
      ∧ "A" ∈ (runDriver (fun m _ => if m = "B" then some ⟨[], []⟩ else none)
          ["A", "B"] ⟨[], [], []⟩).failedMods) := by
  have h := C3_driver_retry_queue (fun m _ => if m = "B" then some ⟨[], []⟩ else none)
    ["A", "B"] ⟨[], [], []⟩ (by decide)
  refine ⟨by decide, ?_, ?_⟩
  · exact (h.1 "B").mpr ⟨by decide, 0, by decide, by decide⟩
  · exact (h.2.1 "A").mpr ⟨by decide, fun k _ => by simp⟩

/-! ## Introspection errors during the cache scan (claim C6 area)

`_build_external_reference_cache` (and the other scans) contain no exception
handling: an error raised while introspecting any loaded module propagates out
of `build_caches`, and hence out of `superreload`, to the caller. -/

theorem build_external_reference_cache_error (st : PyState)
    (oldSet : List MemberId)
    (h : ∃ m ∈ st.modules, m.raisesOnIntrospection = true) :
    build_external_reference_cache st oldSet = .error () := by
  unfold build_external_reference_cache
  have hgen : ∀ (l : List PyModule), (∃ m ∈ l, m.raisesOnIntrospection = true) →
      ∀ (acc : List (String × List (String × String × PyVal))),
      l.foldlM (refCacheScanModule st oldSet) acc = .error () := by
    intro l
    induction l with
    | nil =>
      rintro ⟨m, hm, _⟩ acc
      cases hm
    | cons q t ih =>
      rintro ⟨m, hm, hr⟩ acc
      rw [List.foldlM_cons]
      by_cases hq : q.raisesOnIntrospection = true
      · have hstep : refCacheScanModule st oldSet acc q = .error () := by
          unfold refCacheScanModule introspectExternal
          rw [hq]
          rfl
        rw [hstep]
        rfl
      · have hstep : refCacheScanModule st oldSet acc q
            = .ok ((iterExternalList st q).foldl (refCacheAdd st oldSet q.mname) acc) := by
          unfold refCacheScanModule introspectExternal
          rw [eq_false_of_ne_true hq]
          rfl
        rw [hstep]
        have hmt : m ∈ t := by
          rcases List.mem_cons.mp hm with h0 | h0
          · subst h0
            exact absurd hr hq
          · exact h0
        exact ih ⟨m, hmt, hr⟩ _
  exact hgen st.modules h []

theorem build_caches_error (st : PyState) (names : List String)
    (h : ∃ m ∈ st.modules, m.raisesOnIntrospection = true) :
    build_caches st names = .error () := by
  cases hold : build_old_member_cache st (resolveModules st names) with
  | error e =>
    cases e
    unfold build_caches
    rw [hold]
    rfl
  | ok oldc =>
    have hrw : build_caches st names
        = (build_external_reference_cache st oldc.1).bind (fun refc =>
            Except.ok ⟨oldc.1, oldc.2, refc, build_instance_cache st oldc.1⟩) := by
      unfold build_caches
      rw [hold]
      rfl
    rw [hrw, build_external_reference_cache_error st oldc.1 h]
    rfl

/-- C6 counterexample to the claim as stated: a loaded module whose
introspection raises makes the whole reload call fail — the error is not
caught, the module is not skipped, and the scan does not continue. -/
def rogueModule : PyModule := ⟨"rogue", [], true⟩

def c6State : PyState :=
  ⟨[⟨"B", [("f", .func ⟨1, some "B", "f"⟩)], false⟩, rogueModule], [], []⟩

def c6Oracle : String → Nat → Option ModReload := fun _ _ => some ⟨[], []⟩

theorem C6_counterexample :
    superreload c6Oracle ["B"] c6State = .error () := by
  have h := build_caches_error c6State ["B"] ⟨rogueModule, by decide, rfl⟩
  unfold superreload
  rw [h]
  rfl

/-- C6 (amended): if introspecting any loaded unit raises during the
cache-building scan, the error is not caught anywhere in `superreload`: the
unit is not skipped, the scan does not continue, and the error propagates to
the caller of reload. -/
theorem C6_introspection_error_propagates (oracle : String → Nat → Option ModReload)
    (names : List String) (st : PyState)
    (h : ∃ m ∈ st.modules, m.raisesOnIntrospection = true) :
    superreload oracle names st = .error () := by
  unfold superreload
  rw [build_caches_error st names h]
  rfl

theorem C6_witness :
    (∃ m ∈ c6State.modules, m.raisesOnIntrospection = true)
      ∧ superreload (fun _ _ => none) ["B"] c6State = .error () := by
  have hex : ∃ m ∈ c6State.modules, m.raisesOnIntrospection = true :=
    ⟨rogueModule, by decide, rfl⟩
  exact ⟨hex, C6_introspection_error_propagates (fun _ _ => none) ["B"] c6State hex⟩

/-! ## Pure views of the cache builders (when no introspection raises) -/

/-- Well-formedness: no loaded module raises on introspection. -/
abbrev noRaises (st : PyState) : Prop :=
  ∀ m ∈ st.modules, m.raisesOnIntrospection = false

/-- Well-formedness: loaded modules have pairwise distinct names. -/
abbrev distinctModNames (st : PyState) : Prop :=
  st.modules.Pairwise (fun a b => a.mname ≠ b.mname)

/-- Well-formedness: every module dict has pairwise distinct keys. -/
abbrev distinctDictKeys (st : PyState) : Prop :=
  ∀ m ∈ st.modules, m.mdict.Pairwise (fun a b => a.1 ≠ b.1)

def oldCachePure (st : PyState) (mods : List PyModule) :
    List MemberId × List (String × List (String × PyVal)) :=
  mods.foldl (fun acc mod =>
    (acc.1 ++ (iterMembersList st mod).filterMap (fun p => memberId st p.2),
     aset acc.2 mod.mname mod.mdict)) ([], [])

def refCachePure (st : PyState) (oldSet : List MemberId) :
    List (String × List (String × String × PyVal)) :=
  st.modules.foldl (fun c m => (iterExternalList st m).foldl (refCacheAdd st oldSet m.mname) c) []

theorem build_old_member_cache_ok (st : PyState) (mods : List PyModule)
    (h : ∀ m ∈ mods, m.raisesOnIntrospection = false) :
    build_old_member_cache st mods = .ok (oldCachePure st mods) := by
  unfold build_old_member_cache oldCachePure
  have hgen : ∀ (l : List PyModule), (∀ m ∈ l, m.raisesOnIntrospection = false) →
      ∀ acc : List MemberId × List (String × List (String × PyVal)),
      l.foldlM (fun acc mod => do
        let ms ← introspectMembers st mod
        let ids := ms.filterMap (fun (p : String × PyVal) => memberId st p.2)
        Except.ok (acc.1 ++ ids, aset acc.2 mod.mname mod.mdict)) acc
      = .ok (l.foldl (fun acc mod =>
          (acc.1 ++ (iterMembersList st mod).filterMap (fun (p : String × PyVal) => memberId st p.2),
           aset acc.2 mod.mname mod.mdict)) acc) := by
    intro l
    induction l with
    | nil =>
      intro _ acc
      rfl
    | cons q t ih =>
      intro hl acc
      rw [List.foldlM_cons, List.foldl_cons]
      have hq : introspectMembers st q = .ok (iterMembersList st q) := by
        unfold introspectMembers
        rw [hl q (List.mem_cons_self q t)]
        rfl
      rw [hq]
      exact ih (fun m hm => hl m (List.mem_cons_of_mem q hm)) _
  exact hgen mods h ([], [])

theorem build_external_reference_cache_ok (st : PyState) (oldSet : List MemberId)
    (h : noRaises st) :
    build_external_reference_cache st oldSet = .ok (refCachePure st oldSet) := by
  unfold build_external_reference_cache refCachePure
  have hgen : ∀ (l : List PyModule), (∀ m ∈ l, m.raisesOnIntrospection = false) →
      ∀ acc : List (String × List (String × String × PyVal)),
      l.foldlM (refCacheScanModule st oldSet) acc
      = .ok (l.foldl (fun c m =>
          (iterExternalList st m).foldl (refCacheAdd st oldSet m.mname) c) acc) := by
    intro l
    induction l with
    | nil =>
      intro _ acc
      rfl
    | cons q t ih =>
      intro hl acc
      rw [List.foldlM_cons, List.foldl_cons]
      have hq : refCacheScanModule st oldSet acc q
          = .ok ((iterExternalList st q).foldl (refCacheAdd st oldSet q.mname) acc) := by
        unfold refCacheScanModule introspectExternal
        rw [hl q (List.mem_cons_self q t)]
        rfl
      rw [hq]
      exact ih (fun m hm => hl m (List.mem_cons_of_mem q hm)) _
  exact hgen st.modules h []

theorem resolveModules_sub (st : PyState) (names : List String) :
    ∀ m ∈ resolveModules st names, m ∈ st.modules := by
  intro m hm
  rcases List.mem_filterMap.mp hm with ⟨x, _, hx2⟩
  exact List.mem_of_find?_eq_some hx2

/-- The caches computed by a successful `build_caches` run, as pure data. -/
def cachesPure (st : PyState) (names : List String) : Caches :=
  ⟨(oldCachePure st (resolveModules st names)).1,
   (oldCachePure st (resolveModules st names)).2,
   refCachePure st (oldCachePure st (resolveModules st names)).1,
   build_instance_cache st (oldCachePure st (resolveModules st names)).1⟩

theorem build_caches_ok (st : PyState) (names : List String) (h : noRaises st) :
    build_caches st names = .ok (cachesPure st names) := by
  unfold build_caches
  rw [build_old_member_cache_ok st (resolveModules st names)
    (fun m hm => h m (resolveModules_sub st names m hm))]
  show (build_external_reference_cache st (oldCachePure st (resolveModules st names)).1).bind
      _ = _
  rw [build_external_reference_cache_ok st _ h]
  rfl

/-! ## Module-dict writes -/

theorem getModule_name {st : PyState} {x : String} {m : PyModule}
    (h : getModule st x = some m) : m.mname = x := by
  have := List.find?_some h
  simpa using this

theorem getModule_mem {st : PyState} {x : String} {m : PyModule}
    (h : getModule st x = some m) : m ∈ st.modules :=
  List.mem_of_find?_eq_some h

theorem getModule_setModuleVal (st : PyState) (h n : String) (v : PyVal) (x : String) :
    getModule (setModuleVal st h n v) x
      = (getModule st x).map (fun m =>
          if m.mname = h then { m with mdict := aset m.mdict n v } else m) := by
  unfold getModule setModuleVal
  rw [List.find?_map]
  have hpred : ((fun m => m.mname == x) ∘ fun m =>
      if m.mname = h then { m with mdict := aset m.mdict n v } else m)
      = (fun (m : PyModule) => m.mname == x) := by
    funext m
    by_cases hm : m.mname = h <;> simp [hm]
  rw [hpred]

/-- The dict of the module named `hname` after the write sequence `ws`. -/
def dictAfterWrites (ws : List (String × String × PyVal)) (hname : String)
    (d : List (String × PyVal)) : List (String × PyVal) :=
  ws.foldl (fun d w => if hname = w.1 then aset d w.2.1 w.2.2 else d) d

theorem getModule_applyWrites (ws : List (String × String × PyVal)) :
    ∀ (st : PyState) (x : String),
    getModule (applyWrites st ws) x
      = (getModule st x).map (fun m => { m with mdict := dictAfterWrites ws m.mname m.mdict }) := by
  induction ws with
  | nil =>
    intro st x
    show getModule st x = _
    cases h : getModule st x with
    | none => rfl
    | some m => rfl
  | cons w ws ih =>
    intro st x
    show getModule (applyWrites (setModuleVal st w.1 w.2.1 w.2.2) ws) x = _
    rw [ih, getModule_setModuleVal, Option.map_map]
    cases h : getModule st x with
    | none => rfl
    | some m =>
      simp only [Option.map_some']
      by_cases hm : m.mname = w.1
      · simp only [Function.comp_apply, if_pos hm]
        show some _ = some _
        have : dictAfterWrites (w :: ws) m.mname m.mdict
            = dictAfterWrites ws m.mname (aset m.mdict w.2.1 w.2.2) := by
          unfold dictAfterWrites
          rw [List.foldl_cons, if_pos hm]
        rw [this]
      · simp only [Function.comp_apply, if_neg hm]
        show some _ = some _
        have : dictAfterWrites (w :: ws) m.mname m.mdict
            = dictAfterWrites ws m.mname m.mdict := by
          unfold dictAfterWrites
          rw [List.foldl_cons, if_neg hm]
        rw [this]

theorem dictAfterWrites_frame (hname nm : String) :
    ∀ (ws : List (String × String × PyVal)) (d : List (String × PyVal)),
    (∀ w ∈ ws, ¬(hname = w.1 ∧ w.2.1 = nm)) →
    alookup (dictAfterWrites ws hname d) nm = alookup d nm := by
  intro ws
  induction ws with
  | nil =>
    intro d _
    rfl
  | cons w ws ih =>
    intro d hno
    have hstep : dictAfterWrites (w :: ws) hname d
        = dictAfterWrites ws hname (if hname = w.1 then aset d w.2.1 w.2.2 else d) := by
      unfold dictAfterWrites
      rw [List.foldl_cons]
    rw [hstep]
    by_cases hw : hname = w.1
    · have hnm : w.2.1 ≠ nm := fun h => hno w (List.mem_cons_self w ws) ⟨hw, h⟩
      rw [if_pos hw, ih _ (fun x hx => hno x (List.mem_cons_of_mem w hx)),
        alookup_aset_ne d w.2.1 nm w.2.2 (fun h => hnm h.symm)]
    · rw [if_neg hw]
      exact ih d (fun x hx => hno x (List.mem_cons_of_mem w hx))

theorem dictAfterWrites_unique (hname nm : String) (v : PyVal) :
    ∀ (ws : List (String × String × PyVal)) (d : List (String × PyVal)),
    (∀ w ∈ ws, (hname = w.1 ∧ w.2.1 = nm) → w.2.2 = v) →
    (∃ w ∈ ws, hname = w.1 ∧ w.2.1 = nm) →
    alookup (dictAfterWrites ws hname d) nm = some v := by
  intro ws
  induction ws with
  | nil =>
    rintro d _ ⟨w, hw, _⟩
    cases hw
  | cons w ws ih =>
    rintro d hval hex
    have hstep : dictAfterWrites (w :: ws) hname d
        = dictAfterWrites ws hname (if hname = w.1 then aset d w.2.1 w.2.2 else d) := by
      unfold dictAfterWrites
      rw [List.foldl_cons]
    rw [hstep]
    by_cases hrest : ∃ x ∈ ws, hname = x.1 ∧ x.2.1 = nm
    · exact ih _ (fun x hx => hval x (List.mem_cons_of_mem w hx)) hrest
    · rcases hex with ⟨x, hx, hxp⟩
      have hxw : x = w := by
        rcases List.mem_cons.mp hx with h0 | h0
        · exact h0
        · exact absurd ⟨x, h0, hxp⟩ hrest
      subst hxw
      have hveq : x.2.2 = v := hval x (List.mem_cons_self x ws) hxp
      rw [if_pos hxp.1]
      have hframe : ∀ y ∈ ws, ¬(hname = y.1 ∧ y.2.1 = nm) := by
        intro y hy hc
        exact hrest ⟨y, hy, hc⟩
      rw [dictAfterWrites_frame hname nm ws _ hframe]
      rw [← hxp.2, hveq]
      exact alookup_aset_eq d x.2.1 v

/-! ## Membership in the reference cache -/

theorem alookup_append {κ α : Type} [DecidableEq κ] (l1 l2 : List (κ × α)) (k : κ) :
    alookup (l1 ++ l2) k
      = match alookup l1 k with
        | some v => some v
        | none => alookup l2 k := by
  induction l1 with
  | nil => rfl
  | cons q t ih =>
    cases q with
    | mk k1 v1 =>
      by_cases h1 : k1 = k
      · simp [alookup, h1]
      · simp [alookup, h1, ih]

/-- Entries under a key after `aappend`: unchanged for other keys, appended
for the given key. -/
theorem alookup_aappend {κ α : Type} [DecidableEq κ]
    (c : List (κ × List α)) (k : κ) (x : α) (k' : κ) :
    (alookup (aappend c k x) k').getD []
      = if k' = k then ((alookup c k).getD []) ++ [x] else (alookup c k').getD [] := by
  unfold aappend
  cases hc : alookup c k with
  | some xs =>
    by_cases hk : k' = k
    · subst hk
      rw [if_pos rfl, alookup_aset_eq]
      rfl
    · rw [if_neg hk, alookup_aset_ne c k k' _ hk]
  | none =>
    rw [alookup_append]
    by_cases hk : k' = k
    · subst hk
      rw [hc]
      simp [alookup, hc]
    · cases hx : alookup c k' with
      | some v => simp [hx, hk]
      | none =>
        have : ¬k = k' := fun h => hk h.symm
        simp [hx, hk, alookup, this]

/-- Where a reference-cache entry can come from: the scan of some loaded
module that holds the value as an external member, recorded under the value's
full name. -/
def cacheEntryOrigin (st : PyState) (oldSet : List MemberId) (k : String)
    (e : String × String × PyVal) : Prop :=
  ∃ M ∈ st.modules, M.mname = e.1 ∧ (e.2.1, e.2.2) ∈ iterExternalList st M
    ∧ k = fullMemberName st e.2.2
    ∧ ∃ mid, memberId st e.2.2 = some mid ∧ mid ∈ oldSet

/-- Soundness of a cache value under `refCacheAdd` steps. -/
def cacheSound (st : PyState) (oldSet : List MemberId)
    (c : List (String × List (String × String × PyVal))) : Prop :=
  ∀ k e, e ∈ (alookup c k).getD [] → cacheEntryOrigin st oldSet k e

theorem refCacheAdd_eq_of_none {st : PyState} {oldSet : List MemberId} {mn : String}
    {c : List (String × List (String × String × PyVal))} {p : String × PyVal}
    (hid : memberId st p.2 = none) : refCacheAdd st oldSet mn c p = c := by
  unfold refCacheAdd
  rw [hid]

theorem refCacheAdd_eq_of_notin {st : PyState} {oldSet : List MemberId} {mn : String}
    {c : List (String × List (String × String × PyVal))} {p : String × PyVal}
    {mid : MemberId} (hid : memberId st p.2 = some mid) (hin : mid ∉ oldSet) :
    refCacheAdd st oldSet mn c p = c := by
  unfold refCacheAdd
  rw [hid]
  simp [hin]

theorem refCacheAdd_eq_of_mem {st : PyState} {oldSet : List MemberId} {mn : String}
    {c : List (String × List (String × String × PyVal))} {p : String × PyVal}
    {mid : MemberId} (hid : memberId st p.2 = some mid) (hin : mid ∈ oldSet) :
    refCacheAdd st oldSet mn c p = aappend c (fullMemberName st p.2) (mn, p.1, p.2) := by
  unfold refCacheAdd
  rw [hid]
  simp [hin]

theorem refCacheAdd_sound {st : PyState} {oldSet : List MemberId} {M : PyModule}
    (hM : M ∈ st.modules) {c : List (String × List (String × String × PyVal))}
    (hc : cacheSound st oldSet c) {p : String × PyVal}
    (hp : p ∈ iterExternalList st M) :
    cacheSound st oldSet (refCacheAdd st oldSet M.mname c p) := by
  intro k e he
  cases hid : memberId st p.2 with
  | none =>
    rw [refCacheAdd_eq_of_none hid] at he
    exact hc k e he
  | some mid =>
    by_cases hin : mid ∈ oldSet
    · rw [refCacheAdd_eq_of_mem hid hin] at he
      rw [alookup_aappend] at he
      by_cases hk : k = fullMemberName st p.2
      · rw [if_pos hk] at he
        rcases List.mem_append.mp he with h0 | h0
        · rw [← hk] at h0
          exact hc k e h0
        · have he2 : e = (M.mname, p.1, p.2) := by simpa using h0
          subst he2
          exact ⟨M, hM, rfl, by simpa using hp, hk, mid, hid, hin⟩
      · rw [if_neg hk] at he
        exact hc k e he
    · rw [refCacheAdd_eq_of_notin hid hin] at he
      exact hc k e he

theorem refCacheScan_fold_sound {st : PyState} {oldSet : List MemberId} {M : PyModule}
    (hM : M ∈ st.modules) :
    ∀ (ms : List (String × PyVal)) (c : List (String × List (String × String × PyVal))),
    (∀ p ∈ ms, p ∈ iterExternalList st M) → cacheSound st oldSet c →
    cacheSound st oldSet (ms.foldl (refCacheAdd st oldSet M.mname) c) := by
  intro ms
  induction ms with
  | nil =>
    intro c _ hc
    exact hc
  | cons p t ih =>
    intro c hms hc
    rw [List.foldl_cons]
    exact ih _ (fun x hx => hms x (List.mem_cons_of_mem p hx))
      (refCacheAdd_sound hM hc (hms p (List.mem_cons_self p t)))

theorem refCachePure_sound (st : PyState) (oldSet : List MemberId) :
    cacheSound st oldSet (refCachePure st oldSet) := by
  unfold refCachePure
  have hgen : ∀ (l : List PyModule), (∀ m ∈ l, m ∈ st.modules) →
      ∀ c, cacheSound st oldSet c →
      cacheSound st oldSet (l.foldl (fun c m =>
        (iterExternalList st m).foldl (refCacheAdd st oldSet m.mname) c) c) := by
    intro l
    induction l with
    | nil =>
      intro _ c hc
      exact hc
    | cons q t ih =>
      intro hl c hc
      rw [List.foldl_cons]
      exact ih (fun m hm => hl m (List.mem_cons_of_mem q hm)) _
        (refCacheScan_fold_sound (hl q (List.mem_cons_self q t)) _ c (fun p hp => hp) hc)
  refine hgen st.modules (fun m hm => hm) [] ?_
  intro k e he
  simp [alookup] at he

/-- Monotonicity: an entry present in the cache stays present through further
`refCacheAdd` steps. -/
theorem refCacheAdd_mono {st : PyState} {oldSet : List MemberId} (mn : String)
    {c : List (String × List (String × String × PyVal))} {k : String}
    {e : String × String × PyVal} (he : e ∈ (alookup c k).getD [])
    (p : String × PyVal) :
    e ∈ (alookup (refCacheAdd st oldSet mn c p) k).getD [] := by
  cases hid : memberId st p.2 with
  | none =>
    rw [refCacheAdd_eq_of_none hid]
    exact he
  | some mid =>
    by_cases hin : mid ∈ oldSet
    · rw [refCacheAdd_eq_of_mem hid hin, alookup_aappend]
      by_cases hk : k = fullMemberName st p.2
      · rw [if_pos hk]
        rw [hk] at he
        exact List.mem_append.mpr (Or.inl he)
      · rw [if_neg hk]
        exact he
    · rw [refCacheAdd_eq_of_notin hid hin]
      exact he

theorem refCacheScan_fold_mono {st : PyState} {oldSet : List MemberId} (mn : String)
    (ms : List (String × PyVal)) :
    ∀ {c : List (String × List (String × String × PyVal))} {k : String}
    {e : String × String × PyVal}, e ∈ (alookup c k).getD [] →
    e ∈ (alookup (ms.foldl (refCacheAdd st oldSet mn) c) k).getD [] := by
  induction ms with
  | nil =>
    intro c k e he
    exact he
  | cons p t ih =>
    intro c k e he
    rw [List.foldl_cons]
    exact ih (refCacheAdd_mono mn he p)

theorem refCachePure_fold_mono {st : PyState} {oldSet : List MemberId}
    (l : List PyModule) :
    ∀ {c : List (String × List (String × String × PyVal))} {k : String}
    {e : String × String × PyVal}, e ∈ (alookup c k).getD [] →
    e ∈ (alookup (l.foldl (fun c m =>
        (iterExternalList st m).foldl (refCacheAdd st oldSet m.mname) c) c) k).getD [] := by
  induction l with
  | nil =>
    intro c k e he
    exact he
  | cons q t ih =>
    intro c k e he
    rw [List.foldl_cons]
    exact ih (refCacheScan_fold_mono q.mname _ he)

theorem refCacheScan_fold_complete {st : PyState} {oldSet : List MemberId} (mn : String)
    {nm : String} {x : PyVal} {mid : MemberId}
    (hid : memberId st x = some mid) (hin : mid ∈ oldSet) :
    ∀ (ms : List (String × PyVal)) (c : List (String × List (String × String × PyVal))),
    (nm, x) ∈ ms →
    (mn, nm, x) ∈ (alookup (ms.foldl (refCacheAdd st oldSet mn) c)
        (fullMemberName st x)).getD [] := by
  intro ms
  induction ms with
  | nil =>
    intro c h
    cases h
  | cons p t ih =>
    intro c hmem
    rw [List.foldl_cons]
    rcases List.mem_cons.mp hmem with h0 | h0
    · subst h0
      apply refCacheScan_fold_mono
      rw [refCacheAdd_eq_of_mem hid hin, alookup_aappend, if_pos rfl]
      simp
    · exact ih _ h0

theorem refCachePure_complete {st : PyState} {oldSet : List MemberId}
    {A : PyModule} (hA : A ∈ st.modules) {nm : String} {x : PyVal}
    (hmem : (nm, x) ∈ iterExternalList st A) {mid : MemberId}
    (hid : memberId st x = some mid) (hin : mid ∈ oldSet) :
    (A.mname, nm, x) ∈ (alookup (refCachePure st oldSet) (fullMemberName st x)).getD [] := by
  unfold refCachePure
  have hgen : ∀ (l : List PyModule), A ∈ l →
      ∀ c, (A.mname, nm, x) ∈ (alookup (l.foldl (fun c m =>
        (iterExternalList st m).foldl (refCacheAdd st oldSet m.mname) c) c)
        (fullMemberName st x)).getD [] := by
    intro l
    induction l with
    | nil =>
      intro h
      cases h
    | cons q t ih =>
      intro hAl c
      rw [List.foldl_cons]
      rcases List.mem_cons.mp hAl with h0 | h0
      · subst h0
        apply refCachePure_fold_mono
        exact refCacheScan_fold_complete A.mname hid hin _ c hmem
      · exact ih h0 _
  exact hgen st.modules hA []

/-! ## Step lemmas for the driver and the propagation pass -/

theorem alookup_mem {κ α : Type} [DecidableEq κ] :
    ∀ {l : List (κ × α)} {k : κ} {v : α}, alookup l k = some v → (k, v) ∈ l := by
  intro l
  induction l with
  | nil =>
    intro k v h
    simp [alookup] at h
  | cons q t ih =>
    intro k v h
    cases q with
    | mk k1 v1 =>
      by_cases h1 : k1 = k
      · subst h1
        rw [alookup, if_pos rfl] at h
        injection h with h
        subst h
        exact List.mem_cons_self _ _
      · rw [alookup, if_neg h1] at h
        exact List.mem_cons_of_mem _ (ih h)

theorem getModule_applyReload (st : PyState) (b : String) (r : ModReload) (x : String) :
    getModule (applyReload st b r) x
      = (getModule st x).map (fun m =>
          if m.mname = b then { m with mdict := r.newDict } else m) := by
  unfold getModule applyReload
  show (st.modules.map _).find? _ = _
  rw [List.find?_map]
  have hpred : ((fun m => m.mname == x) ∘ fun m =>
      if m.mname = b then { m with mdict := r.newDict } else m)
      = (fun (m : PyModule) => m.mname == x) := by
    funext m
    by_cases hm : m.mname = b <;> simp [hm]
  rw [hpred]

theorem runQueue_nil (oracle : String → Nat → Option ModReload) (fuel : Nat)
    (ds : DriverState) (h : ds.queue = []) : runQueue oracle fuel ds = ds := by
  cases fuel with
  | zero => rfl
  | succ fuel =>
    obtain ⟨st0, queue0, counter0, rel0, fail0⟩ := ds
    simp only at h
    subst h
    rfl

theorem runQueue_step_success (oracle : String → Nat → Option ModReload) (fuel : Nat)
    (ds : DriverState) (m : String) (rest : List String) (r : ModReload)
    (hq : ds.queue = m :: rest)
    (hf : (alookup ds.failCounter m).getD 0 = 0)
    (ho : oracle m 0 = some r) :
    runQueue oracle (fuel + 1) ds
      = runQueue oracle fuel
          { ds with st := applyReload ds.st m r, queue := rest,
                    reloadedMods := ds.reloadedMods ++ [m] } := by
  obtain ⟨st0, queue0, counter0, rel0, fail0⟩ := ds
  simp only at hq hf
  subst hq
  simp only [runQueue, hf, ho]
  rfl

theorem runDriver_singleton (oracle : String → Nat → Option ModReload) (b : String)
    (st : PyState) (r : ModReload) (ho : oracle b 0 = some r) :
    runDriver oracle [b] st = ⟨applyReload st b r, [], [], [b], []⟩ := by
  unfold runDriver
  show runQueue oracle (11 + 1) ⟨st, [b], [], [], []⟩ = _
  rw [runQueue_step_success oracle 11 ⟨st, [b], [], [], []⟩ b [] r rfl rfl ho]
  exact runQueue_nil oracle 11 _ rfl

theorem update_instances_step_modules (newC : Nat) (acc : PyState × List LogEvent)
    (iid : Nat) :
    (update_instances_step newC acc iid).1.modules = acc.1.modules
      ∧ (update_instances_step newC acc iid).1.classes = acc.1.classes := by
  unfold update_instances_step
  cases acc.1.instances.find? (fun ins => ins.iid == iid) with
  | none => exact ⟨rfl, rfl⟩
  | some ins =>
    by_cases hr : ins.retypable <;> simp [hr, setInstanceClass]

theorem update_instances_modules (icache : List (Nat × List Nat)) (st : PyState)
    (oldC newC : Nat) :
    (update_instances icache st oldC newC).1.modules = st.modules
      ∧ (update_instances icache st oldC newC).1.classes = st.classes := by
  unfold update_instances
  have hgen : ∀ (l : List Nat) (acc : PyState × List LogEvent),
      (l.foldl (update_instances_step newC) acc).1.modules = acc.1.modules
        ∧ (l.foldl (update_instances_step newC) acc).1.classes = acc.1.classes := by
    intro l
    induction l with
    | nil => intro acc; exact ⟨rfl, rfl⟩
    | cons c t ih =>
      intro acc
      rw [List.foldl_cons]
      rcases ih (update_instances_step newC acc c) with ⟨h1, h2⟩
      rcases update_instances_step_modules newC acc c with ⟨h3, h4⟩
      exact ⟨h1.trans h3, h2.trans h4⟩
  exact hgen _ _

theorem update_subclasses_modules (st : PyState) (oldC newC : Nat) :
    (update_subclasses st oldC newC).modules = st.modules
      ∧ (update_subclasses st oldC newC).instances = st.instances := by
  unfold update_subclasses
  cases getClass st newC with
  | none => exact ⟨rfl, rfl⟩
  | some nco =>
    have hgen : ∀ (l : List (Nat × ClassObj)) (s : PyState),
        (l.foldl (update_subclasses_step nco newC) s).modules = s.modules
          ∧ (l.foldl (update_subclasses_step nco newC) s).instances = s.instances := by
      intro l
      induction l with
      | nil => intro s; exact ⟨rfl, rfl⟩
      | cons q t ih =>
        intro s
        rw [List.foldl_cons]
        rcases ih (update_subclasses_step nco newC s q) with ⟨h1, h2⟩
        have hstep : (update_subclasses_step nco newC s q).modules = s.modules
            ∧ (update_subclasses_step nco newC s q).instances = s.instances := by
          unfold update_subclasses_step
          cases getClass s q.1 with
          | none => exact ⟨rfl, rfl⟩
          | some sco => exact ⟨rfl, rfl⟩
        exact ⟨h1.trans hstep.1, h2.trans hstep.2⟩
    exact hgen _ _

theorem uosc_no_module {caches : Caches} {mn : String} {acc : PyState × List LogEvent}
    {c : Nat} (hm : getModule acc.1 mn = none) :
    update_one_stale_class caches mn acc c = .ok acc := by
  unfold update_one_stale_class
  rw [hm]

theorem uosc_no_class {caches : Caches} {mn : String} {acc : PyState × List LogEvent}
    {c : Nat} {m : PyModule} (hm : getModule acc.1 mn = some m)
    (hc : getClass acc.1 c = none) :
    update_one_stale_class caches mn acc c = .ok acc := by
  unfold update_one_stale_class
  simp only [hm, hc]

theorem uosc_removed {caches : Caches} {mn : String} {acc : PyState × List LogEvent}
    {c : Nat} {m : PyModule} {oco : ClassObj} (hm : getModule acc.1 mn = some m)
    (hc : getClass acc.1 c = some oco) (hl : alookup m.mdict oco.cname = none) :
    update_one_stale_class caches mn acc c
      = .ok (acc.1, acc.2 ++ [.debugMissingClass oco.cname]) := by
  unfold update_one_stale_class
  simp only [hm, hc, hl]

theorem uosc_falsy {caches : Caches} {mn : String} {acc : PyState × List LogEvent}
    {c : Nat} {m : PyModule} {oco : ClassObj} {nv : PyVal}
    (hm : getModule acc.1 mn = some m) (hc : getClass acc.1 c = some oco)
    (hl : alookup m.mdict oco.cname = some nv) (ht : truthyVal nv = false) :
    update_one_stale_class caches mn acc c
      = .ok (acc.1, acc.2 ++ [.debugMissingClass oco.cname]) := by
  unfold update_one_stale_class
  simp only [hm, hc, hl]
  simp [ht]

theorem uosc_truthy_nonclass_func {caches : Caches} {mn : String}
    {acc : PyState × List LogEvent} {c : Nat} {m : PyModule} {oco : ClassObj} {f : FuncObj}
    (hm : getModule acc.1 mn = some m) (hc : getClass acc.1 c = some oco)
    (hl : alookup m.mdict oco.cname = some (.func f)) :
    update_one_stale_class caches mn acc c = .error () := by
  unfold update_one_stale_class
  simp only [hm, hc, hl]
  rfl

theorem uosc_truthy_nonclass_data {caches : Caches} {mn : String}
    {acc : PyState × List LogEvent} {c : Nat} {m : PyModule} {oco : ClassObj}
    {d : Nat} {tb : Bool}
    (hm : getModule acc.1 mn = some m) (hc : getClass acc.1 c = some oco)
    (hl : alookup m.mdict oco.cname = some (.dataVal d tb)) (ht : tb = true) :
    update_one_stale_class caches mn acc c = .error () := by
  unfold update_one_stale_class
  subst ht
  simp only [hm, hc, hl]
  rfl

theorem uosc_class {caches : Caches} {mn : String} {acc : PyState × List LogEvent}
    {c : Nat} {m : PyModule} {oco : ClassObj} {nc : Nat}
    (hm : getModule acc.1 mn = some m) (hc : getClass acc.1 c = some oco)
    (hl : alookup m.mdict oco.cname = some (.clsRef nc)) :
    update_one_stale_class caches mn acc c
      = .ok ((update_instances caches.instanceCache (update_subclasses acc.1 c nc) c nc).1,
          acc.2 ++ (update_instances caches.instanceCache
            (update_subclasses acc.1 c nc) c nc).2) := by
  unfold update_one_stale_class
  simp only [hm, hc, hl]
  rfl

theorem update_one_stale_class_ok_modules (caches : Caches) (mn : String)
    (acc : PyState × List LogEvent) (c : Nat) (res : PyState × List LogEvent)
    (h : update_one_stale_class caches mn acc c = .ok res) :
    res.1.modules = acc.1.modules := by
  cases hm : getModule acc.1 mn with
  | none =>
    rw [uosc_no_module hm] at h
    injection h with h
    rw [← h]
  | some m =>
    cases hc : getClass acc.1 c with
    | none =>
      rw [uosc_no_class hm hc] at h
      injection h with h
      rw [← h]
    | some oco =>
      cases hl : alookup m.mdict oco.cname with
      | none =>
        rw [uosc_removed hm hc hl] at h
        injection h with h
        rw [← h]
      | some nv =>
        cases nv with
        | clsRef nc =>
          rw [uosc_class hm hc hl] at h
          injection h with h
          rw [← h]
          show (update_instances caches.instanceCache
              (update_subclasses acc.1 c nc) c nc).1.modules = acc.1.modules
          rw [(update_instances_modules _ _ _ _).1,
            (update_subclasses_modules _ _ _).1]
        | func f =>
          rw [uosc_truthy_nonclass_func hm hc hl] at h
          cases h
        | dataVal d tb =>
          cases tb with
          | true =>
            rw [uosc_truthy_nonclass_data hm hc hl rfl] at h
            cases h
          | false =>
            rw [uosc_falsy hm hc hl rfl] at h
            injection h with h
            rw [← h]

theorem stale_class_loop_modules (caches : Caches) (mn : String) :
    ∀ (olds : List Nat) (acc res : PyState × List LogEvent),
    olds.foldlM (update_one_stale_class caches mn) acc = .ok res →
    res.1.modules = acc.1.modules := by
  intro olds
  induction olds with
  | nil =>
    intro acc res h
    injection h with h
    rw [← h]
  | cons c t ih =>
    intro acc res h
    rw [List.foldlM_cons] at h
    cases hstep : update_one_stale_class caches mn acc c with
    | error e =>
      rw [hstep] at h
      cases h
    | ok mid =>
      rw [hstep] at h
      have h2 : t.foldlM (update_one_stale_class caches mn) mid = .ok res := h
      rw [ih mid res h2]
      exact update_one_stale_class_ok_modules caches mn acc c mid hstep

/-- The successful form of `update_other_modules_refs`: the write sequence it
applies, one write per (new internal member, recorded holder) pair, in scan
order. -/
def refWrites (cache : List (String × List (String × String × PyVal)))
    (st : PyState) (m : PyModule) : List (String × String × PyVal) :=
  (iterInternalList st m).flatMap (fun p =>
    ((alookup cache (fullMemberName st p.2)).getD []).map (fun e => (e.1, e.2.1, p.2)))

theorem update_other_modules_refs_ok (cache : List (String × List (String × String × PyVal)))
    (st : PyState) (mn : String) (m : PyModule)
    (hm : getModule st mn = some m) (hr : m.raisesOnIntrospection = false) :
    update_other_modules_refs cache st mn = .ok (applyWrites st (refWrites cache st m)) := by
  have hi : introspectInternal st m = .ok (iterInternalList st m) := by
    unfold introspectInternal
    rw [hr]
    rfl
  unfold update_other_modules_refs
  simp only [hm]
  rw [hi]
  rfl

/-! ## External-binding repair through a full reload (claim C1) -/

theorem getModule_congr {st1 st2 : PyState} (h : st1.modules = st2.modules) (x : String) :
    getModule st1 x = getModule st2 x := by
  unfold getModule
  rw [h]

/-- Core of external-binding repair: if module `A` holds, under local name
`aname`, an External Binding to a member `v` owned by module `B` (recorded in
the reference cache), and a successful `reload([B])` produces a new export
table whose unique internal member with `v`'s qualified name is `w`, then
afterwards `A`'s binding at `aname` is overwritten to `w`. -/
theorem binding_repair_core
    (oracle : String → Nat → Option ModReload) (st : PyState)
    (aN bN aname bno wname : String) (A B : PyModule) (v w : PyVal) (r : ModReload)
    (stF : PyState) (lg : List LogEvent)
    (hnr : noRaises st)
    (hdn : distinctModNames st)
    (hdk : distinctDictKeys st)
    (hA : getModule st aN = some A)
    (hB : getModule st bN = some B)
    (hAB : aN ≠ bN)
    (hbind : alookup A.mdict aname = some v)
    (hvmod : valModuleAttr st v = some bN)
    (hvold : (bno, v) ∈ iterMembersList st B)
    (horacle : oracle bN 0 = some r)
    (hw : (wname, w) ∈ iterInternalList (applyReload st bN r) { B with mdict := r.newDict })
    (hKw : fullMemberName (applyReload st bN r) w = fullMemberName st v)
    (huniq : ∀ p ∈ iterInternalList (applyReload st bN r) { B with mdict := r.newDict },
      fullMemberName (applyReload st bN r) p.2 = fullMemberName st v → p.2 = w)
    (hok : superreload oracle [bN] st = .ok (stF, lg)) :
    ∃ A2, getModule stF aN = some A2 ∧ alookup A2.mdict aname = some w := by
  have hAm : A.mname = aN := getModule_name hA
  have hBm : B.mname = bN := getModule_name hB
  have hAmem : A ∈ st.modules := getModule_mem hA
  have hBmem : B ∈ st.modules := getModule_mem hB
  have hdn2 : st.modules.Pairwise (fun m1 m2 => m1.mname ≠ m2.mname) := hdn
  have hdk2 : ∀ m ∈ st.modules, m.mdict.Pairwise (fun p1 p2 => p1.1 ≠ p2.1) := hdk
  have hcache := build_caches_ok st [bN] hnr
  have hdrv := runDriver_singleton oracle bN st r horacle
  -- names and abbreviations
  have hres : resolveModules st [bN] = [B] := by
    unfold resolveModules
    simp [hB]
  have holdSet : (cachesPure st [bN]).oldMembersSet
      = (iterMembersList st B).filterMap (fun p => memberId st p.2) := by
    unfold cachesPure oldCachePure
    rw [hres]
    rfl
  -- the member attributes of v
  have hva : ∃ a, valAttrs st v = some a ∧ a.moduleAttr = some bN := by
    unfold valModuleAttr at hvmod
    cases hv : valAttrs st v with
    | none =>
      rw [hv] at hvmod
      exact Option.noConfusion hvmod
    | some a =>
      rw [hv] at hvmod
      exact ⟨a, rfl, hvmod⟩
  obtain ⟨a, hva, ham⟩ := hva
  have hid : memberId st v = some a.mid := by
    unfold memberId
    rw [hva]
    rfl
  -- the binding is an external member of A
  have hvmem : (aname, v) ∈ A.mdict := alookup_mem hbind
  have hmm : (aname, v) ∈ iterMembersList st A := by
    unfold iterMembersList
    rw [List.mem_filter]
    refine ⟨hvmem, ?_⟩
    show (match valAttrs st v with
      | some a => a.moduleAttr.isSome
      | none => false) = true
    rw [hva]
    show a.moduleAttr.isSome = true
    rw [ham]
    rfl
  have hext : (aname, v) ∈ iterExternalList st A := by
    unfold iterExternalList
    rw [List.mem_filter]
    refine ⟨hmm, ?_⟩
    show (valModuleAttr st v != some A.mname) = true
    rw [hvmod, hAm]
    simp only [bne_iff_ne, ne_eq, Option.some.injEq]
    exact fun h => hAB h.symm
  -- v's identity is in the staleness set, so the binding is cached
  have hmidSet : a.mid ∈ (cachesPure st [bN]).oldMembersSet := by
    rw [holdSet]
    exact List.mem_filterMap.mpr ⟨(bno, v), hvold, hid⟩
  have hcomp : (A.mname, aname, v)
      ∈ (alookup (refCachePure st (cachesPure st [bN]).oldMembersSet)
          (fullMemberName st v)).getD [] :=
    refCachePure_complete hAmem hext hid hmidSet
  have hcacheRef : (cachesPure st [bN]).referenceCache
      = refCachePure st (cachesPure st [bN]).oldMembersSet := rfl
  -- the post-reload module B
  have hB2 : getModule (applyReload st bN r) bN = some { B with mdict := r.newDict } := by
    rw [getModule_applyReload, hB]
    simp [hBm]
  have hB2r : ({ B with mdict := r.newDict } : PyModule).raisesOnIntrospection = false :=
    hnr B hBmem
  have huomr := update_other_modules_refs_ok (cachesPure st [bN]).referenceCache
    (applyReload st bN r) bN { B with mdict := r.newDict } hB2 hB2r
  -- unfold superreload through the successful driver run
  have hsr : superreload oracle [bN] st
      = (update_stale_modules_and_instances (cachesPure st [bN]) [bN]
          (applyReload st bN r)).bind
        (fun r2 => Except.ok (r2.1, r2.2 ++ ([] : List String).map LogEvent.errorReloadFailed)) := by
    unfold superreload
    rw [hcache, hdrv]
    rfl
  -- the write sequence applied by binding repair
  have hstale : update_stale_modules_and_instances (cachesPure st [bN]) [bN]
      (applyReload st bN r)
      = ((oldInternalClasses
            (applyWrites (applyReload st bN r)
              (refWrites (cachesPure st [bN]).referenceCache (applyReload st bN r)
                { B with mdict := r.newDict }))
            (cachesPure st [bN]) bN).foldlM
          (update_one_stale_class (cachesPure st [bN]) bN)
          (applyWrites (applyReload st bN r)
            (refWrites (cachesPure st [bN]).referenceCache (applyReload st bN r)
              { B with mdict := r.newDict }), [])).bind
        (fun b => Except.ok b) := by
    show ((update_other_modules_refs (cachesPure st [bN]).referenceCache
        (applyReload st bN r) bN).bind (fun s1 =>
          (oldInternalClasses s1 (cachesPure st [bN]) bN).foldlM
            (update_one_stale_class (cachesPure st [bN]) bN) (s1, []))).bind
        (fun b => Except.ok b) = _
    rw [huomr]
    rfl
  -- destruct the successful run
  rw [hstale] at hsr
  cases holds : (oldInternalClasses
      (applyWrites (applyReload st bN r)
        (refWrites (cachesPure st [bN]).referenceCache (applyReload st bN r)
          { B with mdict := r.newDict }))
      (cachesPure st [bN]) bN).foldlM
      (update_one_stale_class (cachesPure st [bN]) bN)
      (applyWrites (applyReload st bN r)
        (refWrites (cachesPure st [bN]).referenceCache (applyReload st bN r)
          { B with mdict := r.newDict }), []) with
  | error e =>
    rw [holds] at hsr
    rw [hsr] at hok
    exact Except.noConfusion hok
  | ok res =>
    rw [holds] at hsr
    rw [hsr] at hok
    have hok2 : Except.ok (ε := Unit) (res.1, res.2
        ++ ([] : List String).map LogEvent.errorReloadFailed) = Except.ok (stF, lg) := hok
    injection hok2 with hok3
    have hstF : stF = res.1 := (congrArg Prod.fst hok3).symm
    -- the class loop does not touch module dicts
    have hmods : res.1.modules
        = (applyWrites (applyReload st bN r)
            (refWrites (cachesPure st [bN]).referenceCache (applyReload st bN r)
              { B with mdict := r.newDict })).modules :=
      stale_class_loop_modules _ _ _ _ _ holds
    -- the value of A's dict entry after the writes
    have hA2 : getModule (applyReload st bN r) aN = some A := by
      rw [getModule_applyReload, hA]
      have : ¬A.mname = bN := by
        rw [hAm]
        exact hAB
      simp [this]
    have hAW : getModule (applyWrites (applyReload st bN r)
        (refWrites (cachesPure st [bN]).referenceCache (applyReload st bN r)
          { B with mdict := r.newDict })) aN
        = some { A with mdict := (dictAfterWrites
            (refWrites (cachesPure st [bN]).referenceCache (applyReload st bN r)
              { B with mdict := r.newDict }) A.mname A.mdict) } := by
      rw [getModule_applyWrites, hA2]
      rfl
    -- every write targeting (A, aname) writes w
    have hval : ∀ wr ∈ refWrites (cachesPure st [bN]).referenceCache (applyReload st bN r)
        { B with mdict := r.newDict },
        (A.mname = wr.1 ∧ wr.2.1 = aname) → wr.2.2 = w := by
      intro wr hwr hcond
      rcases List.mem_flatMap.mp hwr with ⟨p, hp, hwr2⟩
      rcases List.mem_map.mp hwr2 with ⟨e, he, hwe⟩
      rw [hcacheRef] at he
      have hsound := refCachePure_sound st (cachesPure st [bN]).oldMembersSet
        (fullMemberName (applyReload st bN r) p.2) e he
      obtain ⟨M, hM, hMn, hMe, hKey, _⟩ := hsound
      have he1 : e.1 = A.mname := by
        rw [← hwe] at hcond
        exact hcond.1.symm
      have he21 : e.2.1 = aname := by
        rw [← hwe] at hcond
        exact hcond.2
      have hMA : M = A := eq_of_mem_pairwise_key (fun m => m.mname) hdn2 hM hAmem
        (hMn.trans he1)
      subst hMA
      rw [he21] at hMe
      have hmem2 : (aname, e.2.2) ∈ M.mdict := by
        have h1 := (List.mem_filter.mp hMe).1
        exact (List.mem_filter.mp h1).1
      have hlook : alookup M.mdict aname = some e.2.2 :=
        alookup_of_mem_distinct (hdk2 M hAmem) hmem2
      have hveq : e.2.2 = v := by
        rw [hbind] at hlook
        injection hlook with hv2
        exact hv2.symm
      rw [hveq] at hKey
      have hpw : p.2 = w := huniq p hp hKey
      rw [← hwe]
      exact hpw
    -- the write for w targets (A, aname)
    have hex : ∃ wr ∈ refWrites (cachesPure st [bN]).referenceCache (applyReload st bN r)
        { B with mdict := r.newDict }, A.mname = wr.1 ∧ wr.2.1 = aname := by
      refine ⟨(A.mname, aname, w), ?_, rfl, rfl⟩
      apply List.mem_flatMap.mpr
      refine ⟨(wname, w), hw, ?_⟩
      apply List.mem_map.mpr
      refine ⟨(A.mname, aname, v), ?_, rfl⟩
      show (A.mname, aname, v)
        ∈ (alookup (cachesPure st [bN]).referenceCache
            (fullMemberName (applyReload st bN r) w)).getD []
      rw [hKw, hcacheRef]
      exact hcomp
    have hfinal : alookup (dictAfterWrites
        (refWrites (cachesPure st [bN]).referenceCache (applyReload st bN r)
          { B with mdict := r.newDict }) A.mname A.mdict) aname = some w :=
      dictAfterWrites_unique A.mname aname w _ A.mdict hval hex
    refine ⟨{ A with mdict := (dictAfterWrites
        (refWrites (cachesPure st [bN]).referenceCache (applyReload st bN r)
          { B with mdict := r.newDict }) A.mname A.mdict) }, ?_, hfinal⟩
    rw [hstF, getModule_congr hmods aN]
    exact hAW

/-- C1: if module `A` holds, under local name `aname`, an External Binding to
a member `v` owned by module `B` (and `v` was a member of `B` when the caches
were built, so the binding is recorded in the reference cache), and a
successful `reload([B])` produces a new export table whose unique internal
member with `v`'s qualified name is `w`, then afterwards `A`'s binding at
`aname` is overwritten to `w`. -/
theorem C1_external_binding_repair
    (oracle : String → Nat → Option ModReload) (st : PyState)
    (aN bN aname bno wname : String) (A B : PyModule) (v w : PyVal) (r : ModReload)
    (stF : PyState) (lg : List LogEvent)
    (hnr : noRaises st)
    (hdn : distinctModNames st)
    (hdk : distinctDictKeys st)
    (hA : getModule st aN = some A)
    (hB : getModule st bN = some B)
    (hAB : aN ≠ bN)
    (hbind : alookup A.mdict aname = some v)
    (hvmod : valModuleAttr st v = some bN)
    (hvold : (bno, v) ∈ iterMembersList st B)
    (horacle : oracle bN 0 = some r)
    (hw : (wname, w) ∈ iterInternalList (applyReload st bN r) { B with mdict := r.newDict })
    (hKw : fullMemberName (applyReload st bN r) w = fullMemberName st v)
    (huniq : ∀ p ∈ iterInternalList (applyReload st bN r) { B with mdict := r.newDict },
      fullMemberName (applyReload st bN r) p.2 = fullMemberName st v → p.2 = w)
    (hok : superreload oracle [bN] st = .ok (stF, lg)) :
    ∃ A2, getModule stF aN = some A2 ∧ alookup A2.mdict aname = some w :=
  binding_repair_core oracle st aN bN aname bno wname A B v w r stF lg
    hnr hdn hdk hA hB hAB hbind hvmod hvold horacle hw hKw huniq hok

def c1f1 : PyVal := .func ⟨1, some "B", "f"⟩

def c1f2 : PyVal := .func ⟨2, some "B", "f"⟩

def c1A : PyModule := ⟨"A", [("f", c1f1)], false⟩

def c1B : PyModule := ⟨"B", [("f", c1f1)], false⟩

def c1St : PyState := ⟨[c1A, c1B], [], []⟩

def c1Oracle : String → Nat → Option ModReload := fun _ _ => some ⟨[("f", c1f2)], []⟩

def c1StF : PyState := ⟨[⟨"A", [("f", c1f2)], false⟩, ⟨"B", [("f", c1f2)], false⟩], [], []⟩

theorem C1_witness :
    ∃ A2, getModule c1StF "A" = some A2 ∧ alookup A2.mdict "f" = some c1f2 :=
  C1_external_binding_repair c1Oracle c1St "A" "B" "f" "f" "f" c1A c1B c1f1 c1f2
    ⟨[("f", c1f2)], []⟩ c1StF []
    (by decide) (by decide) (by decide) (by decide) (by decide) (by decide)
    (by decide) (by decide) (by decide) (by decide) (by decide) (by decide)
    (by decide) (by rfl)

/-! ## Frame lemmas: attributes outside the member filter are never written
(claim C10 area) -/

theorem mem_aset {κ α : Type} [DecidableEq κ] :
    ∀ {l : List (κ × α)} {k : κ} {v : α} {q : κ × α},
    q ∈ aset l k v → q = (k, v) ∨ q ∈ l := by
  intro l
  induction l with
  | nil =>
    intro k v q h
    simp [aset] at h
    exact Or.inl h
  | cons p t ih =>
    intro k v q h
    cases p with
    | mk k1 v1 =>
      by_cases h1 : k1 = k
      · rw [aset, if_pos h1] at h
        rcases List.mem_cons.mp h with h0 | h0
        · exact Or.inl h0
        · exact Or.inr (List.mem_cons_of_mem _ h0)
      · rw [aset, if_neg h1] at h
        rcases List.mem_cons.mp h with h0 | h0
        · exact Or.inr (by rw [h0]; exact List.mem_cons_self _ _)
        · rcases ih h0 with h2 | h2
          · exact Or.inl h2
          · exact Or.inr (List.mem_cons_of_mem _ h2)

theorem alookup_foldl_aset_frame {n : String} :
    ∀ (updates : List (String × PyVal)) (d0 : List (String × PyVal)),
    (∀ u ∈ updates, u.1 ≠ n) →
    alookup (updates.foldl (fun d u => aset d u.1 u.2) d0) n = alookup d0 n := by
  intro updates
  induction updates with
  | nil =>
    intro d0 _
    rfl
  | cons u t ih =>
    intro d0 hu
    rw [List.foldl_cons, ih _ (fun x hx => hu x (List.mem_cons_of_mem u hx)),
      alookup_aset_ne d0 u.1 n u.2 (fun h => hu u (List.mem_cons_self u t) h.symm)]

theorem getModule_applyUpdates (st : PyState) (mn : String)
    (updates : List (String × PyVal)) (x : String) :
    getModule (applyUpdates st mn updates) x
      = (getModule st x).map (fun m =>
          if m.mname = mn then
            { m with mdict := updates.foldl (fun d u => aset d u.1 u.2) m.mdict }
          else m) := by
  unfold getModule applyUpdates
  show (st.modules.map _).find? _ = _
  rw [List.find?_map]
  have hpred : ((fun m => m.mname == x) ∘ fun m =>
      if m.mname = mn then
        { m with mdict := updates.foldl (fun d u => aset d u.1 u.2) m.mdict }
      else m)
      = (fun (m : PyModule) => m.mname == x) := by
    funext m
    by_cases hm : m.mname = mn <;> simp [hm]
  rw [hpred]

theorem wrap_class_modules (wrapper : FuncObj → String → FuncObj) (st : PyState)
    (cid : Nat) (mns : Option (List String)) :
    (wrap_class wrapper st cid mns).modules = st.modules := by
  unfold wrap_class
  cases getClass st cid with
  | none => rfl
  | some co => rfl

theorem superwrapper_fold_modules (wrapper : FuncObj → String → FuncObj) :
    ∀ (ims : List (String × PyVal)) (acc : PyState × List (String × PyVal)),
    (ims.foldl (superwrapper_step wrapper) acc).1.modules = acc.1.modules := by
  intro ims
  induction ims with
  | nil => intro acc; rfl
  | cons p t ih =>
    intro acc
    rw [List.foldl_cons, ih]
    unfold superwrapper_step
    cases p.2 with
    | func f => rfl
    | clsRef c => exact wrap_class_modules wrapper acc.1 c none
    | dataVal d tb => rfl

theorem superwrapper_fold_updates_keys (wrapper : FuncObj → String → FuncObj) :
    ∀ (ims : List (String × PyVal)) (acc : PyState × List (String × PyVal)),
    ∀ u ∈ (ims.foldl (superwrapper_step wrapper) acc).2,
    (∃ p ∈ ims, u.1 = p.1) ∨ u ∈ acc.2 := by
  intro ims
  induction ims with
  | nil =>
    intro acc u hu
    exact Or.inr hu
  | cons p t ih =>
    intro acc u hu
    rw [List.foldl_cons] at hu
    rcases ih (superwrapper_step wrapper acc p) u hu with h0 | h0
    · rcases h0 with ⟨q, hq, hq2⟩
      exact Or.inl ⟨q, List.mem_cons_of_mem p hq, hq2⟩
    · have hstep : (superwrapper_step wrapper acc p).2 = acc.2
          ∨ ∃ v2, (superwrapper_step wrapper acc p).2 = aset acc.2 p.1 v2 := by
        unfold superwrapper_step
        cases p.2 with
        | func f => exact Or.inr ⟨_, rfl⟩
        | clsRef c => exact Or.inr ⟨_, rfl⟩
        | dataVal d tb => exact Or.inl rfl
      rcases hstep with h1 | ⟨v2, h1⟩
      · rw [h1] at h0
        exact Or.inr h0
      · rw [h1] at h0
        rcases mem_aset h0 with h2 | h2
        · exact Or.inl ⟨p, List.mem_cons_self p t, by rw [h2]⟩
        · exact Or.inr h2

/-- The per-module data-attribute invariant used for the frame theorems: the
module named `xn` is loaded and still maps `n` to the data value. -/
def dataIntact (xn n : String) (d : Nat) (tb : Bool) (s : PyState) : Prop :=
  ∃ X2, getModule s xn = some X2 ∧ alookup X2.mdict n = some (.dataVal d tb)

theorem dataIntact_congr {xn n : String} {d : Nat} {tb : Bool} {s1 s2 : PyState}
    (h : s2.modules = s1.modules) (hP : dataIntact xn n d tb s1) :
    dataIntact xn n d tb s2 := by
  obtain ⟨X2, hg, hv⟩ := hP
  exact ⟨X2, (getModule_congr h xn).trans hg, hv⟩

theorem dataIntact_applyWrites {xn n : String} {d : Nat} {tb : Bool} {s : PyState}
    {ws : List (String × String × PyVal)}
    (hNT : ∀ wr ∈ ws, ¬(xn = wr.1 ∧ wr.2.1 = n))
    (hP : dataIntact xn n d tb s) : dataIntact xn n d tb (applyWrites s ws) := by
  obtain ⟨X2, hg, hv⟩ := hP
  have hname : X2.mname = xn := getModule_name hg
  refine ⟨{ X2 with mdict := dictAfterWrites ws X2.mname X2.mdict }, ?_, ?_⟩
  · rw [getModule_applyWrites, hg]
    rfl
  · show alookup (dictAfterWrites ws X2.mname X2.mdict) n = some (.dataVal d tb)
    rw [dictAfterWrites_frame X2.mname n ws X2.mdict ?hno]
    · exact hv
    · intro w hw hc
      rw [hname] at hc
      exact hNT w hw hc

theorem getModule_applyReload_ne {st : PyState} {b : String} {r : ModReload}
    {x : String} (h : x ≠ b) :
    getModule (applyReload st b r) x = getModule st x := by
  rw [getModule_applyReload]
  cases hg : getModule st x with
  | none => rfl
  | some m =>
    have hm : m.mname = x := getModule_name hg
    simp [hm, h]

theorem runQueue_getModule_frame (oracle : String → Nat → Option ModReload)
    (x : String) :
    ∀ (fuel : Nat) (ds : DriverState), (∀ m ∈ ds.queue, m ≠ x) →
    getModule (runQueue oracle fuel ds).st x = getModule ds.st x := by
  intro fuel
  induction fuel with
  | zero => intro ds _; rfl
  | succ fuel ih =>
    intro ds hq
    obtain ⟨st0, queue0, counter0, rel0, fail0⟩ := ds
    cases hqe : queue0 with
    | nil =>
      subst hqe
      rfl
    | cons m rest =>
      subst hqe
      have hmx : m ≠ x := hq m (List.mem_cons_self m rest)
      have hrest : ∀ m2 ∈ rest, m2 ≠ x := fun m2 h2 => hq m2 (List.mem_cons_of_mem m h2)
      by_cases hf : (alookup counter0 m).getD 0 < maxFails
      · cases ho : oracle m ((alookup counter0 m).getD 0) with
        | some r =>
          have hstep : runQueue oracle (fuel + 1) ⟨st0, m :: rest, counter0, rel0, fail0⟩
              = runQueue oracle fuel
                  ⟨applyReload st0 m r, rest, counter0, rel0 ++ [m], fail0⟩ := by
            simp only [runQueue, ho, if_pos hf]
          rw [hstep, ih _ hrest]
          exact getModule_applyReload_ne (fun h => hmx h.symm)
        | none =>
          by_cases hl : (alookup counter0 m).getD 0 + 1 = maxFails
          · have hstep : runQueue oracle (fuel + 1) ⟨st0, m :: rest, counter0, rel0, fail0⟩
                = runQueue oracle fuel ⟨st0, rest, counter0, rel0, fail0 ++ [m]⟩ := by
              simp only [runQueue, ho, if_pos hf, if_pos hl]
            rw [hstep, ih _ hrest]
          · have hstep : runQueue oracle (fuel + 1) ⟨st0, m :: rest, counter0, rel0, fail0⟩
                = runQueue oracle fuel
                    ⟨st0, rest ++ [m],
                     aset counter0 m ((alookup counter0 m).getD 0 + 1), rel0, fail0⟩ := by
              simp only [runQueue, ho, if_pos hf, if_neg hl]
            rw [hstep, ih _ ?hq2]
            intro m2 h2
            rcases List.mem_append.mp h2 with h3 | h3
            · exact hrest m2 h3
            · have : m2 = m := by simpa using h3
              rw [this]
              exact hmx
      · have hstep : runQueue oracle (fuel + 1) ⟨st0, m :: rest, counter0, rel0, fail0⟩
            = runQueue oracle fuel ⟨st0, rest, counter0, rel0, fail0⟩ := by
          simp only [runQueue, if_neg hf]
        rw [hstep, ih _ hrest]

theorem update_stale_step_none {caches : Caches} {acc : PyState × List LogEvent}
    {mn : String} (hm : getModule acc.1 mn = none) :
    update_stale_step caches acc mn
      = (oldInternalClasses acc.1 caches mn).foldlM
          (fun a c => update_one_stale_class caches mn a c) (acc.1, acc.2) := by
  have h1 : update_other_modules_refs caches.referenceCache acc.1 mn = .ok acc.1 := by
    unfold update_other_modules_refs
    rw [hm]
  unfold update_stale_step
  rw [h1]
  rfl

theorem update_stale_step_raises {caches : Caches} {acc : PyState × List LogEvent}
    {mn : String} {m : PyModule} (hm : getModule acc.1 mn = some m)
    (hr : m.raisesOnIntrospection = true) :
    update_stale_step caches acc mn = .error () := by
  have h1 : update_other_modules_refs caches.referenceCache acc.1 mn = .error () := by
    unfold update_other_modules_refs
    simp only [hm]
    have h2 : introspectInternal acc.1 m = .error () := by
      unfold introspectInternal
      rw [hr]
      rfl
    rw [h2]
    rfl
  unfold update_stale_step
  rw [h1]
  rfl

theorem update_stale_step_some {caches : Caches} {acc : PyState × List LogEvent}
    {mn : String} {m : PyModule} (hm : getModule acc.1 mn = some m)
    (hr : m.raisesOnIntrospection = false) :
    update_stale_step caches acc mn
      = (oldInternalClasses (applyWrites acc.1 (refWrites caches.referenceCache acc.1 m))
          caches mn).foldlM (fun a c => update_one_stale_class caches mn a c)
          (applyWrites acc.1 (refWrites caches.referenceCache acc.1 m), acc.2) := by
  unfold update_stale_step
  rw [update_other_modules_refs_ok caches.referenceCache acc.1 mn m hm hr]
  rfl

theorem refWrites_no_data_target {st : PyState}
    (hdn2 : st.modules.Pairwise (fun a b => a.mname ≠ b.mname))
    (hdk2 : ∀ m ∈ st.modules, m.mdict.Pairwise (fun a b => a.1 ≠ b.1))
    {xn n : String} {X : PyModule} (hX : getModule st xn = some X)
    {d : Nat} {tb : Bool} (hdata : alookup X.mdict n = some (.dataVal d tb))
    (oldSet : List MemberId) (s : PyState) (m2 : PyModule) :
    ∀ wr ∈ refWrites (refCachePure st oldSet) s m2, ¬(xn = wr.1 ∧ wr.2.1 = n) := by
  intro wr hwr hcond
  rcases List.mem_flatMap.mp hwr with ⟨p, hp, hwr2⟩
  rcases List.mem_map.mp hwr2 with ⟨e, he, hwe⟩
  have hsound := refCachePure_sound st oldSet _ e he
  obtain ⟨M, hM, hMn, hMe, _, _⟩ := hsound
  have hXn : X.mname = xn := getModule_name hX
  have he1 : e.1 = xn := by
    rw [← hwe] at hcond
    exact hcond.1.symm
  have he21 : e.2.1 = n := by
    rw [← hwe] at hcond
    exact hcond.2
  have hMX : M = X := eq_of_mem_pairwise_key (fun m => m.mname) hdn2 hM (getModule_mem hX)
    (show M.mname = X.mname by rw [hMn, he1, hXn])
  subst hMX
  rw [he21] at hMe
  have hmm := (List.mem_filter.mp hMe).1
  have hmem2 : (n, e.2.2) ∈ M.mdict := (List.mem_filter.mp hmm).1
  have hlook : alookup M.mdict n = some e.2.2 :=
    alookup_of_mem_distinct (hdk2 M (getModule_mem hX)) hmem2
  rw [hdata] at hlook
  injection hlook with hv
  have hpred := (List.mem_filter.mp hmm).2
  rw [← hv] at hpred
  simp [valAttrs] at hpred

theorem update_stale_data_frame (caches : Caches) {xn n : String} {d : Nat} {tb : Bool}
    (hNTC : ∀ (s : PyState) (m2 : PyModule),
      ∀ wr ∈ refWrites caches.referenceCache s m2, ¬(xn = wr.1 ∧ wr.2.1 = n)) :
    ∀ (l : List String) (acc res : PyState × List LogEvent),
    dataIntact xn n d tb acc.1 →
    l.foldlM (update_stale_step caches) acc = .ok res →
    dataIntact xn n d tb res.1 := by
  intro l
  induction l with
  | nil =>
    intro acc res hP h
    injection h with h
    rw [← h]
    exact hP
  | cons mn t ih =>
    intro acc res hP h
    rw [List.foldlM_cons] at h
    cases hs : update_stale_step caches acc mn with
    | error e =>
      rw [hs] at h
      exact Except.noConfusion h
    | ok acc1 =>
      rw [hs] at h
      have h2 : t.foldlM (update_stale_step caches) acc1 = .ok res := h
      refine ih acc1 res ?_ h2
      cases hm : getModule acc.1 mn with
      | none =>
        rw [update_stale_step_none hm] at hs
        have hmods : acc1.1.modules = acc.1.modules :=
          stale_class_loop_modules caches mn _ (acc.1, acc.2) acc1 hs
        exact dataIntact_congr hmods hP
      | some m =>
        cases hraises : m.raisesOnIntrospection with
        | true =>
          rw [update_stale_step_raises hm hraises] at hs
          exact Except.noConfusion hs
        | false =>
          rw [update_stale_step_some hm hraises] at hs
          have hmods : acc1.1.modules
              = (applyWrites acc.1 (refWrites caches.referenceCache acc.1 m)).modules :=
            stale_class_loop_modules caches mn _ _ acc1 hs
          exact dataIntact_congr hmods (dataIntact_applyWrites (hNTC acc.1 m) hP)

theorem aset_keysDistinct {κ α : Type} [DecidableEq κ] :
    ∀ {l : List (κ × α)} (k : κ) (v : α),
    l.Pairwise (fun a b => a.1 ≠ b.1) → (aset l k v).Pairwise (fun a b => a.1 ≠ b.1) := by
  intro l
  induction l with
  | nil =>
    intro k v _
    simp [aset]
  | cons q t ih =>
    intro k v hd
    rcases List.pairwise_cons.mp hd with ⟨hq, ht⟩
    cases q with
    | mk k1 v1 =>
      by_cases h1 : k1 = k
      · rw [aset, if_pos h1]
        rw [List.pairwise_cons]
        refine ⟨?_, ht⟩
        intro q2 hq2
        rw [← h1]
        exact hq q2 hq2
      · rw [aset, if_neg h1]
        rw [List.pairwise_cons]
        refine ⟨?_, ih k v ht⟩
        intro q2 hq2
        rcases mem_aset hq2 with h2 | h2
        · rw [h2]
          exact h1
        · exact hq q2 h2

theorem foldl_aset_keysDistinct :
    ∀ (updates : List (String × PyVal)) (d0 : List (String × PyVal)),
    d0.Pairwise (fun a b => a.1 ≠ b.1) →
    (updates.foldl (fun d u => aset d u.1 u.2) d0).Pairwise (fun a b => a.1 ≠ b.1) := by
  intro updates
  induction updates with
  | nil =>
    intro d0 h
    exact h
  | cons u t ih =>
    intro d0 h
    rw [List.foldl_cons]
    exact ih _ (aset_keysDistinct u.1 u.2 h)

theorem oldCachePure_set_origin (st : PyState) (mods : List PyModule) :
    ∀ mid ∈ (oldCachePure st mods).1,
    ∃ M ∈ mods, ∃ p ∈ iterMembersList st M, memberId st p.2 = some mid := by
  unfold oldCachePure
  have hgen : ∀ (l : List PyModule)
      (acc : List MemberId × List (String × List (String × PyVal))),
      ∀ mid ∈ (l.foldl (fun acc mod =>
        (acc.1 ++ (iterMembersList st mod).filterMap (fun p => memberId st p.2),
         aset acc.2 mod.mname mod.mdict)) acc).1,
      (∃ M ∈ l, ∃ p ∈ iterMembersList st M, memberId st p.2 = some mid) ∨ mid ∈ acc.1 := by
    intro l
    induction l with
    | nil =>
      intro acc mid hm
      exact Or.inr hm
    | cons q t ih =>
      intro acc mid hm
      rw [List.foldl_cons] at hm
      rcases ih _ mid hm with h0 | h0
      · rcases h0 with ⟨M, hM, hp⟩
        exact Or.inl ⟨M, List.mem_cons_of_mem q hM, hp⟩
      · rcases List.mem_append.mp h0 with h1 | h1
        · exact Or.inr h1
        · rcases List.mem_filterMap.mp h1 with ⟨p, hp, hp2⟩
          exact Or.inl ⟨q, List.mem_cons_self q t, p, hp, hp2⟩
  intro mid hm
  rcases hgen mods ([], []) mid hm with h0 | h0
  · exact h0
  · cases h0

/-- The data invariant strengthened with key distinctness, tracked through
the wrap phase. -/
def dataIntactK (xn n : String) (d : Nat) (tb : Bool) (s : PyState) : Prop :=
  ∃ X2, getModule s xn = some X2 ∧ alookup X2.mdict n = some (.dataVal d tb)
    ∧ X2.mdict.Pairwise (fun a b => a.1 ≠ b.1)

theorem swm_none {wrapper : FuncObj → String → FuncObj} {s : PyState} {mn : String}
    (hm : getModule s mn = none) : superwrapper_mod wrapper s mn = .ok s := by
  unfold superwrapper_mod
  rw [hm]

theorem swm_raises {wrapper : FuncObj → String → FuncObj} {s : PyState} {mn : String}
    {m : PyModule} (hm : getModule s mn = some m)
    (hr : m.raisesOnIntrospection = true) :
    superwrapper_mod wrapper s mn = .error () := by
  unfold superwrapper_mod
  simp only [hm]
  have h2 : introspectInternal s m = .error () := by
    unfold introspectInternal
    rw [hr]
    rfl
  rw [h2]
  rfl

theorem swm_some {wrapper : FuncObj → String → FuncObj} {s : PyState} {mn : String}
    {m : PyModule} (hm : getModule s mn = some m)
    (hr : m.raisesOnIntrospection = false) :
    superwrapper_mod wrapper s mn
      = .ok (applyUpdates
          ((iterInternalList s m).foldl (superwrapper_step wrapper) (s, [])).1 mn
          ((iterInternalList s m).foldl (superwrapper_step wrapper) (s, [])).2) := by
  unfold superwrapper_mod
  simp only [hm]
  have h2 : introspectInternal s m = .ok (iterInternalList s m) := by
    unfold introspectInternal
    rw [hr]
    rfl
  rw [h2]
  rfl

theorem superwrapper_mod_keeps_data (wrapper : FuncObj → String → FuncObj)
    {xn n : String} {d : Nat} {tb : Bool} {s s2 : PyState} {mn : String}
    (hV : dataIntactK xn n d tb s) (h : superwrapper_mod wrapper s mn = .ok s2) :
    dataIntactK xn n d tb s2 := by
  obtain ⟨X2, hg, hv, hkd⟩ := hV
  have hX2n : X2.mname = xn := getModule_name hg
  cases hm : getModule s mn with
  | none =>
    rw [swm_none hm] at h
    injection h with h
    rw [← h]
    exact ⟨X2, hg, hv, hkd⟩
  | some m =>
    cases hr : m.raisesOnIntrospection with
    | true =>
      rw [swm_raises hm hr] at h
      exact Except.noConfusion h
    | false =>
      rw [swm_some hm hr] at h
      injection h with h
      rw [← h]
      have hg1 : getModule ((iterInternalList s m).foldl
          (superwrapper_step wrapper) (s, [])).1 xn = some X2 := by
        rw [getModule_congr (superwrapper_fold_modules wrapper _ (s, [])) xn]
        exact hg
      by_cases hxm : X2.mname = mn
      · -- the module named xn itself is being updated
        have hmn : mn = xn := by rw [← hxm, hX2n]
        have hmX2 : m = X2 := by
          rw [hmn] at hm
          rw [hm] at hg
          injection hg
        have hkeys : ∀ u ∈ ((iterInternalList s m).foldl
            (superwrapper_step wrapper) (s, [])).2, u.1 ≠ n := by
          intro u hu hun
          rcases superwrapper_fold_updates_keys wrapper _ (s, []) u hu with h0 | h0
          · rcases h0 with ⟨p, hp, hp2⟩
            have hpn : p.1 = n := by rw [← hp2, hun]
            have hpm : p ∈ iterMembersList s m := (List.mem_filter.mp hp).1
            have hpd : p ∈ m.mdict := (List.mem_filter.mp hpm).1
            have hlookp : alookup m.mdict p.1 = some p.2 := by
              rw [hmX2]
              exact alookup_of_mem_distinct hkd (by rw [← hmX2]; exact hpd)
            rw [hpn, hmX2, hv] at hlookp
            injection hlookp with hpv
            have hpred := (List.mem_filter.mp hpm).2
            rw [← hpv] at hpred
            simp [valAttrs] at hpred
          · cases h0
        refine ⟨{ X2 with mdict := (((iterInternalList s m).foldl
            (superwrapper_step wrapper) (s, [])).2.foldl
            (fun d (u : String × PyVal) => aset d u.1 u.2) X2.mdict) }, ?_, ?_, ?_⟩
        · rw [getModule_applyUpdates, hg1]
          simp only [Option.map_some']
          rw [if_pos hxm]
        · show alookup (List.foldl (fun d (u : String × PyVal) => aset d u.1 u.2)
              X2.mdict _) n = _
          rw [alookup_foldl_aset_frame _ X2.mdict hkeys]
          exact hv
        · exact foldl_aset_keysDistinct _ X2.mdict hkd
      · refine ⟨X2, ?_, hv, hkd⟩
        rw [getModule_applyUpdates, hg1]
        simp only [Option.map_some']
        rw [if_neg hxm]

theorem superwrapper_phase_keeps_data (wrapper : FuncObj → String → FuncObj)
    {xn n : String} {d : Nat} {tb : Bool} :
    ∀ (l : List String) (s s2 : PyState), dataIntactK xn n d tb s →
    l.foldlM (superwrapper_mod wrapper) s = .ok s2 → dataIntactK xn n d tb s2 := by
  intro l
  induction l with
  | nil =>
    intro s s2 hV h
    injection h with h
    rw [← h]
    exact hV
  | cons mn t ih =>
    intro s s2 hV h
    rw [List.foldlM_cons] at h
    cases hs : superwrapper_mod wrapper s mn with
    | error e =>
      rw [hs] at h
      exact Except.noConfusion h
    | ok s1 =>
      rw [hs] at h
      exact ih s1 s2 (superwrapper_mod_keeps_data wrapper hV hs) h

/-- C10 counterexample to the claim as stated: a plain data attribute of a
target module is entered into the old-members snapshot map, which copies the
full module dict. -/
def c10Mod : PyModule := ⟨"A", [("x", .dataVal 7 true), ("f", .func ⟨1, some "A", "f"⟩)], false⟩

def c10St : PyState := ⟨[c10Mod], [], []⟩

theorem C10_counterexample :
    build_caches c10St ["A"] = .ok (cachesPure c10St ["A"])
      ∧ ("x", PyVal.dataVal 7 true)
          ∈ (alookup (cachesPure c10St ["A"]).oldMembersMap "A").getD [] :=
  ⟨build_caches_ok c10St ["A"] (by decide), by decide⟩

/-- C10 (amended): only classes and functions whose `__module__` is not
`None` enter the staleness set and the reference cache (the snapshot map, by
contrast, copies the full export table); consequently a module attribute
holding a plain data value is never overwritten: it survives any successful
reload of a batch not containing its module, and any successful wrap of any
batch. -/
theorem C10_member_filter_and_data_frame
    (st : PyState) (names : List String)
    (oracle : String → Nat → Option ModReload) (wrapper : FuncObj → String → FuncObj)
    (xn n : String) (X : PyModule) (d0 : Nat) (tb : Bool)
    (hnr : noRaises st) (hdn : distinctModNames st) (hdk : distinctDictKeys st)
    (hX : getModule st xn = some X)
    (hdata : alookup X.mdict n = some (.dataVal d0 tb)) :
    (∀ mid ∈ (cachesPure st names).oldMembersSet,
        ∃ M ∈ resolveModules st names, ∃ p ∈ iterMembersList st M,
          memberId st p.2 = some mid)
      ∧ (∀ k e, e ∈ (alookup (cachesPure st names).referenceCache k).getD [] →
          cacheEntryOrigin st (cachesPure st names).oldMembersSet k e)
      ∧ (∀ stF lg, (∀ m ∈ names, m ≠ xn) →
          superreload oracle names st = .ok (stF, lg) → dataIntact xn n d0 tb stF)
      ∧ (∀ stF lg, superwrapper wrapper names st = .ok (stF, lg) →
          dataIntact xn n d0 tb stF) := by
  have hdn2 : st.modules.Pairwise (fun m1 m2 => m1.mname ≠ m2.mname) := hdn
  have hdk2 : ∀ m ∈ st.modules, m.mdict.Pairwise (fun p1 p2 => p1.1 ≠ p2.1) := hdk
  have hNTC : ∀ (s : PyState) (m2 : PyModule),
      ∀ wr ∈ refWrites (cachesPure st names).referenceCache s m2,
      ¬(xn = wr.1 ∧ wr.2.1 = n) := by
    intro s m2
    exact refWrites_no_data_target hdn2 hdk2 hX hdata
      (cachesPure st names).oldMembersSet s m2
  refine ⟨?_, ?_, ?_, ?_⟩
  · exact oldCachePure_set_origin st (resolveModules st names)
  · intro k e he
    exact refCachePure_sound st (cachesPure st names).oldMembersSet k e he
  · intro stF lg hnx hok
    have hsr : superreload oracle names st
        = (update_stale_modules_and_instances (cachesPure st names)
            (runDriver oracle names st).reloadedMods
            (runDriver oracle names st).st).bind
          (fun r2 => Except.ok (r2.1, r2.2
            ++ ((runDriver oracle names st).failedMods).map LogEvent.errorReloadFailed)) := by
      unfold superreload
      rw [build_caches_ok st names hnr]
      rfl
    rw [hsr] at hok
    cases hupd : update_stale_modules_and_instances (cachesPure st names)
        (runDriver oracle names st).reloadedMods
        (runDriver oracle names st).st with
    | error e =>
      rw [hupd] at hok
      exact Except.noConfusion hok
    | ok res =>
      rw [hupd] at hok
      have hok2 : Except.ok (ε := Unit) (res.1, res.2
          ++ ((runDriver oracle names st).failedMods).map LogEvent.errorReloadFailed)
          = Except.ok (stF, lg) := hok
      injection hok2 with hok3
      have hstF : stF = res.1 := (congrArg Prod.fst hok3).symm
      have hP0 : dataIntact xn n d0 tb (runDriver oracle names st).st := by
        refine ⟨X, ?_, hdata⟩
        show getModule (runQueue oracle (driverFuel names) ⟨st, names, [], [], []⟩).st xn
          = some X
        rw [runQueue_getModule_frame oracle xn (driverFuel names)
          ⟨st, names, [], [], []⟩ hnx]
        exact hX
      rw [hstF]
      exact update_stale_data_frame (cachesPure st names) hNTC
        (runDriver oracle names st).reloadedMods
        ((runDriver oracle names st).st, []) res hP0 hupd
  · intro stF lg hok
    have hsw : superwrapper wrapper names st
        = (names.foldlM (superwrapper_mod wrapper) st).bind
          (fun st2 => update_stale_modules_and_instances (cachesPure st names) names st2) := by
      unfold superwrapper
      rw [build_caches_ok st names hnr]
      rfl
    rw [hsw] at hok
    cases hphase : names.foldlM (superwrapper_mod wrapper) st with
    | error e =>
      rw [hphase] at hok
      exact Except.noConfusion hok
    | ok st2 =>
      rw [hphase] at hok
      have hok2 : update_stale_modules_and_instances (cachesPure st names) names st2
          = .ok (stF, lg) := hok
      have hV0 : dataIntactK xn n d0 tb st :=
        ⟨X, hX, hdata, hdk2 X (getModule_mem hX)⟩
      have hV2 := superwrapper_phase_keeps_data wrapper names st st2 hV0 hphase
      obtain ⟨X2, hg2, hv2, _⟩ := hV2
      exact update_stale_data_frame (cachesPure st names) hNTC names (st2, [])
        (stF, lg) ⟨X2, hg2, hv2⟩ hok2

def c10X : PyModule := ⟨"X", [("x", .dataVal 7 true)], false⟩

def c10wB : PyModule := ⟨"B", [("g", .func ⟨1, some "B", "g"⟩)], false⟩

def c10wSt : PyState := ⟨[c10X, c10wB], [], []⟩

def c10wOracle : String → Nat → Option ModReload := fun _ _ => some ⟨[], []⟩

def c10wStF : PyState := ⟨[c10X, ⟨"B", [], false⟩], [], []⟩

theorem C10_witness : dataIntact "X" "x" 7 true c10wStF := by
  have h := C10_member_filter_and_data_frame c10wSt ["B"] c10wOracle (fun f _ => f)
    "X" "x" c10X 7 true (by decide) (by decide) (by decide) (by decide) (by decide)
  exact h.2.2.1 c10wStF [] (by decide) (by rfl)

/-! ## Characterizing the wrap engine (claim C8 area) -/

/-- The wrapped form of a module-level member: a function is replaced by
`wrapper(function, qualified name)`; a class keeps its reference (it is
wrapped in place in the class heap). -/
def wrapVal (wrapper : FuncObj → String → FuncObj) : PyVal → PyVal
  | .func f => .func (wrapper f (f.moduleAttr.getD "" ++ "." ++ f.fname))
  | .clsRef c => .clsRef c
  | .dataVal a b => .dataVal a b

theorem alookup_foldl_aset (k : String) :
    ∀ (updates : List (String × PyVal)) (d0 : List (String × PyVal)),
    updates.Pairwise (fun a b => a.1 ≠ b.1) →
    alookup (updates.foldl (fun d u => aset d u.1 u.2) d0) k
      = match alookup updates k with
        | some v => some v
        | none => alookup d0 k := by
  intro updates
  induction updates with
  | nil =>
    intro d0 _
    rfl
  | cons u t ih =>
    intro d0 hd
    rcases List.pairwise_cons.mp hd with ⟨hu, ht⟩
    rw [List.foldl_cons, ih _ ht]
    cases u with
    | mk k0 v0 =>
      by_cases hk : k0 = k
      · subst hk
        have htl : alookup t k0 = none := by
          cases hl : alookup t k0 with
          | none => rfl
          | some v2 =>
            have hmem := alookup_mem hl
            exact absurd rfl (hu (k0, v2) hmem)
        rw [htl, alookup, if_pos rfl, alookup_aset_eq]
      · rw [alookup, if_neg hk]
        cases alookup t k with
        | some v2 => rfl
        | none =>
          rw [alookup_aset_ne _ _ _ _ (fun h => hk h.symm)]

theorem getClass_wrap_class_ne {wrapper : FuncObj → String → FuncObj} {s : PyState}
    {cid : Nat} {mns : Option (List String)} {x : Nat} (hx : x ≠ cid) :
    getClass (wrap_class wrapper s cid mns) x = getClass s x := by
  unfold wrap_class
  cases hc : getClass s cid with
  | none => rfl
  | some co =>
    rw [getClass_setClassObj, if_neg hx]

theorem getClass_wrap_class_self {wrapper : FuncObj → String → FuncObj} {s : PyState}
    {cid : Nat} {co : ClassObj} (hc : getClass s cid = some co) :
    getClass (wrap_class wrapper s cid none) cid
      = some { co with cdict := co.cdict.map (wrapClassMember wrapper co) } := by
  unfold wrap_class
  rw [hc, getClass_setClassObj, if_pos rfl, hc]
  show some _ = some _
  have : (fun (p : String × ClsMember) =>
      if skipMemberName none p.1 then p else wrapClassMember wrapper co p)
      = wrapClassMember wrapper co := by
    funext p
    rfl
  rw [this]

/-- The class ids referenced by class-valued entries of a member list. -/
def clsRefIds (l : List (String × PyVal)) : List Nat :=
  l.filterMap (fun p => match p.2 with | .clsRef c => some c | _ => none)

theorem superwrapper_fold_classes (wrapper : FuncObj → String → FuncObj) :
    ∀ (ims : List (String × PyVal)) (acc : PyState × List (String × PyVal)),
    (clsRefIds ims).Pairwise (fun a b => a ≠ b) →
    ((∀ (k : String) (c : Nat) (co : ClassObj), (k, .clsRef c) ∈ ims →
        getClass acc.1 c = some co →
        getClass (ims.foldl (superwrapper_step wrapper) acc).1 c
          = some { co with cdict := co.cdict.map (wrapClassMember wrapper co) })
      ∧ (∀ x, (∀ p ∈ ims, p.2 ≠ .clsRef x) →
          getClass (ims.foldl (superwrapper_step wrapper) acc).1 x = getClass acc.1 x)) := by
  intro ims
  induction ims with
  | nil =>
    intro acc _
    exact ⟨fun k c co h => absurd h (List.not_mem_nil _), fun x _ => rfl⟩
  | cons p t ih =>
    intro acc hcd
    cases p with
    | mk k0 v0 =>
      cases v0 with
      | func f =>
        have hstep : superwrapper_step wrapper acc (k0, .func f)
            = (acc.1, aset acc.2 k0 (.func (wrapper f (f.moduleAttr.getD "" ++ "."
                ++ f.fname)))) := rfl
        have hcd2 : (clsRefIds t).Pairwise (fun a b => a ≠ b) := by
          have : clsRefIds ((k0, PyVal.func f) :: t) = clsRefIds t := rfl
          rw [← this]
          exact hcd
        rcases ih (superwrapper_step wrapper acc (k0, .func f)) hcd2 with ⟨ih1, ih2⟩
        constructor
        · intro k c co hk hc
          rcases List.mem_cons.mp hk with h0 | h0
          · cases h0
          · exact ih1 k c co h0 (by rw [hstep]; exact hc)
        · intro x hx
          rw [List.foldl_cons]
          rw [ih2 x (fun q hq => hx q (List.mem_cons_of_mem _ hq))]
          rw [hstep]
      | dataVal a b =>
        have hstep : superwrapper_step wrapper acc (k0, .dataVal a b) = acc := rfl
        have hcd2 : (clsRefIds t).Pairwise (fun a b => a ≠ b) := by
          have : clsRefIds ((k0, PyVal.dataVal a b) :: t) = clsRefIds t := rfl
          rw [← this]
          exact hcd
        rcases ih (superwrapper_step wrapper acc (k0, .dataVal a b)) hcd2 with ⟨ih1, ih2⟩
        constructor
        · intro k c co hk hc
          rcases List.mem_cons.mp hk with h0 | h0
          · cases h0
          · exact ih1 k c co h0 (by rw [hstep]; exact hc)
        · intro x hx
          rw [List.foldl_cons]
          rw [ih2 x (fun q hq => hx q (List.mem_cons_of_mem _ hq))]
          rw [hstep]
      | clsRef c0 =>
        have hstep : superwrapper_step wrapper acc (k0, .clsRef c0)
            = (wrap_class wrapper acc.1 c0 none, aset acc.2 k0 (.clsRef c0)) := rfl
        have hcds : clsRefIds ((k0, PyVal.clsRef c0) :: t) = c0 :: clsRefIds t := rfl
        rw [hcds] at hcd
        rcases List.pairwise_cons.mp hcd with ⟨hc0, hcd2⟩
        have hc0t : ∀ q ∈ t, q.2 ≠ PyVal.clsRef c0 := by
          intro q hq hq2
          refine hc0 c0 ?_ rfl
          unfold clsRefIds
          refine List.mem_filterMap.mpr ⟨q, hq, ?_⟩
          rw [hq2]
        rcases ih (superwrapper_step wrapper acc (k0, .clsRef c0)) hcd2 with ⟨ih1, ih2⟩
        constructor
        · intro k c co hk hc
          rcases List.mem_cons.mp hk with h0 | h0
          · have hkc : k = k0 ∧ c = c0 := by
              have h1 := congrArg Prod.fst h0
              have h2 := congrArg Prod.snd h0
              simp at h1 h2
              exact ⟨h1, h2⟩
            obtain ⟨hk0, hc0e⟩ := hkc
            subst hk0
            subst hc0e
            rw [List.foldl_cons]
            rw [ih2 c hc0t]
            rw [hstep]
            show getClass (wrap_class wrapper acc.1 c none) c = _
            exact getClass_wrap_class_self hc
          · have hcc0 : c ≠ c0 := by
              intro he
              subst he
              exact hc0t _ h0 rfl
            refine ih1 k c co h0 ?_
            rw [hstep]
            show getClass (wrap_class wrapper acc.1 c0 none) c = some co
            rw [getClass_wrap_class_ne hcc0]
            exact hc
        · intro x hx
          rw [List.foldl_cons]
          rw [ih2 x (fun q hq => hx q (List.mem_cons_of_mem _ hq))]
          rw [hstep]
          show getClass (wrap_class wrapper acc.1 c0 none) x = getClass acc.1 x
          have hxc : x ≠ c0 := by
            intro he
            subst he
            exact hx (k0, .clsRef x) (List.mem_cons_self _ _) rfl
          exact getClass_wrap_class_ne hxc

theorem superwrapper_fold_updates (wrapper : FuncObj → String → FuncObj) :
    ∀ (ims : List (String × PyVal)) (acc : PyState × List (String × PyVal)),
    ims.Pairwise (fun a b => a.1 ≠ b.1) →
    ((∀ (k : String) (v : PyVal), (k, v) ∈ ims → (match v with
        | .dataVal _ _ => false
        | _ => true) = true →
        alookup (ims.foldl (superwrapper_step wrapper) acc).2 k
          = some (wrapVal wrapper v))
      ∧ (∀ k, (∀ p ∈ ims, p.1 ≠ k) →
          alookup (ims.foldl (superwrapper_step wrapper) acc).2 k = alookup acc.2 k)) := by
  intro ims
  induction ims with
  | nil =>
    intro acc _
    exact ⟨fun k v h => absurd h (List.not_mem_nil _), fun k _ => rfl⟩
  | cons p t ih =>
    intro acc hd
    rcases List.pairwise_cons.mp hd with ⟨hp, ht⟩
    cases p with
    | mk k0 v0 =>
      have hstep2 : (superwrapper_step wrapper acc (k0, v0)).2
          = (match v0 with
            | .dataVal _ _ => acc.2
            | _ => aset acc.2 k0 (wrapVal wrapper v0)) := by
        cases v0 <;> rfl
      rcases ih (superwrapper_step wrapper acc (k0, v0)) ht with ⟨ih1, ih2⟩
      constructor
      · intro k v hk hv
        rcases List.mem_cons.mp hk with h0 | h0
        · have hk0 : k = k0 := congrArg Prod.fst h0
          have hv0 : v = v0 := congrArg Prod.snd h0
          subst hk0
          subst hv0
          rw [List.foldl_cons]
          rw [ih2 k (fun q hq h2 => hp q hq h2.symm)]
          rw [hstep2]
          cases v with
          | func f => exact alookup_aset_eq _ _ _
          | clsRef c => exact alookup_aset_eq _ _ _
          | dataVal a b => exact absurd hv (by simp)
        · exact ih1 k v h0 hv
      · intro k hk
        rw [List.foldl_cons]
        rw [ih2 k (fun q hq => hk q (List.mem_cons_of_mem _ hq))]
        rw [hstep2]
        cases v0 with
        | func f =>
          exact alookup_aset_ne _ _ _ _ (fun h => hk (k0, .func f) (List.mem_cons_self _ _) h.symm)
        | clsRef c =>
          exact alookup_aset_ne _ _ _ _ (fun h => hk (k0, .clsRef c) (List.mem_cons_self _ _) h.symm)
        | dataVal a b => rfl

theorem superwrapper_fold_updates_distinct (wrapper : FuncObj → String → FuncObj) :
    ∀ (ims : List (String × PyVal)) (acc : PyState × List (String × PyVal)),
    acc.2.Pairwise (fun a b => a.1 ≠ b.1) →
    (ims.foldl (superwrapper_step wrapper) acc).2.Pairwise (fun a b => a.1 ≠ b.1) := by
  intro ims
  induction ims with
  | nil =>
    intro acc h
    exact h
  | cons p t ih =>
    intro acc h
    rw [List.foldl_cons]
    refine ih _ ?_
    cases p with
    | mk k0 v0 =>
      cases v0 with
      | func f => exact aset_keysDistinct _ _ h
      | clsRef c => exact aset_keysDistinct _ _ h
      | dataVal a b => exact h

theorem member_pred_of_valModuleAttr {st : PyState} {v : PyVal} {mn : String}
    (h : valModuleAttr st v = some mn) :
    (match valAttrs st v with
      | some a => a.moduleAttr.isSome
      | none => false) = true := by
  unfold valModuleAttr at h
  cases hv : valAttrs st v with
  | none =>
    rw [hv] at h
    exact Option.noConfusion h
  | some a =>
    rw [hv] at h
    have h2 : a.moduleAttr = some mn := h
    show a.moduleAttr.isSome = true
    rw [h2]
    rfl

theorem mem_iterInternal_of_lookup {st : PyState} {M : PyModule} {k : String} {v : PyVal}
    (hdkM : M.mdict.Pairwise (fun a b => a.1 ≠ b.1))
    (hl : alookup M.mdict k = some v) (hmod : valModuleAttr st v = some M.mname) :
    (k, v) ∈ iterInternalList st M := by
  refine List.mem_filter.mpr ⟨List.mem_filter.mpr ⟨alookup_mem hl,
    member_pred_of_valModuleAttr hmod⟩, ?_⟩
  show (valModuleAttr st v == some M.mname) = true
  rw [hmod]
  simp

theorem not_dataVal_of_mem_members {st : PyState} {M : PyModule} {p : String × PyVal}
    (h : p ∈ iterMembersList st M) :
    (match p.2 with
      | PyVal.dataVal _ _ => false
      | _ => true) = true := by
  have hpred := (List.mem_filter.mp h).2
  cases hp : p.2 with
  | dataVal a b =>
    rw [hp] at hpred
    simp [valAttrs] at hpred
  | func f => rfl
  | clsRef c => rfl

theorem getClass_applyUpdates (s : PyState) (mn : String)
    (updates : List (String × PyVal)) (x : Nat) :
    getClass (applyUpdates s mn updates) x = getClass s x := rfl

/-- C8: the wrap operation replaces exactly a unit's internally owned members:
a plain internal function is replaced by `wrapper(function, qualified name)`,
an internal class keeps its reference but has each of its directly declared
members wrapped in place by kind (`wrapClassMember` rewraps staticmethods and
classmethods in the same descriptor), every non-internal attribute is left
unchanged, other modules are untouched by the wrap phase, and the very same
propagation pass used by reload is then run on the wrapped unit. -/
theorem C8_wrap_engine
    (wrapper : FuncObj → String → FuncObj) (st : PyState) (mN : String) (M : PyModule)
    (stF : PyState) (lg : List LogEvent)
    (hnr : noRaises st)
    (hM : getModule st mN = some M)
    (hdk : distinctDictKeys st)
    (hcids : (clsRefIds (iterInternalList st M)).Pairwise (fun a b => a ≠ b))
    (hok : superwrapper wrapper [mN] st = .ok (stF, lg)) :
    ∃ W, superwrapper_mod wrapper st mN = .ok W
      ∧ (∃ W2, getModule W mN = some W2
          ∧ (∀ k v, alookup M.mdict k = some v → valModuleAttr st v = some mN →
              alookup W2.mdict k = some (wrapVal wrapper v))
          ∧ (∀ k v, alookup M.mdict k = some v → ¬valModuleAttr st v = some mN →
              alookup W2.mdict k = some v))
      ∧ (∀ k c co, alookup M.mdict k = some (.clsRef c) →
          valModuleAttr st (.clsRef c) = some mN → getClass st c = some co →
          getClass W c = some { co with cdict := co.cdict.map (wrapClassMember wrapper co) })
      ∧ (∀ x, x ≠ mN → getModule W x = getModule st x)
      ∧ update_stale_modules_and_instances (cachesPure st [mN]) [mN] W = .ok (stF, lg) := by
  have hMm : M.mname = mN := getModule_name hM
  have hMmem : M ∈ st.modules := getModule_mem hM
  have hMr : M.raisesOnIntrospection = false := hnr M hMmem
  have hdkM : M.mdict.Pairwise (fun a b => a.1 ≠ b.1) := hdk M hMmem
  have himsKeys : (iterInternalList st M).Pairwise (fun a b => a.1 ≠ b.1) := by
    unfold iterInternalList iterMembersList
    exact (hdkM.sublist (List.filter_sublist _)).sublist (List.filter_sublist _)
  have hswm := @swm_some wrapper st mN M hM hMr
  refine ⟨applyUpdates ((iterInternalList st M).foldl (superwrapper_step wrapper)
      (st, [])).1 mN ((iterInternalList st M).foldl (superwrapper_step wrapper)
      (st, [])).2, hswm, ?_, ?_, ?_, ?_⟩
  · -- module dict of the wrapped unit
    have hFmod : getModule ((iterInternalList st M).foldl (superwrapper_step wrapper)
        (st, [])).1 mN = some M := by
      rw [getModule_congr (superwrapper_fold_modules wrapper _ (st, [])) mN]
      exact hM
    refine ⟨{ M with mdict := (((iterInternalList st M).foldl (superwrapper_step wrapper)
        (st, [])).2.foldl (fun d (u : String × PyVal) => aset d u.1 u.2) M.mdict) },
      ?_, ?_, ?_⟩
    · rw [getModule_applyUpdates, hFmod]
      simp only [Option.map_some']
      rw [if_pos hMm]
    · intro k v hl hmod
      have hmod2 : valModuleAttr st v = some M.mname := by rw [hMm]; exact hmod
      have hintl : (k, v) ∈ iterInternalList st M :=
        mem_iterInternal_of_lookup hdkM hl hmod2
      have hmemval := @not_dataVal_of_mem_members st M (k, v)
        (List.mem_filter.mp hintl).1
      have hup := (superwrapper_fold_updates wrapper (iterInternalList st M)
        (st, []) himsKeys).1 k v hintl hmemval
      have hud := superwrapper_fold_updates_distinct wrapper (iterInternalList st M)
        (st, []) List.Pairwise.nil
      show alookup (List.foldl (fun d (u : String × PyVal) => aset d u.1 u.2) M.mdict _) k
        = some (wrapVal wrapper v)
      rw [alookup_foldl_aset k _ M.mdict hud, hup]
    · intro k v hl hmod
      have hkeys : ∀ p ∈ iterInternalList st M, p.1 ≠ k := by
        intro p hp hpk
        have hpd : p ∈ M.mdict := (List.mem_filter.mp (List.mem_filter.mp hp).1).1
        have hlp : alookup M.mdict p.1 = some p.2 := alookup_of_mem_distinct hdkM hpd
        rw [hpk, hl] at hlp
        injection hlp with hlv
        have hpred := (List.mem_filter.mp hp).2
        have hpred2 : valModuleAttr st p.2 = some M.mname := by
          have := hpred
          simp only [beq_iff_eq] at this
          exact this
        rw [← hlv, hMm] at hpred2
        exact hmod hpred2
      have hup := (superwrapper_fold_updates wrapper (iterInternalList st M)
        (st, []) himsKeys).2 k hkeys
      have hud := superwrapper_fold_updates_distinct wrapper (iterInternalList st M)
        (st, []) List.Pairwise.nil
      show alookup (List.foldl (fun d (u : String × PyVal) => aset d u.1 u.2) M.mdict _) k
        = some v
      rw [alookup_foldl_aset k _ M.mdict hud]
      have hnone : alookup ((iterInternalList st M).foldl (superwrapper_step wrapper)
          (st, [])).2 k = none := by
        rw [hup]
        rfl
      rw [hnone]
      exact hl
  · -- wrapped classes
    intro k c co hl hmod hc
    have hmod2 : valModuleAttr st (.clsRef c) = some M.mname := by rw [hMm]; exact hmod
    have hintl : (k, PyVal.clsRef c) ∈ iterInternalList st M :=
      mem_iterInternal_of_lookup hdkM hl hmod2
    rw [getClass_applyUpdates]
    exact (superwrapper_fold_classes wrapper (iterInternalList st M) (st, []) hcids).1
      k c co hintl hc
  · -- other modules are untouched by the wrap phase
    intro x hx
    rw [getModule_applyUpdates]
    rw [getModule_congr (superwrapper_fold_modules wrapper _ (st, [])) x]
    cases hg : getModule st x with
    | none => rfl
    | some mx =>
      have hmx : mx.mname = x := getModule_name hg
      simp only [Option.map_some']
      rw [if_neg (by rw [hmx]; exact hx)]
  · -- the same propagation pass runs on the wrapped state
    have hphase : ([mN] : List String).foldlM (superwrapper_mod wrapper) st
        = .ok (applyUpdates ((iterInternalList st M).foldl (superwrapper_step wrapper)
            (st, [])).1 mN ((iterInternalList st M).foldl (superwrapper_step wrapper)
            (st, [])).2) := by
      rw [List.foldlM_cons, hswm]
      rfl
    have hsw : superwrapper wrapper [mN] st
        = update_stale_modules_and_instances (cachesPure st [mN]) [mN]
            (applyUpdates ((iterInternalList st M).foldl (superwrapper_step wrapper)
              (st, [])).1 mN ((iterInternalList st M).foldl (superwrapper_step wrapper)
              (st, [])).2) := by
      unfold superwrapper
      rw [build_caches_ok st [mN] hnr]
      show (([mN] : List String).foldlM (superwrapper_mod wrapper) st).bind _ = _
      rw [hphase]
      rfl
    rw [← hsw]
    exact hok

/-! ## Removed definitions (claim C7 area) -/

theorem filterMap_eq_nil_of_none {α β : Type} (f : α → Option β) :
    ∀ l : List α, (∀ a ∈ l, f a = none) → l.filterMap f = [] := by
  intro l
  induction l with
  | nil =>
    intro _
    rfl
  | cons a t ih =>
    intro h
    rw [List.filterMap_cons, h a (List.mem_cons_self a t)]
    exact ih (fun x hx => h x (List.mem_cons_of_mem a hx))

theorem oldInternalClasses_nil (s2 st : PyState) (bN : String) (B : PyModule)
    (hres : resolveModules st [bN] = [B]) (hBm : B.mname = bN)
    (hnocls : ∀ p ∈ B.mdict, ∀ c, p.2 ≠ PyVal.clsRef c) :
    oldInternalClasses s2 (cachesPure st [bN]) bN = [] := by
  unfold oldInternalClasses
  have hmap : (cachesPure st [bN]).oldMembersMap = [(B.mname, B.mdict)] := by
    show (oldCachePure st (resolveModules st [bN])).2 = _
    rw [hres]
    rfl
  rw [hmap]
  have hl : alookup [(B.mname, B.mdict)] bN = some B.mdict := by
    rw [hBm]
    simp [alookup]
  rw [hl]
  show B.mdict.filterMap _ = []
  apply filterMap_eq_nil_of_none
  intro p hp
  cases hpv : p.2 with
  | clsRef c => exact absurd hpv (hnocls p hp c)
  | func f => rfl
  | dataVal a b => rfl

def c8w : FuncObj → String → FuncObj := fun f _ => { f with fid := f.fid + 100 }

def c8C : ClassObj :=
  ⟨some "W", "C", [],
   [("m", ClsMember.plainFunc ⟨3, some "W", "m"⟩),
    ("s", ClsMember.staticM ⟨4, some "W", "s"⟩),
    ("c", ClsMember.classM ⟨6, some "W", "c"⟩)]⟩

def c8M : PyModule :=
  ⟨"W",
   [("f", PyVal.func ⟨1, some "W", "f"⟩),
    ("C", PyVal.clsRef 5),
    ("g", PyVal.func ⟨2, some "X", "g"⟩),
    ("d", PyVal.dataVal 0 true)],
   false⟩

def c8St : PyState := ⟨[c8M], [(5, c8C)], []⟩

def c8CW : ClassObj :=
  ⟨some "W", "C", [],
   [("m", ClsMember.plainFunc ⟨103, some "W", "m"⟩),
    ("s", ClsMember.staticM ⟨104, some "W", "s"⟩),
    ("c", ClsMember.classM ⟨106, some "W", "c"⟩)]⟩

def c8StF : PyState :=
  ⟨[⟨"W",
     [("f", PyVal.func ⟨101, some "W", "f"⟩),
      ("C", PyVal.clsRef 5),
      ("g", PyVal.func ⟨2, some "X", "g"⟩),
      ("d", PyVal.dataVal 0 true)],
     false⟩], [(5, c8CW)], []⟩

theorem C8_witness :
    ∃ W, superwrapper_mod c8w c8St "W" = .ok W
      ∧ (∃ W2, getModule W "W" = some W2
          ∧ (∀ k v, alookup c8M.mdict k = some v → valModuleAttr c8St v = some "W" →
              alookup W2.mdict k = some (wrapVal c8w v))
          ∧ (∀ k v, alookup c8M.mdict k = some v → ¬valModuleAttr c8St v = some "W" →
              alookup W2.mdict k = some v))
      ∧ (∀ k c co, alookup c8M.mdict k = some (.clsRef c) →
          valModuleAttr c8St (.clsRef c) = some "W" → getClass c8St c = some co →
          getClass W c = some { co with cdict := co.cdict.map (wrapClassMember c8w co) })
      ∧ (∀ x, x ≠ "W" → getModule W x = getModule c8St x)
      ∧ update_stale_modules_and_instances (cachesPure c8St ["W"]) ["W"] W
          = .ok (c8StF, []) :=
  C8_wrap_engine c8w c8St "W" c8M c8StF []
    (by decide) (by rfl) (by decide) (by decide) (by rfl)

def c7f1 : PyVal := .func ⟨1, some "B", "f"⟩

def c7h : PyVal := .func ⟨2, some "B", "h"⟩

def c7St : PyState := ⟨[⟨"A", [("f", c7f1)], false⟩, ⟨"B", [("f", c7f1)], false⟩], [], []⟩

def c7Oracle : String → Nat → Option ModReload := fun _ _ => some ⟨[("h", c7h)], []⟩

/-- C7 counterexample: module `A` holds an external binding to `B.f`, recorded
in the reference cache, and the reload of `B` removes `f` (the new export
table only has `h`).  The run succeeds, `A`'s binding is silently left stale,
and the log is EMPTY: no log entry is produced for the removed callable,
because external-binding repair iterates the new members only.  This refutes
the claim that a log entry is produced for every removed Definition. -/
theorem C7_counterexample :
    superreload c7Oracle ["B"] c7St
      = .ok (⟨[⟨"A", [("f", c7f1)], false⟩, ⟨"B", [("h", c7h)], false⟩], [], []⟩, []) := by
  rfl

/-- C7 (amended): a removed Definition is skipped without retry and without an
error, but a log entry is produced only for removed classes.  If `A` holds a
cached external binding to `B.f` and no member of `B`'s post-reload export
table has `f`'s qualified name, and `B`'s snapshot holds no classes, then
`reload([B])` succeeds with an EMPTY log — the removed callable's binding
repair is silently skipped and `A`'s binding is left unchanged.  A removed
class, by contrast, is skipped with a `debugMissingClass` log entry: the
old-class loop leaves the state unchanged and returns ok. -/
theorem C7_removed_definition_skips
    (oracle : String → Nat → Option ModReload) (st : PyState)
    (aN bN aname : String) (A B : PyModule) (v : PyVal) (r : ModReload)
    (hnr : noRaises st)
    (hdn : distinctModNames st)
    (hdk : distinctDictKeys st)
    (hA : getModule st aN = some A)
    (hB : getModule st bN = some B)
    (hAB : aN ≠ bN)
    (hbind : alookup A.mdict aname = some v)
    (horacle : oracle bN 0 = some r)
    (hnocls : ∀ p ∈ B.mdict, ∀ c, p.2 ≠ PyVal.clsRef c)
    (hrem : ∀ p ∈ iterInternalList (applyReload st bN r) { B with mdict := r.newDict },
      fullMemberName (applyReload st bN r) p.2 ≠ fullMemberName st v) :
    (∃ stF, superreload oracle [bN] st = .ok (stF, [])
        ∧ ∃ A2, getModule stF aN = some A2 ∧ alookup A2.mdict aname = some v)
    ∧ (∀ (caches : Caches) (mn : String) (s2 : PyState) (lgs : List LogEvent)
        (oldC : Nat) (m : PyModule) (oco : ClassObj),
        getModule s2 mn = some m → getClass s2 oldC = some oco →
        alookup m.mdict oco.cname = none →
        update_one_stale_class caches mn (s2, lgs) oldC
          = .ok (s2, lgs ++ [.debugMissingClass oco.cname])) := by
  have hAm : A.mname = aN := getModule_name hA
  have hBm : B.mname = bN := getModule_name hB
  have hAmem : A ∈ st.modules := getModule_mem hA
  have hBmem : B ∈ st.modules := getModule_mem hB
  have hdn2 : st.modules.Pairwise (fun m1 m2 => m1.mname ≠ m2.mname) := hdn
  have hdk2 : ∀ m ∈ st.modules, m.mdict.Pairwise (fun p1 p2 => p1.1 ≠ p2.1) := hdk
  have hcache := build_caches_ok st [bN] hnr
  have hdrv := runDriver_singleton oracle bN st r horacle
  have hres : resolveModules st [bN] = [B] := by
    unfold resolveModules
    simp [hB]
  have hB2 : getModule (applyReload st bN r) bN = some { B with mdict := r.newDict } := by
    rw [getModule_applyReload, hB]
    simp [hBm]
  have hB2r : ({ B with mdict := r.newDict } : PyModule).raisesOnIntrospection = false :=
    hnr B hBmem
  have huomr := update_other_modules_refs_ok (cachesPure st [bN]).referenceCache
    (applyReload st bN r) bN { B with mdict := r.newDict } hB2 hB2r
  have holds := oldInternalClasses_nil
    (applyWrites (applyReload st bN r)
      (refWrites (cachesPure st [bN]).referenceCache (applyReload st bN r)
        { B with mdict := r.newDict }))
    st bN B hres hBm hnocls
  have hstep : update_stale_step (cachesPure st [bN]) (applyReload st bN r, []) bN
      = .ok (applyWrites (applyReload st bN r)
          (refWrites (cachesPure st [bN]).referenceCache (applyReload st bN r)
            { B with mdict := r.newDict }), []) := by
    show (update_other_modules_refs (cachesPure st [bN]).referenceCache
        (applyReload st bN r) bN).bind (fun s1 =>
          (oldInternalClasses s1 (cachesPure st [bN]) bN).foldlM
            (fun a c => update_one_stale_class (cachesPure st [bN]) bN a c) (s1, [])) = _
    rw [huomr]
    show (oldInternalClasses (applyWrites (applyReload st bN r) _)
        (cachesPure st [bN]) bN).foldlM _ _ = _
    rw [holds]
    rfl
  have hstale : update_stale_modules_and_instances (cachesPure st [bN]) [bN]
      (applyReload st bN r)
      = .ok (applyWrites (applyReload st bN r)
          (refWrites (cachesPure st [bN]).referenceCache (applyReload st bN r)
            { B with mdict := r.newDict }), []) := by
    unfold update_stale_modules_and_instances
    rw [List.foldlM_cons, hstep]
    rfl
  have hsr : superreload oracle [bN] st
      = .ok (applyWrites (applyReload st bN r)
          (refWrites (cachesPure st [bN]).referenceCache (applyReload st bN r)
            { B with mdict := r.newDict }), []) := by
    unfold superreload
    rw [hcache, hdrv]
    show (update_stale_modules_and_instances (cachesPure st [bN]) [bN]
        (applyReload st bN r)).bind _ = _
    rw [hstale]
    rfl
  refine ⟨⟨applyWrites (applyReload st bN r)
      (refWrites (cachesPure st [bN]).referenceCache (applyReload st bN r)
        { B with mdict := r.newDict }), hsr, ?_⟩, ?_⟩
  · -- the stale binding in A is untouched
    have hA2 : getModule (applyReload st bN r) aN = some A := by
      rw [getModule_applyReload, hA]
      have hne : ¬A.mname = bN := by
        rw [hAm]
        exact hAB
      simp [hne]
    have hAW : getModule (applyWrites (applyReload st bN r)
        (refWrites (cachesPure st [bN]).referenceCache (applyReload st bN r)
          { B with mdict := r.newDict })) aN
        = some { A with mdict := (dictAfterWrites
            (refWrites (cachesPure st [bN]).referenceCache (applyReload st bN r)
              { B with mdict := r.newDict }) A.mname A.mdict) } := by
      rw [getModule_applyWrites, hA2]
      rfl
    have hframe : ∀ wr ∈ refWrites (cachesPure st [bN]).referenceCache
        (applyReload st bN r) { B with mdict := r.newDict },
        ¬(A.mname = wr.1 ∧ wr.2.1 = aname) := by
      rintro wr hwr ⟨h1, h2⟩
      rcases List.mem_flatMap.mp hwr with ⟨p, hp, hwr2⟩
      rcases List.mem_map.mp hwr2 with ⟨e, he, hwe⟩
      have hcacheRef : (cachesPure st [bN]).referenceCache
          = refCachePure st (cachesPure st [bN]).oldMembersSet := rfl
      rw [hcacheRef] at he
      have hsound := refCachePure_sound st (cachesPure st [bN]).oldMembersSet
        (fullMemberName (applyReload st bN r) p.2) e he
      obtain ⟨M, hM, hMn, hMe, hKey, _⟩ := hsound
      have he1 : e.1 = A.mname := by
        rw [← hwe] at h1
        exact h1.symm
      have he21 : e.2.1 = aname := by
        rw [← hwe] at h2
        exact h2
      have hMA : M = A := eq_of_mem_pairwise_key (fun m => m.mname) hdn2 hM hAmem
        (hMn.trans he1)
      subst hMA
      rw [he21] at hMe
      have hmem2 : (aname, e.2.2) ∈ M.mdict := by
        have h3 := (List.mem_filter.mp hMe).1
        exact (List.mem_filter.mp h3).1
      have hlook : alookup M.mdict aname = some e.2.2 :=
        alookup_of_mem_distinct (hdk2 M hAmem) hmem2
      rw [hbind] at hlook
      have hveq : v = e.2.2 := by
        injection hlook
      rw [← hveq] at hKey
      exact hrem p hp hKey
    have hfinal : alookup (dictAfterWrites
        (refWrites (cachesPure st [bN]).referenceCache (applyReload st bN r)
          { B with mdict := r.newDict }) A.mname A.mdict) aname = some v := by
      rw [dictAfterWrites_frame A.mname aname _ A.mdict hframe]
      exact hbind
    exact ⟨{ A with mdict := (dictAfterWrites
        (refWrites (cachesPure st [bN]).referenceCache (applyReload st bN r)
          { B with mdict := r.newDict }) A.mname A.mdict) }, hAW, hfinal⟩
  · -- a removed class is skipped with a debug log entry and no error
    intro caches mn s2 lgs oldC m oco hm hc hl
    exact uosc_removed hm hc hl

theorem C7_witness :
    (∃ stF, superreload c7Oracle ["B"] c7St = .ok (stF, [])
        ∧ ∃ A2, getModule stF "A" = some A2 ∧ alookup A2.mdict "f" = some c7f1)
    ∧ (∀ (caches : Caches) (mn : String) (s2 : PyState) (lgs : List LogEvent)
        (oldC : Nat) (m : PyModule) (oco : ClassObj),
        getModule s2 mn = some m → getClass s2 oldC = some oco →
        alookup m.mdict oco.cname = none →
        update_one_stale_class caches mn (s2, lgs) oldC
          = .ok (s2, lgs ++ [.debugMissingClass oco.cname])) :=
  C7_removed_definition_skips c7Oracle c7St "A" "B" "f"
    ⟨"A", [("f", c7f1)], false⟩ ⟨"B", [("f", c7f1)], false⟩ c7f1 ⟨[("h", c7h)], []⟩
    (by decide) (by decide) (by decide) (by rfl) (by rfl) (by decide) (by rfl)
    (by rfl) (by simp [c7f1]) (by decide)

/-! ## Idempotence on an already-consistent state (claim C9 area) -/

theorem aset_id {κ α : Type} [DecidableEq κ] :
    ∀ (l : List (κ × α)) (k : κ) (v : α),
    l.Pairwise (fun a b => a.1 ≠ b.1) → alookup l k = some v → aset l k v = l := by
  intro l
  induction l with
  | nil =>
    intro k v _ h
    exact Option.noConfusion h
  | cons q t ih =>
    intro k v hd hl
    unfold alookup at hl
    by_cases hq : q.1 = k
    · rw [if_pos hq] at hl
      injection hl with h2
      show (if q.1 = k then (k, v) :: t else q :: aset t k v) = q :: t
      rw [if_pos hq, ← h2, ← hq]
    · rw [if_neg hq] at hl
      show (if q.1 = k then (k, v) :: t else q :: aset t k v) = q :: t
      rw [if_neg hq, ih k v (List.Pairwise.of_cons hd) hl]

theorem setModuleVal_id (st : PyState) (h n : String) (v : PyVal)
    (hm : ∀ m ∈ st.modules, m.mname = h → aset m.mdict n v = m.mdict) :
    setModuleVal st h n v = st := by
  unfold setModuleVal
  rw [map_eq_self_of_forall (fun m hmem => ?_)]
  by_cases hp : m.mname = h
  · rw [if_pos hp, hm m hmem hp]
  · rw [if_neg hp]

theorem applyWrites_id (st : PyState) :
    ∀ (ws : List (String × String × PyVal)),
    (∀ w ∈ ws, setModuleVal st w.1 w.2.1 w.2.2 = st) → applyWrites st ws = st := by
  intro ws
  induction ws with
  | nil =>
    intro _
    rfl
  | cons w t ih =>
    intro h
    show (w :: t).foldl (fun s x => setModuleVal s x.1 x.2.1 x.2.2) st = st
    rw [List.foldl_cons, h w (List.mem_cons_self w t)]
    exact ih (fun x hx => h x (List.mem_cons_of_mem w hx))

theorem setClassObj_id (st : PyState) (cid : Nat) (co : ClassObj)
    (hdc : st.classes.Pairwise (fun a b => a.1 ≠ b.1))
    (hc : getClass st cid = some co) : setClassObj st cid co = st := by
  unfold setClassObj
  rw [map_eq_self_of_forall (fun q hq => ?_)]
  by_cases hp : q.1 = cid
  · have hlq : alookup st.classes q.1 = some q.2 := alookup_of_mem_distinct hdc hq
    rw [hp] at hlq
    have hco : co = q.2 := by
      unfold getClass at hc
      rw [hc] at hlq
      injection hlq
    rw [if_pos hp, hco, ← hp]
  · rw [if_neg hp]

theorem setInstanceClass_id (st : PyState) (iid c : Nat)
    (h : ∀ ins ∈ st.instances, ins.iid = iid → ins.itype = c) :
    setInstanceClass st iid c = st := by
  unfold setInstanceClass
  rw [map_eq_self_of_forall (fun ins hins => ?_)]
  by_cases hp : ins.iid = iid
  · rw [if_pos hp, ← h ins hins hp]
  · rw [if_neg hp]

theorem update_subclasses_id (st : PyState) (c : Nat) (oco : ClassObj)
    (hdc : st.classes.Pairwise (fun a b => a.1 ≠ b.1))
    (hc : getClass st c = some oco)
    (hb : ∀ b, baseMatches st b oco = true → b = c) :
    update_subclasses st c c = st := by
  unfold update_subclasses
  rw [hc]
  have hstep : ∀ p, update_subclasses_step oco c st p = st := by
    intro p
    unfold update_subclasses_step
    cases hg : getClass st p.1 with
    | none => rfl
    | some sco =>
      have hbases : sco.bases.map (fun b => if baseMatches st b oco then c else b)
          = sco.bases := by
        rw [map_eq_self_of_forall (fun b hbm => ?_)]
        by_cases hmatch : baseMatches st b oco = true
        · rw [if_pos hmatch, hb b hmatch]
        · rw [if_neg hmatch]
      show setClassObj st p.1
        { sco with bases := sco.bases.map (fun b => if baseMatches st b oco then c else b) }
        = st
      rw [hbases]
      exact setClassObj_id st p.1 sco hdc hg
  have hfold : ∀ (l : List (Nat × ClassObj)),
      l.foldl (update_subclasses_step oco c) st = st := by
    intro l
    induction l with
    | nil => rfl
    | cons q t ih =>
      rw [List.foldl_cons, hstep q]
      exact ih
  exact hfold _

theorem update_instances_step_id (st : PyState) (c : Nat) (lgs : List LogEvent) (iid : Nat)
    (h : ∀ ins ∈ st.instances, ins.iid = iid → ins.itype = c) :
    (update_instances_step c (st, lgs) iid).1 = st := by
  unfold update_instances_step
  cases hf : st.instances.find? (fun ins => ins.iid == iid) with
  | none => rfl
  | some ins =>
    by_cases hr : ins.retypable
    · simp only [hr, if_pos]
      exact setInstanceClass_id st iid c h
    · simp only [hr]
      rfl

theorem update_instances_fst_id (icache : List (Nat × List Nat)) (st : PyState) (c : Nat)
    (h : ∀ iid ∈ (alookup icache c).getD [], ∀ ins ∈ st.instances,
      ins.iid = iid → ins.itype = c) :
    (update_instances icache st c c).1 = st := by
  unfold update_instances
  have hfold : ∀ (l : List Nat), (∀ iid ∈ l, ∀ ins ∈ st.instances,
      ins.iid = iid → ins.itype = c) →
      ∀ lgs, (l.foldl (update_instances_step c) (st, lgs)).1 = st := by
    intro l
    induction l with
    | nil =>
      intro _ lgs
      rfl
    | cons iid t ih =>
      intro hl lgs
      rw [List.foldl_cons]
      have h1 : (update_instances_step c (st, lgs) iid).1 = st :=
        update_instances_step_id st c lgs iid (hl iid (List.mem_cons_self iid t))
      cases hstep : update_instances_step c (st, lgs) iid with
      | mk s2 lgs2 =>
        rw [hstep] at h1
        have h2 : s2 = st := h1
        subst h2
        exact ih (fun x hx => hl x (List.mem_cons_of_mem iid hx)) lgs2
  exact hfold _ h []

/-- C9: reloading a module whose recompilation reproduces the same export
table changes nothing: for an already-consistent state (holders of a cached
qualified name hold exactly the member of that name, each old internal class
is still bound under its own name, bases matching an old class's module and
name are that class, and every cached instance's dynamic type is its cached
class), `superreload` returns the state unchanged. -/
theorem C9_idempotent_on_consistent_state
    (oracle : String → Nat → Option ModReload) (st : PyState) (bN : String) (B : PyModule)
    (hnr : noRaises st)
    (hdn : distinctModNames st)
    (hdk : distinctDictKeys st)
    (hdc : st.classes.Pairwise (fun a b => a.1 ≠ b.1))
    (hB : getModule st bN = some B)
    (horacle : oracle bN 0 = some ⟨B.mdict, []⟩)
    (hcons1 : ∀ p ∈ iterInternalList st B, ∀ M ∈ st.modules, ∀ q ∈ iterExternalList st M,
      fullMemberName st q.2 = fullMemberName st p.2 → q.2 = p.2)
    (hcons2 : ∀ c ∈ oldInternalClasses st (cachesPure st [bN]) bN,
      ∃ oco, getClass st c = some oco ∧ alookup B.mdict oco.cname = some (.clsRef c)
        ∧ (∀ b, baseMatches st b oco = true → b = c))
    (hcons3 : ∀ c ∈ oldInternalClasses st (cachesPure st [bN]) bN,
      ∀ iid ∈ (alookup (cachesPure st [bN]).instanceCache c).getD [],
      ∀ ins ∈ st.instances, ins.iid = iid → ins.itype = c) :
    ∃ lg, superreload oracle [bN] st = .ok (st, lg) := by
  have hBm : B.mname = bN := getModule_name hB
  have hBmem : B ∈ st.modules := getModule_mem hB
  have hdn2 : st.modules.Pairwise (fun m1 m2 => m1.mname ≠ m2.mname) := hdn
  have hcache := build_caches_ok st [bN] hnr
  have hdrv := runDriver_singleton oracle bN st ⟨B.mdict, []⟩ horacle
  -- reloading with the same dict is the identity
  have happly : applyReload st bN ⟨B.mdict, []⟩ = st := by
    unfold applyReload
    have hmap : st.modules.map (fun m =>
        if m.mname = bN then { m with mdict := (⟨B.mdict, []⟩ : ModReload).newDict } else m)
        = st.modules := by
      rw [map_eq_self_of_forall (fun m hmem => ?_)]
      by_cases hp : m.mname = bN
      · have hmB : m = B := eq_of_mem_pairwise_key (fun x => x.mname) hdn2 hmem hBmem
          (hp.trans hBm.symm)
        rw [if_pos hp, hmB]
      · rw [if_neg hp]
    rw [hmap, List.append_nil]
  rw [happly] at hdrv
  -- the binding-repair writes are all identities
  have huomr := update_other_modules_refs_ok (cachesPure st [bN]).referenceCache
    st bN B hB (hnr B hBmem)
  have hwid : applyWrites st (refWrites (cachesPure st [bN]).referenceCache st B) = st := by
    apply applyWrites_id
    intro w hw
    rcases List.mem_flatMap.mp hw with ⟨p, hp, hw2⟩
    rcases List.mem_map.mp hw2 with ⟨e, he, hwe⟩
    have hcacheRef : (cachesPure st [bN]).referenceCache
        = refCachePure st (cachesPure st [bN]).oldMembersSet := rfl
    rw [hcacheRef] at he
    have hsound := refCachePure_sound st (cachesPure st [bN]).oldMembersSet
      (fullMemberName st p.2) e he
    obtain ⟨M, hM, hMn, hMe, hKey, _⟩ := hsound
    have heq : e.2.2 = p.2 :=
      hcons1 p hp M hM (e.2.1, e.2.2) hMe hKey.symm
    rw [← hwe]
    apply setModuleVal_id
    intro m hmem hmn
    have hmM : m = M := eq_of_mem_pairwise_key (fun x => x.mname) hdn2 hmem hM
      (hmn.trans hMn.symm)
    subst hmM
    have hmem2 : (e.2.1, e.2.2) ∈ m.mdict := by
      have h3 := (List.mem_filter.mp hMe).1
      exact (List.mem_filter.mp h3).1
    have hlook : alookup m.mdict e.2.1 = some e.2.2 :=
      alookup_of_mem_distinct (hdk m hmem) hmem2
    rw [heq] at hlook
    exact aset_id m.mdict e.2.1 p.2 (hdk m hmem) hlook
  have h1 : update_other_modules_refs (cachesPure st [bN]).referenceCache st bN
      = .ok st := by
    rw [huomr, hwid]
  -- each old internal class's propagation step is the identity on the state
  have hloop : ∀ (olds : List Nat),
      (∀ c ∈ olds, c ∈ oldInternalClasses st (cachesPure st [bN]) bN) →
      ∀ lgs, ∃ lg2, olds.foldlM
        (fun a c => update_one_stale_class (cachesPure st [bN]) bN a c) (st, lgs)
        = .ok (st, lg2) := by
    intro olds
    induction olds with
    | nil =>
      intro _ lgs
      exact ⟨lgs, rfl⟩
    | cons c t ih =>
      intro hsub lgs
      obtain ⟨oco, hgc, hlc, hbase⟩ := hcons2 c (hsub c (List.mem_cons_self c t))
      have hstep := @uosc_class (cachesPure st [bN]) bN (st, lgs) c B oco c hB hgc hlc
      have hsub1 : update_subclasses st c c = st :=
        update_subclasses_id st c oco hdc hgc hbase
      rw [hsub1] at hstep
      have hinst : (update_instances (cachesPure st [bN]).instanceCache st c c).1 = st :=
        update_instances_fst_id _ st c (hcons3 c (hsub c (List.mem_cons_self c t)))
      rw [hinst] at hstep
      rw [List.foldlM_cons, hstep]
      exact ih (fun x hx => hsub x (List.mem_cons_of_mem c hx))
        (lgs ++ (update_instances (cachesPure st [bN]).instanceCache st c c).2)
  obtain ⟨lg2, hloop2⟩ := hloop (oldInternalClasses st (cachesPure st [bN]) bN)
    (fun c hc => hc) []
  have hstep1 : update_stale_step (cachesPure st [bN]) (st, []) bN = .ok (st, lg2) := by
    show (update_other_modules_refs (cachesPure st [bN]).referenceCache st bN).bind
      (fun s1 => (oldInternalClasses s1 (cachesPure st [bN]) bN).foldlM
        (fun a c => update_one_stale_class (cachesPure st [bN]) bN a c) (s1, [])) = _
    rw [h1]
    exact hloop2
  have hstale : update_stale_modules_and_instances (cachesPure st [bN]) [bN] st
      = .ok (st, lg2) := by
    unfold update_stale_modules_and_instances
    rw [List.foldlM_cons, hstep1]
    rfl
  refine ⟨lg2 ++ ([] : List String).map LogEvent.errorReloadFailed, ?_⟩
  unfold superreload
  rw [hcache, hdrv]
  show (update_stale_modules_and_instances (cachesPure st [bN]) [bN] st).bind _ = _
  rw [hstale]
  rfl

def c9f1 : PyVal := .func ⟨1, some "B", "f"⟩

def c9C5 : ClassObj := ⟨some "B", "C", [], []⟩

def c9C7 : ClassObj := ⟨some "B", "D", [5], []⟩

def c9B : PyModule := ⟨"B", [("f", c9f1), ("C", .clsRef 5), ("D", .clsRef 7)], false⟩

def c9A : PyModule := ⟨"A", [("f", c9f1)], false⟩

def c9St : PyState := ⟨[c9A, c9B], [(5, c9C5), (7, c9C7)], [⟨1, 5, true⟩]⟩

def c9Oracle : String → Nat → Option ModReload := fun _ _ => some ⟨c9B.mdict, []⟩

/-! ## The post-pass consistency invariant (claim C2 area) -/

def c2f1 : PyVal := .func ⟨1, some "B", "f"⟩

def c2h : PyVal := .func ⟨2, some "B", "h"⟩

def c2St : PyState := ⟨[⟨"A", [("f", c2f1)], false⟩, ⟨"B", [("f", c2f1)], false⟩], [], []⟩

def c2Oracle : String → Nat → Option ModReload := fun _ _ => some ⟨[("h", c2h)], []⟩

/-- C2 counterexample: module `A` holds an external binding to `B.f`, recorded
in the reference cache; the reload of `B` drops `f` from the export table.
The propagation pass succeeds, yet afterwards `A`'s binding still references
the old definition `c2f1`, which is owned by `B` (`__module__ = "B"`) but no
longer present in `B`'s current export table (`alookup` of `"f"` in the new
dict is `none`).  The claimed invariant is violated for removed names. -/
theorem C2_counterexample :
    superreload c2Oracle ["B"] c2St
      = .ok (⟨[⟨"A", [("f", c2f1)], false⟩, ⟨"B", [("h", c2h)], false⟩], [], []⟩, [])
    ∧ valModuleAttr c2St c2f1 = some "B"
    ∧ alookup [("h", c2h)] "f" = none :=
  ⟨by rfl, by rfl, by rfl⟩

/-- C2 (amended): the post-pass consistency invariant holds only under two
provisos.  (1) Survival: a cached external binding is moved to the owning
unit's new definition provided the qualified name is still (uniquely) exported
after the reload — a removed name leaves the stale binding in place.
(2) Retypability: after instance repair, a cached instance points at the new
class if the host allowed retyping, and keeps its old (replaced) type pointer
if retyping was rejected.  Subtype repair needs no proviso at the name level:
after `update_subclasses`, no base entry of a repaired subclass still matches
the replaced class's module and name unless it is the new class itself. -/
theorem C2_invariant_with_provisos
    (oracle : String → Nat → Option ModReload) (st : PyState)
    (aN bN aname bno wname : String) (A B : PyModule) (v w : PyVal) (r : ModReload)
    (stF : PyState) (lg : List LogEvent)
    (hnr : noRaises st)
    (hdn : distinctModNames st)
    (hdk : distinctDictKeys st)
    (hA : getModule st aN = some A)
    (hB : getModule st bN = some B)
    (hAB : aN ≠ bN)
    (hbind : alookup A.mdict aname = some v)
    (hvmod : valModuleAttr st v = some bN)
    (hvold : (bno, v) ∈ iterMembersList st B)
    (horacle : oracle bN 0 = some r)
    (hw : (wname, w) ∈ iterInternalList (applyReload st bN r) { B with mdict := r.newDict })
    (hKw : fullMemberName (applyReload st bN r) w = fullMemberName st v)
    (huniq : ∀ p ∈ iterInternalList (applyReload st bN r) { B with mdict := r.newDict },
      fullMemberName (applyReload st bN r) p.2 = fullMemberName st v → p.2 = w)
    (hok : superreload oracle [bN] st = .ok (stF, lg)) :
    (∃ A2, getModule stF aN = some A2 ∧ alookup A2.mdict aname = some w)
    ∧ (∀ (icache : List (Nat × List Nat)) (s : PyState) (oldC newC : Nat),
        s.instances.Pairwise (fun a b => a.iid ≠ b.iid) →
        ∀ ins ∈ s.instances, ins.iid ∈ (alookup icache oldC).getD [] →
        (ins.retypable = true →
          { ins with itype := newC } ∈ (update_instances icache s oldC newC).1.instances)
        ∧ (ins.retypable = false →
          ins ∈ (update_instances icache s oldC newC).1.instances))
    ∧ (∀ (s : PyState) (oldC newC : Nat) (nco : ClassObj),
        s.classes.Pairwise (fun a b => a.1 ≠ b.1) →
        getClass s newC = some nco →
        ∀ p ∈ s.classes, oldC ∈ p.2.bases →
        ∀ sco, getClass (update_subclasses s oldC newC) p.1 = some sco →
        ∀ b ∈ sco.bases, baseMatches s b nco = true → b = newC) := by
  refine ⟨binding_repair_core oracle st aN bN aname bno wname A B v w r stF lg
    hnr hdn hdk hA hB hAB hbind hvmod hvold horacle hw hKw huniq hok, ?_, ?_⟩
  · -- instance pointers after repair, with the retypability proviso
    intro icache s oldC newC hdist ins hins hiid
    have hspec := update_instances_fold_spec newC ((alookup icache oldC).getD []) s [] hdist
    have h1 : (update_instances icache s oldC newC).1.instances
        = s.instances.map (fun i =>
            if i.iid ∈ (alookup icache oldC).getD [] ∧ i.retypable
            then { i with itype := newC } else i) := hspec.1
    constructor
    · intro hr
      rw [h1]
      refine List.mem_map.mpr ⟨ins, hins, ?_⟩
      rw [if_pos ⟨hiid, hr⟩]
    · intro hr
      rw [h1]
      refine List.mem_map.mpr ⟨ins, hins, ?_⟩
      have hneg : ¬(ins.iid ∈ (alookup icache oldC).getD [] ∧ ins.retypable = true) := by
        intro hcon
        rw [hr] at hcon
        exact Bool.noConfusion hcon.2
      rw [if_neg hneg]
  · -- no surviving base entry still matches the replaced class's name
    intro s oldC newC nco hdist hnew p hp hb sco hsco b hbmem hbm
    have hsubs : List.Sublist (s.classes.filter (fun q => oldC ∈ q.2.bases)) s.classes :=
      List.filter_sublist s.classes
    have hdsubs : (s.classes.filter (fun q => oldC ∈ q.2.bases)).Pairwise
        (fun a b => a.1 ≠ b.1) := hdist.sublist hsubs
    have hmem0 : ∀ q ∈ s.classes.filter (fun q => oldC ∈ q.2.bases),
        alookup s.classes q.1 = some q.2 := by
      intro q hq
      exact alookup_of_mem_distinct hdist (hsubs.subset hq)
    have hspec := update_subclasses_fold_spec s nco newC
      (s.classes.filter (fun q => oldC ∈ q.2.bases)) s hdsubs hmem0 (fun k => rfl)
    have hunfold : update_subclasses s oldC newC
        = (s.classes.filter (fun q => oldC ∈ q.2.bases)).foldl
            (update_subclasses_step nco newC) s := by
      unfold update_subclasses
      rw [hnew]
    have hpf : p ∈ s.classes.filter (fun q => oldC ∈ q.2.bases) := by
      rw [List.mem_filter]
      exact ⟨hp, by simpa using hb⟩
    have hres : getClass (update_subclasses s oldC newC) p.1
        = some { p.2 with
            bases := p.2.bases.map (fun b0 => if baseMatches s b0 nco then newC else b0) } := by
      rw [hunfold]
      exact hspec.1 p hpf
    rw [hres] at hsco
    injection hsco with hsco2
    rw [← hsco2] at hbmem
    have hbmem2 : b ∈ p.2.bases.map
        (fun b0 => if baseMatches s b0 nco then newC else b0) := hbmem
    rcases List.mem_map.mp hbmem2 with ⟨b0, hb0, hbeq⟩
    by_cases hm0 : baseMatches s b0 nco = true
    · rw [if_pos hm0] at hbeq
      exact hbeq.symm
    · rw [if_neg hm0] at hbeq
      rw [hbeq] at hm0
      exact absurd hbm hm0

theorem C2_witness :
    ((∃ A2, getModule c1StF "A" = some A2 ∧ alookup A2.mdict "f" = some c1f2)
    ∧ (∀ (icache : List (Nat × List Nat)) (s : PyState) (oldC newC : Nat),
        s.instances.Pairwise (fun a b => a.iid ≠ b.iid) →
        ∀ ins ∈ s.instances, ins.iid ∈ (alookup icache oldC).getD [] →
        (ins.retypable = true →
          { ins with itype := newC } ∈ (update_instances icache s oldC newC).1.instances)
        ∧ (ins.retypable = false →
          ins ∈ (update_instances icache s oldC newC).1.instances))
    ∧ (∀ (s : PyState) (oldC newC : Nat) (nco : ClassObj),
        s.classes.Pairwise (fun a b => a.1 ≠ b.1) →
        getClass s newC = some nco →
        ∀ p ∈ s.classes, oldC ∈ p.2.bases →
        ∀ sco, getClass (update_subclasses s oldC newC) p.1 = some sco →
        ∀ b ∈ sco.bases, baseMatches s b nco = true → b = newC)) :=
  C2_invariant_with_provisos c1Oracle c1St "A" "B" "f" "f" "f" c1A c1B c1f1 c1f2
    ⟨[("f", c1f2)], []⟩ c1StF []
    (by decide) (by decide) (by decide) (by decide) (by decide) (by decide)
    (by decide) (by decide) (by decide) (by decide) (by decide) (by decide)
    (by decide) (by rfl)

theorem C9_witness :
    ∃ lg, superreload c9Oracle ["B"] c9St = .ok (c9St, lg) :=
  C9_idempotent_on_consistent_state c9Oracle c9St "B" c9B
    (by decide) (by decide) (by decide) (by decide) (by rfl) (by rfl) (by decide)
    (by
      intro c hc
      have he : oldInternalClasses c9St (cachesPure c9St ["B"]) "B" = [5, 7] := by decide
      rw [he] at hc
      have hc2 : c = 5 ∨ c = 7 := by simpa using hc
      rcases hc2 with h | h
      · subst h
        refine ⟨c9C5, rfl, rfl, ?_⟩
        intro b hbm
        by_cases h5 : (5 : Nat) = b
        · exact h5.symm
        · by_cases h7 : (7 : Nat) = b
          · exfalso
            rw [← h7] at hbm
            exact absurd hbm (by decide)
          · exfalso
            have hg : getClass c9St b = none := by
              show (if (5 : Nat) = b then some c9C5
                else if (7 : Nat) = b then some c9C7 else none) = none
              rw [if_neg h5, if_neg h7]
            unfold baseMatches at hbm
            rw [hg] at hbm
            exact Bool.noConfusion hbm
      · subst h
        refine ⟨c9C7, rfl, rfl, ?_⟩
        intro b hbm
        by_cases h7 : (7 : Nat) = b
        · exact h7.symm
        · by_cases h5 : (5 : Nat) = b
          · exfalso
            rw [← h5] at hbm
            exact absurd hbm (by decide)
          · exfalso
            have hg : getClass c9St b = none := by
              show (if (5 : Nat) = b then some c9C5
                else if (7 : Nat) = b then some c9C7 else none) = none
              rw [if_neg h5, if_neg h7]
            unfold baseMatches at hbm
            rw [hg] at hbm
            exact Bool.noConfusion hbm)
    (by decide)

end SuperReload
